import Mathlib

/-!
# EDFparser: header decoding and record demultiplexing

A shallow embedding of `src/EDFparser.go` (`readBytes`, `HeaderRecord.ReadHeader`,
`HeaderRecord.DataToCSV`) together with the pieces of the Go standard library the
program calls (`os.File.Seek`, `os.File.Read`, `bytes.TrimSpace`, `strconv.Atoi`,
`strconv.Itoa`, `binary.Read` into an `int16`) and the length check of `make`
(`runtime.makeslice`).

Conventions.
* A Go `[]byte` and a Go `string` are both a `List UInt8` (`string(b)` copies the bytes).
* A Go `int` is an `Int`.  Every number the program computes with comes from a header
  field of at most 8 ASCII characters (4 for the signal count), so no sum or product
  in the program leaves the 64-bit range.
* `log.Fatal` and run-time panics end the process; both are an `Except.error`.
* Sizes are those of a 64-bit platform (linux/amd64): a string header has 16 bytes, a
  slice header 24, and `make` panics when the slice asked for is larger than
  `maxAlloc = 2 ^ 48` bytes.  An allocation within that limit is taken to succeed.
* A regular file is read with one `read` system call per `Read`, which returns every
  byte the file still has at the cursor, up to the length asked for.
* `DataToCSV` is embedded up to the fully built `record` matrix; creating and writing
  the `.csv` file is left out.
-/

set_option maxRecDepth 100000

namespace EDFparser

/-- Go byte slices and strings. -/
abbrev Bytes := List UInt8

/-- The ways the process can end abnormally. -/
inductive Error where
  /-- `log.Fatal("File format is not valid.", ...)` -/
  | invalidFormat
  /-- `log.Fatal("Seeking failed: ", err)` -/
  | seekFailed
  /-- `log.Fatal("Reading from file failed: ", err)` -/
  | readFailed
  /-- `log.Fatal("Converting bytes to int16 failed: ", err)` -/
  | convertFailed
  /-- A run-time panic: index out of range, or `make` with a negative length. -/
  | runtimePanic
  /-- The run-time panic of `make` on a non-negative length whose slice is larger than
  the runtime allocates.  Go reports it as `makeslice: len out of range`, like the
  negative length; the two causes are kept apart here. -/
  | allocLimit
  deriving DecidableEq, Repr

deriving instance DecidableEq for Except

/-! ## The source file (`*os.File`) -/

/-- An open regular file: its contents and the cursor. -/
structure File where
  data : Bytes
  pos : Nat
  deriving DecidableEq, Repr

/-- The method `os.File.Seek(offset, whence)`: whence 0 is relative to the start of the file,
1 to the cursor, 2 to the end.  A negative resulting offset (or an unknown whence) is an
error; seeking past the end is allowed. -/
def File.Seek (f : File) (offset : Int) (whence : Int) : Option File :=
  if whence = 0 then
    if offset < 0 then none else some { f with pos := offset.toNat }
  else if whence = 1 then
    if (f.pos : Int) + offset < 0 then none else some { f with pos := ((f.pos : Int) + offset).toNat }
  else if whence = 2 then
    if (f.data.length : Int) + offset < 0 then none
    else some { f with pos := ((f.data.length : Int) + offset).toNat }
  else none

/-- The method `os.File.Read(b)` with `len(b) = n`: `none` is `io.EOF` (nothing left to read and
`n > 0`); otherwise the bytes read (as many as the file still has, at most `n`) and the
file with the cursor advanced by that many bytes. -/
def File.Read (f : File) (n : Nat) : Option (Bytes × File) :=
  if n = 0 then some ([], f)
  else if f.data.length ≤ f.pos then none
  else
    let got := (f.data.drop f.pos).take n
    some (got, { f with pos := f.pos + got.length })

/-- The function `readBytes(source, numToRead, seekOffset, seekWhence)`: seek, then read once into a
zeroed slice of `numToRead` bytes.  The count returned by `Read` is discarded, so a short
read leaves the tail of the slice zero. -/
def readBytes (source : File) (numToRead : Nat) (seekOffset : Int) (seekWhence : Int) :
    Except Error (Bytes × File) :=
  match source.Seek seekOffset seekWhence with
  | none => .error .seekFailed
  | some source =>
    match source.Read numToRead with
    | none => .error .readFailed
    | some (got, source) =>
      .ok (got ++ List.replicate (numToRead - got.length) 0, source)

/-! ## `unicode/utf8` and `bytes.TrimSpace` -/

def RuneError : Nat := 0xFFFD

def RuneSelf : Nat := 0x80

def UTFMax : Nat := 4

/-- The table `utf8.first`: information about the first byte of a UTF-8 sequence. -/
def first (b : Nat) : Nat :=
  if b < 0x80 then 0xF0
  else if b < 0xC2 then 0xF1
  else if b < 0xE0 then 0x02
  else if b = 0xE0 then 0x13
  else if b < 0xED then 0x03
  else if b = 0xED then 0x23
  else if b < 0xF0 then 0x03
  else if b = 0xF0 then 0x34
  else if b < 0xF4 then 0x04
  else if b = 0xF4 then 0x44
  else 0xF1

/-- The table `utf8.acceptRanges`: the accepted range of the second byte. -/
def acceptRanges (i : Nat) : Nat × Nat :=
  if i = 0 then (0x80, 0xBF)
  else if i = 1 then (0xA0, 0xBF)
  else if i = 2 then (0x80, 0x9F)
  else if i = 3 then (0x90, 0xBF)
  else if i = 4 then (0x80, 0x8F)
  else (0, 0)

/-- The function `utf8.DecodeRune(p)`: the first rune of `p` and its width in bytes;
`(RuneError, 1)` on an invalid encoding, `(RuneError, 0)` on empty input. -/
def DecodeRune (p : Bytes) : Nat × Nat :=
  match p with
  | [] => (RuneError, 0)
  | p0 :: rest =>
    let x := first p0.toNat
    if 0xF0 ≤ x then
      if x % 2 = 1 then (RuneError, 1) else (p0.toNat, 1)
    else
      let sz := x % 8
      let accept := acceptRanges (x / 16)
      if p.length < sz then (RuneError, 1)
      else
        match rest with
        | [] => (RuneError, 1)
        | b1 :: rest1 =>
          if b1.toNat < accept.1 ∨ accept.2 < b1.toNat then (RuneError, 1)
          else if sz ≤ 2 then ((p0.toNat % 32) * 64 + b1.toNat % 64, 2)
          else
            match rest1 with
            | [] => (RuneError, 1)
            | b2 :: rest2 =>
              if b2.toNat < 0x80 ∨ 0xBF < b2.toNat then (RuneError, 1)
              else if sz ≤ 3 then
                ((p0.toNat % 16) * 4096 + (b1.toNat % 64) * 64 + b2.toNat % 64, 3)
              else
                match rest2 with
                | [] => (RuneError, 1)
                | b3 :: _ =>
                  if b3.toNat < 0x80 ∨ 0xBF < b3.toNat then (RuneError, 1)
                  else
                    ((p0.toNat % 8) * 262144 + (b1.toNat % 64) * 4096
                      + (b2.toNat % 64) * 64 + b3.toNat % 64, 4)

/-- The function `utf8.RuneStart(b)`: `b` is not a continuation byte. -/
def RuneStart (b : UInt8) : Bool := b.toNat / 64 != 2

/-- The backward scan of `utf8.DecodeLastRune`:
`for start--; start >= lim; start-- { if RuneStart(p[start]) { break } }`,
entered after the first decrement. -/
def lastRuneScan (p : Bytes) (lim : Int) : Nat → Int → Int
  | 0, start => start
  | fuel + 1, start =>
    if lim ≤ start then
      if RuneStart (p.getD start.toNat 0) then start
      else lastRuneScan p lim fuel (start - 1)
    else start

/-- The function `utf8.DecodeLastRune(p)`: the last rune of `p` and its width. -/
def DecodeLastRune (p : Bytes) : Nat × Nat :=
  if p.length = 0 then (RuneError, 0)
  else
    let r := (p.getD (p.length - 1) 0).toNat
    if r < RuneSelf then (r, 1)
    else
      let lim : Int := if (p.length : Int) - UTFMax < 0 then 0 else (p.length : Int) - UTFMax
      let start := lastRuneScan p lim (UTFMax + 1) ((p.length : Int) - 2)
      let start := if start < 0 then 0 else start.toNat
      let d := DecodeRune (p.drop start)
      if start + d.2 ≠ p.length then (RuneError, 1) else d

/-- The function `unicode.IsSpace(r)`. -/
def IsSpace (r : Nat) : Bool :=
  if r ≤ 0xFF then
    r = 0x09 ∨ r = 0x0A ∨ r = 0x0B ∨ r = 0x0C ∨ r = 0x0D ∨ r = 0x20 ∨ r = 0x85 ∨ r = 0xA0
  else
    r = 0x1680 ∨ (0x2000 ≤ r ∧ r ≤ 0x200A) ∨ r = 0x2028 ∨ r = 0x2029 ∨ r = 0x202F
      ∨ r = 0x205F ∨ r = 0x3000

/-- The table `asciiSpace` of package `bytes`. -/
def asciiSpace (c : UInt8) : Bool :=
  c = 0x09 ∨ c = 0x0A ∨ c = 0x0B ∨ c = 0x0C ∨ c = 0x0D ∨ c = 0x20

/-- The loop of `bytes.indexFunc(s, IsSpace, false)` inside `TrimLeftFunc`, returning the
remaining slice `s[i:]` (empty when no rune fails the predicate). -/
def trimLeftLoop : Nat → Bytes → Bytes
  | 0, _ => []
  | fuel + 1, s =>
    match s with
    | [] => []
    | c :: _ =>
      let d := if RuneSelf ≤ c.toNat then DecodeRune s else (c.toNat, 1)
      if IsSpace d.1 = false then s else trimLeftLoop fuel (s.drop d.2)

/-- The function `bytes.TrimLeftFunc(s, unicode.IsSpace)`. -/
def TrimLeftFunc (s : Bytes) : Bytes := trimLeftLoop s.length s

/-- The function `bytes.lastIndexFunc(s, IsSpace, false)`, started at `i`. -/
def lastIndexFunc (s : Bytes) : Nat → Nat → Int
  | 0, _ => -1
  | fuel + 1, i =>
    if 0 < i then
      let c := (s.getD (i - 1) 0).toNat
      let d := if RuneSelf ≤ c then DecodeLastRune (s.take i) else (c, 1)
      if IsSpace d.1 = false then ((i - d.2 : Nat) : Int)
      else lastIndexFunc s fuel (i - d.2)
    else -1

/-- The function `bytes.TrimRightFunc(s, unicode.IsSpace)`. -/
def TrimRightFunc (s : Bytes) : Bytes :=
  let i := lastIndexFunc s s.length s.length
  if 0 ≤ i ∧ RuneSelf ≤ (s.getD i.toNat 0).toNat then
    s.take (i.toNat + (DecodeRune (s.drop i.toNat)).2)
  else s.take (i + 1).toNat

/-- The function `bytes.TrimFunc(s, unicode.IsSpace)`. -/
def TrimFunc (s : Bytes) : Bytes := TrimRightFunc (TrimLeftFunc s)

/-- The second loop of `bytes.TrimSpace`, on the reversed slice `s[start:stop]`: drop ASCII
space from the end; fall back to `TrimFunc` on a non-ASCII byte. -/
def trimSpaceStop : Bytes → Bytes
  | [] => []
  | c :: rest =>
    if RuneSelf ≤ c.toNat then TrimFunc (c :: rest).reverse
    else if asciiSpace c then trimSpaceStop rest
    else (c :: rest).reverse

/-- The function `bytes.TrimSpace(s)`: `s` without leading and trailing white space.  The first
loop drops ASCII space from the front. -/
def TrimSpace : Bytes → Bytes
  | [] => []
  | c :: rest =>
    if RuneSelf ≤ c.toNat then TrimFunc (c :: rest)
    else if asciiSpace c then TrimSpace rest
    else trimSpaceStop (c :: rest).reverse

/-! ## `strconv.Atoi`, `strconv.Itoa`, `binary.Read` -/

/-- The two errors of package `strconv`. -/
inductive NumError where
  | ErrSyntax
  | ErrRange
  deriving DecidableEq, Repr

/-- The digit loop of the fast path of `strconv.Atoi`: `none` is a syntax error. -/
def atoiDigits : Bytes → Nat → Option Nat
  | [], n => some n
  | ch :: rest, n =>
    if ch.toNat < 48 ∨ 57 < ch.toNat then none
    else atoiDigits rest (n * 10 + (ch.toNat - 48))

/-- The digit loop of `strconv.ParseUint(s, 10, 64)`: a byte that is not a digit is a syntax
error with value 0; leaving the 64-bit range stops the loop at once with the largest
value and a range error. -/
def parseUintDigits : Bytes → Nat → Nat × Option NumError
  | [], n => (n, none)
  | c :: rest, n =>
    if c.toNat < 48 ∨ 57 < c.toNat then (0, some .ErrSyntax)
    else if 2 ^ 64 / 10 + 1 ≤ n then (2 ^ 64 - 1, some .ErrRange)
    else if 2 ^ 64 - 1 < n * 10 + (c.toNat - 48) then (2 ^ 64 - 1, some .ErrRange)
    else parseUintDigits rest (n * 10 + (c.toNat - 48))

/-- The function `strconv.ParseInt(s, 10, 0)` on a 64-bit platform. -/
def ParseInt (s : Bytes) : Int × Option NumError :=
  match s with
  | [] => (0, some .ErrSyntax)
  | c :: rest =>
    let neg : Bool := c = 45
    let s1 := if c = 43 ∨ c = 45 then rest else s
    if s1 = [] then (0, some .ErrSyntax)
    else
      let un := parseUintDigits s1 0
      if un.2 = some .ErrSyntax then (0, some .ErrSyntax)
      else if neg = false ∧ 2 ^ 63 ≤ un.1 then (2 ^ 63 - 1, some .ErrRange)
      else if neg = true ∧ 2 ^ 63 < un.1 then (-(2 ^ 63), some .ErrRange)
      else if neg then (-(un.1 : Int), none)
      else ((un.1 : Int), none)

/-- The function `strconv.Atoi(s)` on a 64-bit platform: the value and the error (`none` is `nil`).
Strings of 1 to 18 bytes take the fast path; on a syntax error the value is 0. -/
def Atoi (s : Bytes) : Int × Option NumError :=
  if 0 < s.length ∧ s.length < 19 then
    match s with
    | [] => (0, some .ErrSyntax)
    | c :: rest =>
      let s1 := if c = 45 ∨ c = 43 then rest else s
      if (c = 45 ∨ c = 43) ∧ s1.length < 1 then (0, some .ErrSyntax)
      else
        match atoiDigits s1 0 with
        | none => (0, some .ErrSyntax)
        | some n => if c = 45 then (-(n : Int), none) else ((n : Int), none)
  else ParseInt s

/-- The function `strconv.Itoa(i)`: the decimal text of `i`, with a leading minus sign when negative. -/
def Itoa (i : Int) : Bytes :=
  let digits := (Nat.toDigits 10 i.natAbs).map (fun c => UInt8.ofNat c.toNat)
  if i < 0 then 45 :: digits else digits

/-- The conversion `int16(uint16(lo) | uint16(hi)<<8)`: the signed 16-bit value of two bytes
in little-endian order. -/
def int16LE (lo hi : UInt8) : Int :=
  let u := lo.toNat + 256 * hi.toNat
  if u < 32768 then (u : Int) else (u : Int) - 65536

/-- The call `binary.Read(bytes.NewReader(b), binary.LittleEndian, &tmp)` with `tmp` an `int16`: it needs two
bytes and yields `int16LE b[0] b[1]`; `none` is the error on a shorter reader. -/
def binaryReadInt16 (b : Bytes) : Option Int :=
  match b with
  | lo :: hi :: _ => some (int16LE lo hi)
  | _ => none

/-! ## Slices, allocation and loops -/

/-- The Go expression `xs[i]`: panics when `i` is out of range. -/
def index {α : Type} (xs : List α) (i : Int) : Except Error α :=
  if i < 0 then .error .runtimePanic
  else
    match xs.get? i.toNat with
    | some x => .ok x
    | none => .error .runtimePanic

/-- The constant `maxAlloc` of the Go runtime on linux/amd64 (`1 << 48`): the largest
number of bytes `makeslice` accepts. -/
def maxAlloc : Nat := 281474976710656

/-- The size in bytes of a Go `string` value (pointer and length). -/
def stringSize : Nat := 16

/-- The size in bytes of a Go slice value (pointer, length and capacity). -/
def sliceSize : Nat := 24

/-- The Go expression `make([]T, len)` with `size` the size of `T` in bytes and `zero` its
zero value, as `runtime.makeslice` decides it: panics on a negative length and on a length
with `size * len > maxAlloc`. -/
def make {α : Type} (size : Nat) (zero : α) (len : Int) : Except Error (List α) :=
  if len < 0 then .error .runtimePanic
  else if (maxAlloc : Int) < (size : Int) * len then .error .allocLimit
  else .ok (List.replicate len.toNat zero)

/-- The Go statement `record[row][col] = v`: panics when either index is out of range. -/
def setCell (record : List (List Bytes)) (row col : Int) (v : Bytes) :
    Except Error (List (List Bytes)) := do
  let r ← index record row
  if col < 0 ∨ (r.length : Int) ≤ col then .error .runtimePanic
  else .ok (record.set row.toNat (r.set col.toNat v))

/-- The Go loop `for i := start; i < stop; i++ { body }` with `count = (stop - start).toNat`
iterations, threading the state `s` and stopping at the first error.  (Neither the
bound nor `i` is changed by any loop body of the program.) -/
def forLoop {σ : Type} (body : Int → σ → Except Error σ) : Nat → Int → σ → Except Error σ
  | 0, _, s => .ok s
  | count + 1, i, s =>
    match body i s with
    | .error e => .error e
    | .ok s1 => forLoop body count (i + 1) s1

/-! ## `HeaderRecord` and `ReadHeader` -/

/-- The struct `HeaderRecord`. -/
structure HeaderRecord where
  PatientID : Bytes
  RecordID : Bytes
  StartDate : Bytes
  StartTime : Bytes
  NumOfBytes : Int
  NumOfDR : Int
  DurationOfDR : Int
  NumOfSignals : Int
  NumOfSamples : List Int
  Label : List Bytes
  TrType : List Bytes
  PhDim : List Bytes
  PhMin : List Bytes
  PhMax : List Bytes
  DigMin : List Bytes
  DigMax : List Bytes
  Prefiltering : List Bytes
  deriving DecidableEq, Repr

/-- The zero value `HeaderRecord{}` that `main` starts from. -/
def HeaderRecord.zero : HeaderRecord :=
  { PatientID := [], RecordID := [], StartDate := [], StartTime := [],
    NumOfBytes := 0, NumOfDR := 0, DurationOfDR := 0, NumOfSignals := 0,
    NumOfSamples := [], Label := [], TrType := [], PhDim := [], PhMin := [], PhMax := [],
    DigMin := [], DigMax := [], Prefiltering := [] }

/-- One iteration of the per-signal loop of `ReadHeader` (source lines 49 to 58), for loop
variable `ns`. -/
def readSignal (ns : Int) (st : HeaderRecord × File) : Except Error (HeaderRecord × File) := do
  let header := st.1
  let source := st.2
  let (b, source) ← readBytes source 16 (256 + ns * 16) 0
  let header := { header with Label := header.Label ++ [TrimSpace b] }
  let (b, source) ← readBytes source 80 (256 + header.NumOfSignals * 16 + ns * 80) 0
  let header := { header with TrType := header.TrType ++ [TrimSpace b] }
  let (b, source) ← readBytes source 8 (256 + header.NumOfSignals * 96 + ns * 8) 0
  let header := { header with PhDim := header.PhDim ++ [TrimSpace b] }
  let (b, source) ← readBytes source 8 (256 + header.NumOfSignals * 104 + ns * 8) 0
  let header := { header with PhMin := header.PhMin ++ [TrimSpace b] }
  let (b, source) ← readBytes source 8 (256 + header.NumOfSignals * 112 + ns * 8) 0
  let header := { header with PhMax := header.PhMax ++ [TrimSpace b] }
  let (b, source) ← readBytes source 8 (256 + header.NumOfSignals * 120 + ns * 8) 0
  let header := { header with DigMin := header.DigMin ++ [TrimSpace b] }
  let (b, source) ← readBytes source 8 (256 + header.NumOfSignals * 128 + ns * 8) 0
  let header := { header with DigMax := header.DigMax ++ [TrimSpace b] }
  let (b, source) ← readBytes source 80 (256 + header.NumOfSignals * 136 + ns * 80) 0
  let header := { header with Prefiltering := header.Prefiltering ++ [TrimSpace b] }
  let (b, source) ← readBytes source 8 (256 + header.NumOfSignals * 216 + ns * 8) 0
  let tmp := (Atoi (TrimSpace b)).1
  let header := { header with NumOfSamples := header.NumOfSamples ++ [tmp] }
  pure (header, source)

/-- The body of `ReadHeader` after the version check (source lines 39 to 59): the global
fields, then the per-signal loop `for ns := 0; ns < header.NumOfSignals; ns++`. -/
def readFields (header : HeaderRecord) (source : File) : Except Error (HeaderRecord × File) := do
  let (b, source) ← readBytes source 80 8 0
  let header := { header with PatientID := TrimSpace b }
  let (b, source) ← readBytes source 80 0 1
  let header := { header with RecordID := TrimSpace b }
  let (b, source) ← readBytes source 8 0 1
  let header := { header with StartDate := TrimSpace b }
  let (b, source) ← readBytes source 8 0 1
  let header := { header with StartTime := TrimSpace b }
  let (b, source) ← readBytes source 8 0 1
  let header := { header with NumOfBytes := (Atoi (TrimSpace b)).1 }
  let (b, source) ← readBytes source 8 44 1
  let header := { header with NumOfDR := (Atoi (TrimSpace b)).1 }
  let (b, source) ← readBytes source 8 0 1
  let header := { header with DurationOfDR := (Atoi (TrimSpace b)).1 }
  let (b, source) ← readBytes source 4 0 1
  let header := { header with NumOfSignals := (Atoi (TrimSpace b)).1 }
  forLoop readSignal (header.NumOfSignals - 0).toNat 0 (header, source)

/-- The method `(header *HeaderRecord) ReadHeader(source)`: the updated header and the file (with its
cursor where the last read left it), or the fatal error.  The arguments of the
`log.Fatal` of the version check are evaluated before it is called, hence the second
`readBytes`. -/
def ReadHeader (header : HeaderRecord) (source : File) : Except Error (HeaderRecord × File) := do
  let (b, source) ← readBytes source 8 0 0
  if TrimSpace b ≠ [48] then
    let _ ← readBytes source 8 0 0
    .error .invalidFormat
  else readFields header source

/-! ## `DataToCSV` -/

/-- The state of the fill loops: the matrix `record` and the file. -/
abbrev FillState := List (List Bytes) × File

/-- The body of the row allocation loop (source lines 82 to 87). -/
def allocRow (header : HeaderRecord) (showLabels : Bool) (row : Int)
    (record : List (List Bytes)) : Except Error (List (List Bytes)) := do
  if showLabels = true then
    let n ← index header.NumOfSamples row
    let r ← make stringSize ([] : Bytes) (header.NumOfDR * n + 1)
    let _ ← index record row
    let record := record.set row.toNat r
    let label ← index header.Label row
    setCell record row 0 label
  else
    let n ← index header.NumOfSamples row
    let r ← make stringSize ([] : Bytes) (header.NumOfDR * n)
    let _ ← index record row
    pure (record.set row.toNat r)

/-- The body of both innermost loops (source lines 96 to 99 and 104 to 107): read two bytes
at the cursor, convert them, store the decimal text at `record[row][col]`. -/
def fillCell (row : Int) (col : Int) (st : FillState) : Except Error FillState := do
  let (b, source) ← readBytes st.2 2 0 1
  match binaryReadInt16 b with
  | none => .error .convertFailed
  | some tmp =>
    let record ← setCell st.1 row col (Itoa tmp)
    pure (record, source)

/-- The body of `for row := range record` in the fill loops (source lines 94 to 109), for data
record `DR`. -/
def fillRow (header : HeaderRecord) (showLabels : Bool) (DR : Int) (row : Int)
    (st : FillState) : Except Error FillState := do
  if showLabels = true then
    let n ← index header.NumOfSamples row
    forLoop (fillCell row) ((DR + 1) * n - (n * DR + 1)).toNat (n * DR + 1) st
  else
    let n ← index header.NumOfSamples row
    forLoop (fillCell row) ((DR + 1) * n - n * DR).toNat (n * DR) st

/-- The body of `for DR := 0; DR < header.NumOfDR; DR++` (source lines 93 to 110). -/
def fillRecord (header : HeaderRecord) (showLabels : Bool) (DR : Int)
    (st : FillState) : Except Error FillState :=
  forLoop (fillRow header showLabels DR) st.1.length 0 st

/-- The method `(header *HeaderRecord) DataToCSV(source, showLabels)` up to the end of the fill loops
(source lines 75 to 111): the matrix `record` that is then handed to the CSV writer, and
the file. -/
def DataToCSV (header : HeaderRecord) (source : File) (showLabels : Bool) :
    Except Error FillState := do
  match source.Seek header.NumOfBytes 0 with
  | none => .error .seekFailed
  | some source =>
    let record ← make sliceSize ([] : List Bytes) header.NumOfSignals
    let record ← forLoop (allocRow header showLabels) record.length 0 record
    forLoop (fillRecord header showLabels) (header.NumOfDR - 0).toNat 0 (record, source)

/-! ## Vocabulary of the statements -/

/-- The `n` bytes of `data` at offsets `[off, off + n)` (fewer when `data` ends earlier). -/
def fieldAt (data : Bytes) (off n : Nat) : Bytes := (data.drop off).take n

/-- The sum of the first `i` entries of `NumOfSamples`: the number of samples that precede
signal `i` inside one data record. -/
def samplesBefore (header : HeaderRecord) (i : Nat) : Int := (header.NumOfSamples.take i).sum

/-- The number of samples in one data record. -/
def samplesPerDataRecord (header : HeaderRecord) : Int := header.NumOfSamples.sum

/-- The stream offset of sample `k` of signal `i` in data record `r`:
`NumOfBytes + 2 * (r * (sum of NumOfSamples) + (sum of NumOfSamples before i) + k)`. -/
def sampleOffset (header : HeaderRecord) (i r k : Nat) : Nat :=
  (header.NumOfBytes
    + 2 * ((r : Int) * samplesPerDataRecord header + samplesBefore header i + (k : Int))).toNat

/-- The header after the global fields have been decoded from their fixed offsets. -/
def globalFields (data : Bytes) (header : HeaderRecord) : HeaderRecord :=
  { header with
    PatientID := TrimSpace (fieldAt data 8 80),
    RecordID := TrimSpace (fieldAt data 88 80),
    StartDate := TrimSpace (fieldAt data 168 8),
    StartTime := TrimSpace (fieldAt data 176 8),
    NumOfBytes := (Atoi (TrimSpace (fieldAt data 184 8))).1,
    NumOfDR := (Atoi (TrimSpace (fieldAt data 236 8))).1,
    DurationOfDR := (Atoi (TrimSpace (fieldAt data 244 8))).1,
    NumOfSignals := (Atoi (TrimSpace (fieldAt data 252 4))).1 }

/-- The header after the global fields, with the signal count `ns` given apart (it is
decoded from the last read of the global header, which may be short). -/
def globalFieldsWith (data : Bytes) (header : HeaderRecord) (ns : Int) : HeaderRecord :=
  { globalFields data header with NumOfSignals := ns }

/-- The header with the fields of signal `i` appended to the per-signal arrays, each taken
from its offset in a per-signal block laid out for `N` signals. -/
def appendSignal (data : Bytes) (N i : Nat) (header : HeaderRecord) : HeaderRecord :=
  { header with
    Label := header.Label ++ [TrimSpace (fieldAt data (256 + 16 * i) 16)],
    TrType := header.TrType ++ [TrimSpace (fieldAt data (256 + 16 * N + 80 * i) 80)],
    PhDim := header.PhDim ++ [TrimSpace (fieldAt data (256 + 96 * N + 8 * i) 8)],
    PhMin := header.PhMin ++ [TrimSpace (fieldAt data (256 + 104 * N + 8 * i) 8)],
    PhMax := header.PhMax ++ [TrimSpace (fieldAt data (256 + 112 * N + 8 * i) 8)],
    DigMin := header.DigMin ++ [TrimSpace (fieldAt data (256 + 120 * N + 8 * i) 8)],
    DigMax := header.DigMax ++ [TrimSpace (fieldAt data (256 + 128 * N + 8 * i) 8)],
    Prefiltering := header.Prefiltering ++ [TrimSpace (fieldAt data (256 + 136 * N + 80 * i) 80)],
    NumOfSamples := header.NumOfSamples
      ++ [(Atoi (TrimSpace (fieldAt data (256 + 216 * N + 8 * i) 8))).1] }

/-- The header with the fields of signals `0, ..., k - 1` appended. -/
def appendSignals (data : Bytes) (N : Nat) (header : HeaderRecord) : Nat → HeaderRecord
  | 0 => header
  | k + 1 => appendSignal data N k (appendSignals data N header k)

/-- The number of iterations of the per-signal loop of `ReadHeader`: the signal count
decoded from the four bytes at offset 252, or 0 when that is negative. -/
def signalCount (data : Bytes) : Nat := (Atoi (TrimSpace (fieldAt data 252 4))).1.toNat

/-- An ASCII decimal digit. -/
def isDigit (c : UInt8) : Bool := decide (48 ≤ c.toNat ∧ c.toNat ≤ 57)

/-- The text is a decimal integer: an optional sign followed by at least one digit, and
nothing else. -/
def isDecimalInteger (s : Bytes) : Bool :=
  match s with
  | [] => false
  | c :: rest =>
    if c = 43 ∨ c = 45 then !rest.isEmpty && rest.all isDigit else s.all isDigit

/-- The number written by a string of decimal digits. -/
def digitsValue (s : Bytes) : Nat := s.foldl (fun n c => n * 10 + (c.toNat - 48)) 0

/-- The integer written by a decimal integer text. -/
def decimalValue (s : Bytes) : Int :=
  match s with
  | [] => 0
  | c :: rest =>
    if c = 45 then -(digitsValue rest : Int)
    else if c = 43 then (digitsValue rest : Int)
    else (digitsValue s : Int)

/-- Lenient decoding of a numeric field: its integer value when the text is a decimal
integer, 0 otherwise. -/
def lenientValue (s : Bytes) : Int := if isDecimalInteger s then decimalValue s else 0

/-- Right-trimming as the specification words it: the bytes without their trailing
white space, leading bytes kept. -/
def rightTrim (s : Bytes) : Bytes := (s.reverse.dropWhile asciiSpace).reverse

/-- The value of a sample as the specification words it: `lo + 256 * hi` when `hi < 128`,
and `lo + 256 * hi - 65536` otherwise. -/
def sampleValue (lo hi : UInt8) : Int :=
  if hi.toNat < 128 then (lo.toNat : Int) + 256 * (hi.toNat : Int)
  else (lo.toNat : Int) + 256 * (hi.toNat : Int) - 65536

/-- The index that signal `j` has once signal `i` is removed (for `j` other than `i`). -/
def shiftIdx (i j : Nat) : Nat := if j < i then j else j - 1

/-- The header with signal `i` removed: one signal less, and entry `i` taken out of every
per-signal array. -/
def removeSignal (header : HeaderRecord) (i : Nat) : HeaderRecord :=
  { header with
    NumOfSignals := header.NumOfSignals - 1,
    NumOfSamples := header.NumOfSamples.eraseIdx i,
    Label := header.Label.eraseIdx i,
    TrType := header.TrType.eraseIdx i,
    PhDim := header.PhDim.eraseIdx i,
    PhMin := header.PhMin.eraseIdx i,
    PhMax := header.PhMax.eraseIdx i,
    DigMin := header.DigMin.eraseIdx i,
    DigMax := header.DigMax.eraseIdx i,
    Prefiltering := header.Prefiltering.eraseIdx i }

/-- The state of the fill loops with row `i` taken out of the matrix. -/
def eraseRow (i : Nat) (st : FillState) : FillState := (st.1.eraseIdx i, st.2)

/-! ## Invariants of the fill loops -/

/-- Cell `idx` of row `i` of `record` holds the decimal text of the signed 16-bit
little-endian value of the two bytes of `data` at offset `off`. -/
def CellHolds (data : Bytes) (record : List (List Bytes)) (i idx off : Nat) : Prop :=
  ∃ row lo hi, record[i]? = some row ∧ data[off]? = some lo ∧ data[off + 1]? = some hi ∧
    row[idx]? = some (Itoa (int16LE lo hi))

/-- The state of the fill loops (without labels) when data records `< d` are done, and of
data record `d` the signals `< i`, and of signal `i` the samples `< j`. -/
structure FillInv (data : Bytes) (B D : Nat) (ns : List Nat) (d i j : Nat)
    (st : FillState) : Prop where
  data_eq : st.2.data = data
  pos_eq : st.2.pos = B + 2 * (d * ns.sum + (ns.take i).sum + j)
  rows : st.1.length = ns.length
  row_len : ∀ i1 row, st.1[i1]? = some row → row.length = D * ns.getD i1 0
  cells : ∀ i1 r k, i1 < ns.length → r < D → k < ns.getD i1 0 →
    (r < d ∨ (r = d ∧ (i1 < i ∨ (i1 = i ∧ k < j)))) →
    CellHolds data st.1 i1 (r * ns.getD i1 0 + k) (B + 2 * (r * ns.sum + (ns.take i1).sum + k))


/-- The number of cells a row has besides its samples: 1 for the label when labels are
shown. -/
def labelCells (showLabels : Bool) : Nat := if showLabels then 1 else 0

/-- Every slice that `DataToCSV` asks of `make` is within the limit of the runtime: the
matrix of `NumOfSignals` rows and, for each entry `n` of `NumOfSamples`, a row of
`NumOfDR * n` strings, one more when labels are shown. -/
abbrev AllocFits (header : HeaderRecord) (showLabels : Bool) : Prop :=
  (sliceSize : Int) * header.NumOfSignals ≤ (maxAlloc : Int) ∧
    ∀ n ∈ header.NumOfSamples,
      (stringSize : Int) * (header.NumOfDR * n + (labelCells showLabels : Int))
        ≤ (maxAlloc : Int)

/-- The state of the fill loops, for either value of `showLabels`, when data records `< d`
are done, and of data record `d` the signals `< i`, and of signal `i` at most `j`
samples have been read: the cursor lies between the start of the data and the offset
of that sample, and every row has its full length. -/
structure SafeInv (showLabels : Bool) (data : Bytes) (B D : Nat) (ns : List Nat)
    (d i j : Nat) (st : FillState) : Prop where
  data_eq : st.2.data = data
  pos_ge : B ≤ st.2.pos
  pos_le : st.2.pos ≤ B + 2 * (d * ns.sum + (ns.take i).sum + j)
  rows : st.1.length = ns.length
  row_len : ∀ i1 row, st.1[i1]? = some row →
    row.length = D * ns.getD i1 0 + labelCells showLabels

/-- The only failure of the fill loops on a header with consistent arrays: a read found
the end of the file, which needs the stream to be shorter than the data region. -/
def ShortRead (data : Bytes) (B D : Nat) (ns : List Nat) (e : Error) : Prop :=
  e = .readFailed ∧ 0 < D * ns.sum ∧ data.length < B + 2 * (D * ns.sum)

/-- The shape of row `i` of the matrix that `DataToCSV` builds: `NumOfDR * NumOfSamples[i]`
cells without labels; with labels one more, the first being `Label[i]`. -/
def RowShape (header : HeaderRecord) (showLabels : Bool) (i : Nat) (row : List Bytes) : Prop :=
  ∃ n, header.NumOfSamples[i]? = some n ∧
    (showLabels = false → (row.length : Int) = header.NumOfDR * n) ∧
    (showLabels = true → (row.length : Int) = 1 + header.NumOfDR * n ∧
      ∃ label, header.Label[i]? = some label ∧ row[0]? = some label)

/-! ## Concrete inputs -/

/-- The demultiplexing example of the specification: two signals with 2 and 1 samples per
data record and two data records; the data region starts at offset 4. -/
def exampleHeader : HeaderRecord :=
  { HeaderRecord.zero with
    NumOfBytes := 4, NumOfDR := 2, NumOfSignals := 2, NumOfSamples := [2, 1],
    Label := [[65], [66]] }

/-- Four bytes, then the six little-endian samples 10, 20, 30, 11, 21, 31. -/
def exampleSource : File :=
  ⟨[0, 0, 0, 0, 10, 0, 20, 0, 30, 0, 11, 0, 21, 0, 31, 0], 0⟩

/-- The example header with a negative header byte count: the text `-12` in the
`NumOfBytes` field is decoded by `Atoi` as this value. -/
def negativeOffsetHeader : HeaderRecord := { exampleHeader with NumOfBytes := -12 }

/-- The bytes `s` padded with spaces to a field of `n` bytes. -/
def padded (s : Bytes) (n : Nat) : Bytes := s ++ List.replicate (n - s.length) 32

/-- A well-formed recording with two signals `A` and `B` (2 and 1 samples per data record)
and two data records: a header of 768 bytes followed by the samples 10, 20, 30, 11, 21, 31. -/
def recordingBytes : Bytes :=
  padded [48] 8 ++ padded [80, 49] 80 ++ padded [82, 49] 80
    ++ [48, 49, 46, 48, 49, 46, 48, 49] ++ [49, 48, 46, 48, 48, 46, 48, 48]
    ++ padded [55, 54, 56] 8 ++ padded [] 44 ++ padded [50] 8 ++ padded [49] 8 ++ padded [50] 4
    ++ padded [65] 16 ++ padded [66] 16 ++ padded [] 80 ++ padded [] 80
    ++ padded [117, 86] 8 ++ padded [117, 86] 8 ++ padded [45, 49] 8 ++ padded [45, 49] 8
    ++ padded [49] 8 ++ padded [49] 8 ++ padded [45, 57] 8 ++ padded [45, 57] 8
    ++ padded [57] 8 ++ padded [57] 8 ++ padded [] 80 ++ padded [] 80
    ++ padded [50] 8 ++ padded [49] 8 ++ padded [] 64
    ++ [10, 0, 20, 0, 30, 0, 11, 0, 21, 0, 31, 0]

/-- The header that `ReadHeader` decodes from `recordingBytes`. -/
def recordingHeader : HeaderRecord :=
  { PatientID := [80, 49], RecordID := [82, 49],
    StartDate := [48, 49, 46, 48, 49, 46, 48, 49], StartTime := [49, 48, 46, 48, 48, 46, 48, 48],
    NumOfBytes := 768, NumOfDR := 2, DurationOfDR := 1, NumOfSignals := 2,
    NumOfSamples := [2, 1], Label := [[65], [66]], TrType := [[], []],
    PhDim := [[117, 86], [117, 86]], PhMin := [[45, 49], [45, 49]], PhMax := [[49], [49]],
    DigMin := [[45, 57], [45, 57]], DigMax := [[57], [57]], Prefiltering := [[], []] }

/-- The well-formed recording with the byte at offset 245 replaced by the letter `s`, so
that the duration field reads `1s`. -/
def malformedBytes : Bytes := recordingBytes.set 245 115

/-- The example stream without its last byte: the last sample has only one of its two
bytes. -/
def truncatedSource : File := ⟨exampleSource.data.dropLast, 0⟩

/-- The well-formed recording with other data records: the same 768 header bytes followed
by two different bytes. -/
def otherDataBytes : Bytes := recordingBytes.take 768 ++ [99, 99]

/-- The global header of the well-formed recording with the signal count field reading
`-1`. -/
def negativeCountBytes : Bytes := ((recordingBytes.take 256).set 252 45).set 253 49

/-- The well-formed recording with the first byte of the patient field replaced by a
space, so that the field reads ` 1` followed by spaces. -/
def leadingSpaceBytes : Bytes := recordingBytes.set 8 32

/-- The empty header with a negative header byte count: no signal, no data record. -/
def negativeOffsetEmptyHeader : HeaderRecord := { HeaderRecord.zero with NumOfBytes := -1 }

/-- A header with one signal and no data record whose `NumOfSamples` is empty. -/
def missingSamplesHeader : HeaderRecord := { HeaderRecord.zero with NumOfSignals := 1 }

/-- The example header with a third signal, `Z`, of zero samples per data record placed
between the two others. -/
def zeroSignalHeader : HeaderRecord :=
  { exampleHeader with
    NumOfSignals := 3, NumOfSamples := [2, 0, 1], Label := [[65], [90], [66]] }

theorem readBytes_abs (source : File) (n : Nat) (off : Int) (k : Nat)
    (hoff : off = (k : Int)) (hn : 0 < n) (hlen : k + n ≤ source.data.length) :
    readBytes source n off 0 = .ok (fieldAt source.data k n, ⟨source.data, k + n⟩) := by
  subst hoff
  have h0 : ¬ ((k : Int) < 0) := by omega
  have h1 : ¬ source.data.length ≤ k := by omega
  have h2 : n ≠ 0 := by omega
  have h3 : min n (source.data.length - k) = n := by omega
  simp [readBytes, File.Seek, File.Read, fieldAt, h0, h1, h2, h3]

theorem readBytes_rel (source : File) (n : Nat) (off : Int) (k : Nat)
    (hoff : off = (k : Int)) (hn : 0 < n) (hlen : source.pos + k + n ≤ source.data.length) :
    readBytes source n off 1
      = .ok (fieldAt source.data (source.pos + k) n, ⟨source.data, source.pos + k + n⟩) := by
  subst hoff
  have h0 : ¬ ((source.pos : Int) + (k : Int) < 0) := by omega
  have h1 : ¬ source.data.length ≤ source.pos + k := by omega
  have h2 : n ≠ 0 := by omega
  have h3 : min n (source.data.length - (source.pos + k)) = n := by omega
  have h4 : ((source.pos : Int) + (k : Int)).toNat = source.pos + k := by omega
  simp [readBytes, File.Seek, File.Read, fieldAt, h0, h1, h2, h3, h4]

theorem forLoop_total {σ : Type} (body : Int → σ → Except Error σ) (Inv : Nat → σ → Prop) :
    ∀ (n : Nat) (start : Int) (s : σ), Inv 0 s →
      (∀ k s, k < n → Inv k s → ∃ s1, body (start + k) s = .ok s1 ∧ Inv (k + 1) s1) →
      ∃ s1, forLoop body n start s = .ok s1 ∧ Inv n s1 := by
  intro n
  induction n generalizing Inv with
  | zero => intro start s h0 _; exact ⟨s, rfl, h0⟩
  | succ n ih =>
    intro start s h0 hstep
    obtain ⟨s1, hb, h1⟩ := hstep 0 s (Nat.succ_pos n) h0
    simp only [Nat.cast_zero, add_zero] at hb
    have := ih (fun k => Inv (k + 1)) (start + 1) s1 h1 (by
      intro k s2 hk hi
      obtain ⟨s3, hb3, h3⟩ := hstep (k + 1) s2 (by omega) hi
      refine ⟨s3, ?_, h3⟩
      rw [← hb3]; congr 1; push_cast; ring)
    obtain ⟨s2, hf, h2⟩ := this
    exact ⟨s2, by simp only [forLoop, hb, hf], h2⟩

theorem forLoop_partial {σ : Type} (body : Int → σ → Except Error σ) (Inv : Nat → σ → Prop) :
    ∀ (n : Nat) (start : Int) (s s1 : σ), forLoop body n start s = .ok s1 → Inv 0 s →
      (∀ k s s2, k < n → Inv k s → body (start + k) s = .ok s2 → Inv (k + 1) s2) →
      Inv n s1 := by
  intro n
  induction n generalizing Inv with
  | zero =>
    intro start s s1 h h0 _
    simp only [forLoop, Except.ok.injEq] at h
    exact h ▸ h0
  | succ n ih =>
    intro start s s1 h h0 hstep
    simp only [forLoop] at h
    cases hb : body start s with
    | error e => rw [hb] at h; cases h
    | ok s2 =>
      rw [hb] at h
      have h2 : Inv 1 s2 := hstep 0 s s2 (Nat.succ_pos n) h0 (by simpa using hb)
      exact ih (fun k => Inv (k + 1)) (start + 1) s2 s1 h h2 (by
        intro k s3 s4 hk hi hb4
        refine hstep (k + 1) s3 s4 (by omega) hi ?_
        rw [← hb4]; congr 1; push_cast; ring)

theorem index_ok {α : Type} (xs : List α) (i : Int) (k : Nat) (x : α)
    (hi : i = (k : Int)) (hx : xs[k]? = some x) : index xs i = .ok x := by
  subst hi
  have h0 : ¬ ((k : Int) < 0) := by omega
  simp [index, h0, hx]

theorem fieldAt_two (data : Bytes) (p : Nat) (h : p + 2 ≤ data.length) :
    ∃ lo hi, data[p]? = some lo ∧ data[p + 1]? = some hi ∧ fieldAt data p 2 = [lo, hi] := by
  have h1 : p < data.length := by omega
  have h2 : p + 1 < data.length := by omega
  refine ⟨data[p], data[p + 1], List.getElem?_eq_getElem h1, List.getElem?_eq_getElem h2, ?_⟩
  unfold fieldAt
  rw [List.drop_eq_getElem_cons h1, List.drop_eq_getElem_cons h2]
  rfl

theorem sum_take_succ (ns : List Nat) (i : Nat) (h : i < ns.length) :
    (ns.take (i + 1)).sum = (ns.take i).sum + ns.getD i 0 := by
  induction ns generalizing i with
  | nil => simp at h
  | cons a t ih =>
    cases i with
    | zero => simp
    | succ i =>
      have := ih i (by simpa using h)
      simp only [List.take_succ_cons, List.sum_cons, List.getD_cons_succ] at *
      omega

theorem sum_take_le (ns : List Nat) (i : Nat) : (ns.take i).sum ≤ ns.sum := by
  induction ns generalizing i with
  | nil => simp
  | cons a t ih =>
    cases i with
    | zero => simp
    | succ i =>
      have := ih i
      simp only [List.take_succ_cons, List.sum_cons]
      omega

theorem fillCell_step (data : Bytes) (B D : Nat) (ns : List Nat) (d i j : Nat) (st : FillState)
    (hinv : FillInv data B D ns d i j st) (hd : d < D) (hi : i < ns.length)
    (hj : j < ns.getD i 0) (hdata : B + 2 * (D * ns.sum) ≤ data.length) :
    ∃ st1, fillCell (i : Int) (((ns.getD i 0 : Nat) : Int) * (d : Int) + (j : Int)) st = .ok st1 ∧
      FillInv data B D ns d i (j + 1) st1 := by
  obtain ⟨hdat, hpos, hrows, hrl, hcells⟩ := hinv
  have hP : (ns.take i).sum + ns.getD i 0 ≤ ns.sum := by
    rw [← sum_take_succ ns i hi]; exact sum_take_le ns (i + 1)
  have hDS : (d + 1) * ns.sum ≤ D * ns.sum := Nat.mul_le_mul_right _ hd
  have hDS1 : (d + 1) * ns.sum = d * ns.sum + ns.sum := by ring
  have hDn : (d + 1) * ns.getD i 0 ≤ D * ns.getD i 0 := Nat.mul_le_mul_right _ hd
  have hDn1 : (d + 1) * ns.getD i 0 = d * ns.getD i 0 + ns.getD i 0 := by ring
  have hread : st.2.pos + 0 + 2 ≤ st.2.data.length := by rw [hdat, hpos]; omega
  obtain ⟨lo, hi2, hlo, hhi, hf⟩ := fieldAt_two st.2.data (st.2.pos + 0) hread
  have hrb := readBytes_rel st.2 2 0 0 (by simp) (by omega) hread
  obtain ⟨row, hrow⟩ : ∃ row, st.1[i]? = some row := by
    have : i < st.1.length := by omega
    exact ⟨st.1[i], List.getElem?_eq_getElem this⟩
  have hrowlen := hrl i row hrow
  have hcol : (((ns.getD i 0 : Nat) : Int) * (d : Int) + (j : Int)) = ((d * ns.getD i 0 + j : Nat) : Int) := by
    push_cast; ring
  have hsc : setCell st.1 (i : Int) (((ns.getD i 0 : Nat) : Int) * (d : Int) + (j : Int))
      (Itoa (int16LE lo hi2))
      = .ok (st.1.set i (row.set (d * ns.getD i 0 + j) (Itoa (int16LE lo hi2)))) := by
    rw [hcol]
    have h1 : ¬ (((d * ns.getD i 0 + j : Nat) : Int) < 0 ∨ (row.length : Int) ≤ ((d * ns.getD i 0 + j : Nat) : Int)) := by
      rw [hrowlen]; omega
    simp only [setCell, index_ok st.1 (i : Int) i row rfl hrow, bind, Except.bind, h1, if_false,
      Int.toNat_ofNat]
  refine ⟨(st.1.set i (row.set (d * ns.getD i 0 + j) (Itoa (int16LE lo hi2))),
    ⟨st.2.data, st.2.pos + 0 + 2⟩), ?_, ?_⟩
  · simp only [fillCell, hrb, hf, bind, Except.bind, binaryReadInt16, hsc, pure, Except.pure]
  · refine ⟨hdat, ?_, ?_, ?_, ?_⟩
    · show st.2.pos + 0 + 2 = _
      rw [hpos]; omega
    · simpa using hrows
    · intro i1 row1 h1
      rw [List.getElem?_set] at h1
      split at h1
      · rename_i heq
        subst heq
        split at h1
        · cases h1; simpa using hrowlen
        · cases h1
      · exact hrl i1 row1 h1
    · intro i1 r k hi1 hr hk hdone
      by_cases hnew : i1 = i ∧ r = d ∧ k = j
      · obtain ⟨rfl, rfl, rfl⟩ := hnew
        refine ⟨row.set (r * ns.getD i1 0 + k) (Itoa (int16LE lo hi2)), lo, hi2, ?_, ?_, ?_, ?_⟩
        · rw [List.getElem?_set]; simp; omega
        · rw [← hdat, ← hlo]; congr 1; omega
        · rw [← hdat, ← hhi]; congr 1; omega
        · have hlt : r * ns.getD i1 0 + k < row.length := by rw [hrowlen]; omega
          rw [List.getElem?_set, if_pos rfl, if_pos hlt]
      · have hold : r < d ∨ (r = d ∧ (i1 < i ∨ (i1 = i ∧ k < j))) := by omega
        obtain ⟨row1, lo1, hi1b, hr1, hl1, hh1, hc1⟩ := hcells i1 r k hi1 hr hk hold
        by_cases hii : i1 = i
        · subst hii
          rw [hrow] at hr1
          cases hr1
          refine ⟨row.set (d * ns.getD i1 0 + j) (Itoa (int16LE lo hi2)), lo1, hi1b, ?_, hl1, hh1, ?_⟩
          · rw [List.getElem?_set]; simp; omega
          · have hne : d * ns.getD i1 0 + j ≠ r * ns.getD i1 0 + k := by
              rcases hold with h | ⟨h, h2⟩
              · have : (r + 1) * ns.getD i1 0 ≤ d * ns.getD i1 0 := Nat.mul_le_mul_right _ h
                have : (r + 1) * ns.getD i1 0 = r * ns.getD i1 0 + ns.getD i1 0 := by ring
                omega
              · subst h; omega
            rw [List.getElem?_set_ne hne]; exact hc1
        · refine ⟨row1, lo1, hi1b, ?_, hl1, hh1, hc1⟩
          rw [List.getElem?_set_ne (fun h => hii h.symm)]; exact hr1

theorem getElem?_map_cast (ns : List Nat) (i : Nat) (hi : i < ns.length) :
    (ns.map (fun n : Nat => (n : Int)))[i]? = some ((ns.getD i 0 : Nat) : Int) := by
  rw [List.getElem?_map, List.getD_eq_getElem?_getD, List.getElem?_eq_getElem hi]
  rfl

theorem fillRow_step (header : HeaderRecord) (data : Bytes) (B D : Nat) (ns : List Nat)
    (hns : header.NumOfSamples = ns.map (fun n : Nat => (n : Int)))
    (d i : Nat) (st : FillState)
    (hinv : FillInv data B D ns d i 0 st) (hd : d < D) (hi : i < ns.length)
    (hdata : B + 2 * (D * ns.sum) ≤ data.length) :
    ∃ st1, fillRow header false (d : Int) (i : Int) st = .ok st1 ∧
      FillInv data B D ns d (i + 1) 0 st1 := by
  have hidx : index header.NumOfSamples (i : Int) = .ok ((ns.getD i 0 : Nat) : Int) :=
    index_ok _ _ i _ rfl (by rw [hns]; exact getElem?_map_cast ns i hi)
  have hcount : (((d : Int) + 1) * ((ns.getD i 0 : Nat) : Int)
      - ((ns.getD i 0 : Nat) : Int) * (d : Int)).toNat = ns.getD i 0 := by
    have : ((d : Int) + 1) * ((ns.getD i 0 : Nat) : Int)
      - ((ns.getD i 0 : Nat) : Int) * (d : Int) = ((ns.getD i 0 : Nat) : Int) := by ring
    rw [this]; exact Int.toNat_ofNat _
  obtain ⟨st1, hrun, hfin⟩ := forLoop_total (fillCell (i : Int))
    (fun k => FillInv data B D ns d i k) (ns.getD i 0)
    (((ns.getD i 0 : Nat) : Int) * (d : Int)) st hinv
    (fun k s hk hs => fillCell_step data B D ns d i k s hs hd hi hk hdata)
  refine ⟨st1, ?_, ?_⟩
  · simp only [fillRow, hidx, bind, Except.bind, hcount, hrun]
    simp
  · obtain ⟨hdat, hpos, hrows, hrl, hcells⟩ := hfin
    refine ⟨hdat, ?_, hrows, hrl, ?_⟩
    · rw [hpos, sum_take_succ ns i hi]; omega
    · intro i1 r k hi1 hr hk hdone
      refine hcells i1 r k hi1 hr hk ?_
      by_cases hii : i1 = i
      · subst hii; omega
      · omega

theorem fillRecord_step (header : HeaderRecord) (data : Bytes) (B D : Nat) (ns : List Nat)
    (hns : header.NumOfSamples = ns.map (fun n : Nat => (n : Int)))
    (d : Nat) (st : FillState)
    (hinv : FillInv data B D ns d 0 0 st) (hd : d < D)
    (hdata : B + 2 * (D * ns.sum) ≤ data.length) :
    ∃ st1, fillRecord header false (d : Int) st = .ok st1 ∧
      FillInv data B D ns (d + 1) 0 0 st1 := by
  obtain ⟨st1, hrun, hfin⟩ := forLoop_total (fillRow header false (d : Int))
    (fun k s => k ≤ ns.length ∧ FillInv data B D ns d k 0 s) ns.length 0 st
    ⟨Nat.zero_le _, hinv⟩
    (fun k s hk hs => by
      obtain ⟨s1, h1, h2⟩ := fillRow_step header data B D ns hns d k s hs.2 hd hk hdata
      refine ⟨s1, ?_, by omega, h2⟩
      rw [← h1]; congr 1; simp)
  refine ⟨st1, ?_, ?_⟩
  · simp only [fillRecord, hinv.rows, hrun]
  · obtain ⟨hdat, hpos, hrows, hrl, hcells⟩ := hfin.2
    refine ⟨hdat, ?_, hrows, hrl, ?_⟩
    · rw [hpos, List.take_length]
      have : (d + 1) * ns.sum = d * ns.sum + ns.sum := by ring
      simp only [List.take_zero, List.sum_nil]
      omega
    · intro i1 r k hi1 hr hk hdone
      exact hcells i1 r k hi1 hr hk (by omega)

/-- A `make` with a non-negative length within the allocation limit succeeds. -/
theorem make_ok {α : Type} (size : Nat) (zero : α) (len : Int) (h0 : 0 ≤ len)
    (h1 : (size : Int) * len ≤ (maxAlloc : Int)) :
    make size zero len = .ok (List.replicate len.toNat zero) := by
  have h2 : ¬ len < 0 := not_lt.mpr h0
  have h3 : ¬ (maxAlloc : Int) < (size : Int) * len := not_lt.mpr h1
  simp only [make, h2, h3, if_false]

/-- The row of signal `k` is within the allocation limit when every allocation is. -/
theorem AllocFits_row (header : HeaderRecord) (showLabels : Bool) (D : Nat) (ns : List Nat)
    (hD : header.NumOfDR = (D : Int))
    (hns : header.NumOfSamples = ns.map (fun n : Nat => (n : Int)))
    (hfit : AllocFits header showLabels) (k : Nat) (hk : k < ns.length) :
    (stringSize : Int) * ((D : Int) * ((ns.getD k 0 : Nat) : Int) + (labelCells showLabels : Int))
      ≤ (maxAlloc : Int) := by
  have hmem : ((ns.getD k 0 : Nat) : Int) ∈ header.NumOfSamples :=
    List.getElem?_mem (by rw [hns]; exact getElem?_map_cast ns k hk)
  have := hfit.2 _ hmem
  rw [hD] at this
  exact this

theorem allocRow_noLabels_step (header : HeaderRecord) (D : Nat) (ns : List Nat)
    (hD : header.NumOfDR = (D : Int))
    (hns : header.NumOfSamples = ns.map (fun n : Nat => (n : Int)))
    (hfit : AllocFits header false)
    (k : Nat) (record : List (List Bytes)) (hk : k < ns.length)
    (hrows : record.length = ns.length) :
    allocRow header false (k : Int) record
      = .ok (record.set k (List.replicate (D * ns.getD k 0) [])) := by
  have hidx : index header.NumOfSamples (k : Int) = .ok ((ns.getD k 0 : Nat) : Int) :=
    index_ok _ _ k _ rfl (by rw [hns]; exact getElem?_map_cast ns k hk)
  have hlt : k < record.length := by omega
  have hrow : index record (k : Int) = .ok record[k] :=
    index_ok _ _ k _ rfl (List.getElem?_eq_getElem hlt)
  have hmk : make stringSize ([] : Bytes) ((D : Int) * ((ns.getD k 0 : Nat) : Int))
      = .ok (List.replicate (D * ns.getD k 0) []) := by
    have h0 : (0 : Int) ≤ (D : Int) * ((ns.getD k 0 : Nat) : Int) := by positivity
    have h1 : ((D : Int) * ((ns.getD k 0 : Nat) : Int)).toNat = D * ns.getD k 0 := by
      rw [← Nat.cast_mul]; exact Int.toNat_ofNat _
    have h2 := AllocFits_row header false D ns hD hns hfit k hk
    simp only [labelCells, Bool.false_eq_true, if_false, Nat.cast_zero, add_zero] at h2
    rw [make_ok _ _ _ h0 h2, h1]
  simp only [allocRow, hidx, hD, hmk, hrow, bind, Except.bind, pure, Except.pure]
  simp

theorem DataToCSV_noLabels_inv (header : HeaderRecord) (source : File) (B D : Nat)
    (ns : List Nat) (hB : header.NumOfBytes = (B : Int)) (hD : header.NumOfDR = (D : Int))
    (hS : header.NumOfSignals = (ns.length : Int))
    (hns : header.NumOfSamples = ns.map (fun n : Nat => (n : Int)))
    (hfit : AllocFits header false)
    (hdata : B + 2 * (D * ns.sum) ≤ source.data.length) :
    ∃ st, DataToCSV header source false = .ok st ∧ FillInv source.data B D ns D 0 0 st := by
  have hseek : source.Seek header.NumOfBytes 0 = some ⟨source.data, B⟩ := by
    have h0 : ¬ ((B : Int) < 0) := by omega
    simp [File.Seek, hB, h0]
  have hmk : make sliceSize ([] : List Bytes) header.NumOfSignals
      = .ok (List.replicate ns.length []) := by
    rw [make_ok _ _ _ (by omega) hfit.1, hS, Int.toNat_ofNat]
  obtain ⟨rec0, halloc, hlen0, hrl0⟩ := forLoop_total (allocRow header false)
    (fun k record => record.length = ns.length ∧
      ∀ i1 row, i1 < k → record[i1]? = some row → row.length = D * ns.getD i1 0)
    ns.length 0 (List.replicate ns.length []) ⟨by simp, fun i1 row h _ => by omega⟩
    (fun k record hk hs => by
      refine ⟨record.set k (List.replicate (D * ns.getD k 0) []), ?_, ?_, ?_⟩
      · rw [← allocRow_noLabels_step header D ns hD hns hfit k record hk hs.1]; congr 1; simp
      · simpa using hs.1
      · intro i1 row hi1 hrow
        rw [List.getElem?_set] at hrow
        split at hrow
        · rename_i heq
          subst heq
          split at hrow
          · cases hrow; simp
          · cases hrow
        · exact hs.2 i1 row (by omega) hrow)
  obtain ⟨st, hfill, hfin⟩ := forLoop_total (fillRecord header false)
    (fun k s => k ≤ D ∧ FillInv source.data B D ns k 0 0 s) D 0
    (rec0, ⟨source.data, B⟩)
    ⟨Nat.zero_le _, rfl, by simp, hlen0, fun i1 row hrow => hrl0 i1 row (by
        have h1 : i1 < rec0.length := (List.getElem?_eq_some_iff.1 hrow).1
        omega) hrow,
      fun i1 r k _ _ _ hdone => by omega⟩
    (fun k s hk hs => by
      obtain ⟨s1, h1, h2⟩ := fillRecord_step header source.data B D ns hns k s hs.2 hk hdata
      refine ⟨s1, ?_, by omega, h2⟩
      rw [← h1]; congr 1; simp)
  refine ⟨st, ?_, hfin.2⟩
  simp only [DataToCSV, hseek, hmk, bind, Except.bind, List.length_replicate, halloc, hD]
  simpa using hfill

theorem sum_map_cast (ns : List Nat) :
    (ns.map (fun n : Nat => (n : Int))).sum = ((ns.sum : Nat) : Int) := by
  induction ns with
  | nil => rfl
  | cons a t ih => simp only [List.map_cons, List.sum_cons, ih, Nat.cast_add]

theorem exists_nat_list (l : List Int) (h : ∀ n ∈ l, 0 ≤ n) :
    ∃ ns : List Nat, l = ns.map (fun n : Nat => (n : Int)) := by
  induction l with
  | nil => exact ⟨[], rfl⟩
  | cons a t ih =>
    obtain ⟨ns, hns⟩ := ih (fun n hn => h n (List.mem_cons_of_mem _ hn))
    refine ⟨a.toNat :: ns, ?_⟩
    have ha : ((a.toNat : Nat) : Int) = a := Int.toNat_of_nonneg (h a (List.mem_cons_self _ _))
    simp only [List.map_cons, ha, ← hns]

/-- Demultiplexing order without labels (C1, with the header byte count non-negative and
the matrix within the allocation limit of the runtime): the run succeeds and sample `k`
of signal `i` in data record `r` lands at index `r * NumOfSamples[i] + k` of row `i`.
Beyond the allocation limit the run ends with the panic of `make` before any sample is
read (`DataToCSV_alloc_limit`). -/
theorem DataToCSV_demultiplexes (header : HeaderRecord) (source : File)
    (hB : 0 ≤ header.NumOfBytes) (hD : 0 ≤ header.NumOfDR)
    (hnn : ∀ n ∈ header.NumOfSamples, 0 ≤ n)
    (hlen : (header.NumOfSamples.length : Int) = header.NumOfSignals)
    (hfit : AllocFits header false)
    (hdata : header.NumOfBytes + 2 * header.NumOfDR * samplesPerDataRecord header
      ≤ (source.data.length : Int)) :
    ∃ record source1, DataToCSV header source false = .ok (record, source1) ∧
      ∀ (i r k : Nat) (n : Int), header.NumOfSamples[i]? = some n →
        (r : Int) < header.NumOfDR → (k : Int) < n →
        ∃ row lo hi, record[i]? = some row ∧
          row[((r : Int) * n + (k : Int)).toNat]? = some (Itoa (int16LE lo hi)) ∧
          source.data[sampleOffset header i r k]? = some lo ∧
          source.data[sampleOffset header i r k + 1]? = some hi := by
  obtain ⟨ns, hns⟩ := exists_nat_list header.NumOfSamples hnn
  obtain ⟨B, hBn⟩ := Int.eq_ofNat_of_zero_le hB
  obtain ⟨D, hDn⟩ := Int.eq_ofNat_of_zero_le hD
  have hsum : samplesPerDataRecord header = ((ns.sum : Nat) : Int) := by
    rw [samplesPerDataRecord, hns, sum_map_cast]
  have hSn : header.NumOfSignals = (ns.length : Int) := by
    rw [← hlen, hns, List.length_map]
  have hdataN : B + 2 * (D * ns.sum) ≤ source.data.length := by
    rw [hBn, hDn, hsum] at hdata
    have : (D : Int) * ((ns.sum : Nat) : Int) = ((D * ns.sum : Nat) : Int) := by push_cast; ring
    rw [mul_assoc, this] at hdata
    omega
  obtain ⟨st, hrun, hinv⟩ := DataToCSV_noLabels_inv header source B D ns hBn hDn hSn hns hfit hdataN
  refine ⟨st.1, st.2, hrun, ?_⟩
  intro i r k n hn hr hk
  have hi : i < ns.length := by
    have := (List.getElem?_eq_some_iff.1 hn).1
    rw [hns, List.length_map] at this
    exact this
  have hnval : n = ((ns.getD i 0 : Nat) : Int) := by
    rw [hns, getElem?_map_cast ns i hi] at hn
    exact (Option.some.inj hn).symm
  subst hnval
  obtain ⟨row, lo, hi2, h1, h2, h3, h4⟩ :=
    hinv.cells i r k hi (by omega) (by omega) (Or.inl (by omega))
  have hoff : sampleOffset header i r k = B + 2 * (r * ns.sum + (ns.take i).sum + k) := by
    have hbefore : samplesBefore header i = (((ns.take i).sum : Nat) : Int) := by
      rw [samplesBefore, hns, ← List.map_take, sum_map_cast]
    rw [sampleOffset, hBn, hsum, hbefore]
    have : (B : Int) + 2 * ((r : Int) * ((ns.sum : Nat) : Int) + (((ns.take i).sum : Nat) : Int) + (k : Int))
        = ((B + 2 * (r * ns.sum + (ns.take i).sum + k) : Nat) : Int) := by push_cast; ring
    rw [this]; exact Int.toNat_ofNat _
  have hidx : ((r : Int) * ((ns.getD i 0 : Nat) : Int) + (k : Int)).toNat = r * ns.getD i 0 + k := by
    have : (r : Int) * ((ns.getD i 0 : Nat) : Int) + (k : Int) = ((r * ns.getD i 0 + k : Nat) : Int) := by
      push_cast; ring
    rw [this]; exact Int.toNat_ofNat _
  exact ⟨row, lo, hi2, h1, by rw [hidx]; exact h4, by rw [hoff]; exact h2, by rw [hoff]; exact h3⟩

/-- Witness for C1 on the example of the specification: the rows are `10, 20, 11, 21` and
`30, 31` (as decimal text). -/
theorem DataToCSV_demultiplexes_witness :
    DataToCSV exampleHeader exampleSource false
        = .ok ([[[49, 48], [50, 48], [49, 49], [50, 49]], [[51, 48], [51, 49]]],
            ⟨exampleSource.data, 16⟩) ∧
      ∃ record source1, DataToCSV exampleHeader exampleSource false = .ok (record, source1) ∧
        ∀ (i r k : Nat) (n : Int), exampleHeader.NumOfSamples[i]? = some n →
          (r : Int) < exampleHeader.NumOfDR → (k : Int) < n →
          ∃ row lo hi, record[i]? = some row ∧
            row[((r : Int) * n + (k : Int)).toNat]? = some (Itoa (int16LE lo hi)) ∧
            exampleSource.data[sampleOffset exampleHeader i r k]? = some lo ∧
            exampleSource.data[sampleOffset exampleHeader i r k + 1]? = some hi :=
  ⟨by decide, DataToCSV_demultiplexes exampleHeader exampleSource (by decide) (by decide)
    (by decide) (by decide) (by decide) (by decide)⟩

/-- Counterexample to C1 as stated: all its hypotheses hold (the stream has at least
`NumOfBytes + 2 * NumOfDR * (sum of NumOfSamples) = 0` bytes), but the header byte count
is negative and the seek fails. -/
theorem DataToCSV_negative_offset_fails :
    0 ≤ negativeOffsetHeader.NumOfSignals ∧ 0 ≤ negativeOffsetHeader.NumOfDR ∧
      (∀ n ∈ negativeOffsetHeader.NumOfSamples, 0 ≤ n) ∧
      (negativeOffsetHeader.NumOfSamples.length : Int) = negativeOffsetHeader.NumOfSignals ∧
      (negativeOffsetHeader.Label.length : Int) = negativeOffsetHeader.NumOfSignals ∧
      negativeOffsetHeader.NumOfBytes
          + 2 * negativeOffsetHeader.NumOfDR * samplesPerDataRecord negativeOffsetHeader
        ≤ (exampleSource.data.length : Int) ∧
      DataToCSV negativeOffsetHeader exampleSource false = .error .seekFailed := by
  decide

/-- Evaluation for C2 on the example of the specification: with labels, row 0 is
`A, 10, (empty), 20, (empty)` and row 1 is `B, (empty), (empty)`, and only two samples
are read; without labels the rows are `10, 20, 11, 21` and `30, 31`. -/
theorem DataToCSV_labels_lose_samples :
    DataToCSV exampleHeader exampleSource true
        = .ok ([[[65], [49, 48], [], [50, 48], []], [[66], [], []]],
            ⟨exampleSource.data, 8⟩) ∧
      DataToCSV exampleHeader exampleSource false
        = .ok ([[[49, 48], [50, 48], [49, 49], [50, 49]], [[51, 48], [51, 49]]],
            ⟨exampleSource.data, 16⟩) := by
  decide

theorem index_eq_ok {α : Type} (xs : List α) (i : Int) (x : α) (h : index xs i = .ok x) :
    0 ≤ i ∧ xs[i.toNat]? = some x := by
  unfold index at h
  split at h
  · cases h
  · rename_i hneg
    split at h
    · rename_i y hy
      cases h
      exact ⟨by omega, by simpa using hy⟩
    · cases h

theorem make_eq_ok {α : Type} (size : Nat) (zero : α) (len : Int) (l : List α)
    (h : make size zero len = .ok l) :
    0 ≤ len ∧ l = List.replicate len.toNat zero := by
  unfold make at h
  split at h
  · cases h
  · split at h
    · cases h
    · cases h; exact ⟨by omega, rfl⟩

theorem setCell_eq_ok (record : List (List Bytes)) (row col : Int) (v : Bytes)
    (record1 : List (List Bytes)) (h : setCell record row col v = .ok record1) :
    ∃ r, 0 ≤ row ∧ record[row.toNat]? = some r ∧ 0 ≤ col ∧ col < (r.length : Int) ∧
      record1 = record.set row.toNat (r.set col.toNat v) := by
  unfold setCell at h
  cases hidx : index record row with
  | error e => rw [hidx] at h; cases h
  | ok r =>
    rw [hidx] at h
    obtain ⟨h0, hr⟩ := index_eq_ok _ _ _ hidx
    simp only [bind, Except.bind] at h
    split at h
    · cases h
    · rename_i hcol
      cases h
      exact ⟨r, h0, hr, by omega, by omega, rfl⟩

/-- Writing a cell keeps the shape of every row, provided the label cell (column 0 when
labels are shown) is not the one written. -/
theorem setCell_shape (header : HeaderRecord) (showLabels : Bool)
    (record : List (List Bytes)) (row col : Int) (v : Bytes) (record1 : List (List Bytes))
    (h : setCell record row col v = .ok record1) (hcol : showLabels = true → 1 ≤ col)
    (hshape : ∀ i r, record[i]? = some r → RowShape header showLabels i r) :
    record1.length = record.length ∧
      ∀ i r, record1[i]? = some r → RowShape header showLabels i r := by
  obtain ⟨r0, h0, hr0, hc0, hc1, rfl⟩ := setCell_eq_ok _ _ _ _ _ h
  refine ⟨by simp, ?_⟩
  intro i r hr
  rw [List.getElem?_set] at hr
  split at hr
  · rename_i heq
    split at hr
    · cases hr
      subst heq
      obtain ⟨n, hn, hf, ht⟩ := hshape _ _ hr0
      refine ⟨n, hn, ?_, ?_⟩
      · intro hs; simpa using hf hs
      · intro hs
        obtain ⟨hl, label, hlab, hz⟩ := ht hs
        refine ⟨by simpa using hl, label, hlab, ?_⟩
        have hne : col.toNat ≠ 0 := by have := hcol hs; omega
        rw [List.getElem?_set_ne hne]; exact hz
    · cases hr
  · exact hshape i r hr

/-- The shape invariant of the matrix during the fill loops. -/
theorem fillCell_shape (header : HeaderRecord) (showLabels : Bool) (row col : Int)
    (st st1 : FillState) (h : fillCell row col st = .ok st1)
    (hcol : showLabels = true → 1 ≤ col)
    (hshape : ∀ i r, st.1[i]? = some r → RowShape header showLabels i r) :
    st1.1.length = st.1.length ∧
      ∀ i r, st1.1[i]? = some r → RowShape header showLabels i r := by
  unfold fillCell at h
  cases hrb : readBytes st.2 2 0 1 with
  | error e => rw [hrb] at h; cases h
  | ok bs =>
    rw [hrb] at h
    simp only [bind, Except.bind] at h
    cases hconv : binaryReadInt16 bs.1 with
    | none => rw [hconv] at h; cases h
    | some tmp =>
      rw [hconv] at h
      simp only at h
      cases hset : setCell st.1 row col (Itoa tmp) with
      | error e => rw [hset] at h; cases h
      | ok record1 =>
        rw [hset] at h
        cases h
        exact setCell_shape header showLabels st.1 row col (Itoa tmp) record1 hset hcol hshape

theorem fillRow_shape (header : HeaderRecord) (showLabels : Bool) (DR row : Int)
    (st st1 : FillState) (h : fillRow header showLabels DR row st = .ok st1) (hDR : 0 ≤ DR)
    (hshape : ∀ i r, st.1[i]? = some r → RowShape header showLabels i r) :
    st1.1.length = st.1.length ∧
      ∀ i r, st1.1[i]? = some r → RowShape header showLabels i r := by
  unfold fillRow at h
  cases hidx : index header.NumOfSamples row with
  | error e => rw [hidx] at h; cases showLabels <;> cases h
  | ok n =>
    rw [hidx] at h
    simp only [bind, Except.bind] at h
    cases showLabels with
    | false =>
      simp only [Bool.false_eq_true, if_false] at h
      exact forLoop_partial (fillCell row)
        (fun _ s => s.1.length = st.1.length ∧ ∀ i r, s.1[i]? = some r → RowShape header false i r)
        _ _ st st1 h ⟨rfl, hshape⟩
        (fun k s s2 _ hs hb => by
          obtain ⟨h1, h2⟩ := fillCell_shape header false row _ s s2 hb (by simp) hs.2
          exact ⟨h1.trans hs.1, h2⟩)
    | true =>
      simp only [if_true] at h
      exact forLoop_partial (fillCell row)
        (fun _ s => s.1.length = st.1.length ∧ ∀ i r, s.1[i]? = some r → RowShape header true i r)
        _ _ st st1 h ⟨rfl, hshape⟩
        (fun k s s2 hk hs hb => by
          have hn : 2 ≤ n := by
            have : (DR + 1) * n - (n * DR + 1) = n - 1 := by ring
            rw [this] at hk
            omega
          have hpos : 0 ≤ n * DR := by positivity
          obtain ⟨h1, h2⟩ := fillCell_shape header true row _ s s2 hb (fun _ => by omega) hs.2
          exact ⟨h1.trans hs.1, h2⟩)

theorem fillRecord_shape (header : HeaderRecord) (showLabels : Bool) (DR : Int)
    (st st1 : FillState) (h : fillRecord header showLabels DR st = .ok st1) (hDR : 0 ≤ DR)
    (hshape : ∀ i r, st.1[i]? = some r → RowShape header showLabels i r) :
    st1.1.length = st.1.length ∧
      ∀ i r, st1.1[i]? = some r → RowShape header showLabels i r :=
  forLoop_partial (fillRow header showLabels DR)
    (fun _ s => s.1.length = st.1.length ∧ ∀ i r, s.1[i]? = some r → RowShape header showLabels i r)
    _ _ st st1 h ⟨rfl, hshape⟩
    (fun k s s2 _ hs hb => by
      obtain ⟨h1, h2⟩ := fillRow_shape header showLabels DR _ s s2 hb hDR hs.2
      exact ⟨h1.trans hs.1, h2⟩)

theorem allocRow_shape (header : HeaderRecord) (showLabels : Bool) (k : Nat)
    (record record1 : List (List Bytes))
    (h : allocRow header showLabels (k : Int) record = .ok record1)
    (hshape : ∀ i r, i < k → record[i]? = some r → RowShape header showLabels i r) :
    record1.length = record.length ∧
      ∀ i r, i < k + 1 → record1[i]? = some r → RowShape header showLabels i r := by
  unfold allocRow at h
  cases hidx : index header.NumOfSamples (k : Int) with
  | error e => rw [hidx] at h; cases showLabels <;> cases h
  | ok n =>
    rw [hidx] at h
    obtain ⟨-, hn⟩ := index_eq_ok _ _ _ hidx
    simp only [Int.toNat_ofNat] at hn
    simp only [bind, Except.bind] at h
    cases showLabels with
    | false =>
      simp only [Bool.false_eq_true, if_false] at h
      cases hmk : make stringSize ([] : Bytes) (header.NumOfDR * n) with
      | error e => rw [hmk] at h; cases h
      | ok r0 =>
        rw [hmk] at h
        obtain ⟨hlen0, rfl⟩ := make_eq_ok _ _ _ _ hmk
        cases hrow : index record (k : Int) with
        | error e => rw [hrow] at h; cases h
        | ok old =>
          rw [hrow] at h
          simp only [pure, Except.pure, Int.toNat_ofNat] at h
          cases h
          refine ⟨by simp, ?_⟩
          intro i r hi hr
          rw [List.getElem?_set] at hr
          split at hr
          · rename_i heq
            subst heq
            split at hr
            · cases hr
              refine ⟨n, hn, fun _ => ?_, fun hs => by cases hs⟩
              rw [List.length_replicate]; omega
            · cases hr
          · exact hshape i r (by omega) hr
    | true =>
      simp only [if_true] at h
      cases hmk : make stringSize ([] : Bytes) (header.NumOfDR * n + 1) with
      | error e => rw [hmk] at h; cases h
      | ok r0 =>
        rw [hmk] at h
        obtain ⟨hlen0, rfl⟩ := make_eq_ok _ _ _ _ hmk
        cases hrow : index record (k : Int) with
        | error e => rw [hrow] at h; cases h
        | ok old =>
          rw [hrow] at h
          cases hlab : index header.Label (k : Int) with
          | error e => rw [hlab] at h; cases h
          | ok label =>
            rw [hlab] at h
            obtain ⟨-, hlabel⟩ := index_eq_ok _ _ _ hlab
            simp only [Int.toNat_ofNat] at hlabel h
            obtain ⟨r1, -, hr1, -, hc1, rfl⟩ := setCell_eq_ok _ _ _ _ _ h
            simp only [Int.toNat_ofNat, Int.toNat_zero] at hr1 ⊢
            refine ⟨by simp, ?_⟩
            intro i r hi hr
            rw [List.set_set, List.getElem?_set] at hr
            split at hr
            · rename_i heq
              subst heq
              split at hr
              · rename_i hlt
                rw [List.getElem?_set, if_pos rfl, if_pos hlt] at hr1
                cases hr1
                cases hr
                refine ⟨n, hn, fun hs => (by cases hs), fun _ => ⟨?_, label, hlabel, ?_⟩⟩
                · rw [List.length_set, List.length_replicate]; omega
                · rw [List.getElem?_set, if_pos rfl, if_pos (by
                    rw [List.length_replicate] at hc1 ⊢; omega)]
              · cases hr
            · exact hshape i r (by omega) hr

/-- Row shape (C3): when `DataToCSV` succeeds the matrix has `NumOfSignals` rows; without
labels row `i` has `NumOfDR * NumOfSamples[i]` cells, with labels one more, the first
being `Label[i]`. -/
theorem DataToCSV_row_shape (header : HeaderRecord) (source : File) (showLabels : Bool)
    (record : List (List Bytes)) (source1 : File)
    (h : DataToCSV header source showLabels = .ok (record, source1)) :
    (record.length : Int) = header.NumOfSignals ∧
      ∀ (i : Nat) (row : List Bytes), record[i]? = some row →
        ∃ n, header.NumOfSamples[i]? = some n ∧
          (showLabels = false → (row.length : Int) = header.NumOfDR * n) ∧
          (showLabels = true → (row.length : Int) = 1 + header.NumOfDR * n ∧
            ∃ label, header.Label[i]? = some label ∧ row[0]? = some label) := by
  unfold DataToCSV at h
  cases hseek : source.Seek header.NumOfBytes 0 with
  | none => rw [hseek] at h; cases h
  | some src =>
    rw [hseek] at h
    simp only [bind, Except.bind] at h
    cases hmk : make sliceSize ([] : List Bytes) header.NumOfSignals with
    | error e => rw [hmk] at h; cases h
    | ok rec0 =>
      rw [hmk] at h
      obtain ⟨hS, rfl⟩ := make_eq_ok _ _ _ _ hmk
      simp only at h
      cases halloc : forLoop (allocRow header showLabels)
          (List.replicate header.NumOfSignals.toNat ([] : List Bytes)).length 0
          (List.replicate header.NumOfSignals.toNat []) with
      | error e => rw [halloc] at h; cases h
      | ok rec1 =>
        rw [halloc] at h
        simp only at h
        have h1 := forLoop_partial (allocRow header showLabels)
          (fun k r => r.length = header.NumOfSignals.toNat ∧
            ∀ i row, i < k → r[i]? = some row → RowShape header showLabels i row)
          _ _ _ _ halloc ⟨by simp, fun i row hi _ => by omega⟩
          (fun k r r2 _ hs hb => by
            rw [zero_add] at hb
            obtain ⟨h1, h2⟩ := allocRow_shape header showLabels k r r2 hb hs.2
            exact ⟨h1.trans hs.1, h2⟩)
        have h2 := forLoop_partial (fillRecord header showLabels)
          (fun _ s => s.1.length = header.NumOfSignals.toNat ∧
            ∀ i row, s.1[i]? = some row → RowShape header showLabels i row)
          _ _ _ _ h ⟨h1.1, fun i row hr => h1.2 i row (by
              have := (List.getElem?_eq_some_iff.1 hr).1
              simp only [List.length_replicate] at *
              omega) hr⟩
          (fun k s s2 _ hs hb => by
            obtain ⟨h3, h4⟩ := fillRecord_shape header showLabels _ s s2 hb (by omega) hs.2
            exact ⟨h3.trans hs.1, h4⟩)
        exact ⟨by rw [h2.1]; omega, h2.2⟩

/-- Witness for C3: the run with labels on the example of the specification. -/
theorem DataToCSV_row_shape_witness :
    ((([[[65], [49, 48], [], [50, 48], []], [[66], [], []]] : List (List Bytes)).length : Int)
        = exampleHeader.NumOfSignals) ∧
      ∀ (i : Nat) (row : List Bytes),
        ([[[65], [49, 48], [], [50, 48], []], [[66], [], []]] : List (List Bytes))[i]? = some row →
        ∃ n, exampleHeader.NumOfSamples[i]? = some n ∧
          (true = false → (row.length : Int) = exampleHeader.NumOfDR * n) ∧
          (true = true → (row.length : Int) = 1 + exampleHeader.NumOfDR * n ∧
            ∃ label, exampleHeader.Label[i]? = some label ∧ row[0]? = some label) :=
  DataToCSV_row_shape exampleHeader exampleSource true
    [[[65], [49, 48], [], [50, 48], []], [[66], [], []]] ⟨exampleSource.data, 8⟩ (by decide)

theorem readSignal_full (data : Bytes) (N k p : Nat) (header : HeaderRecord)
    (hN : header.NumOfSignals = (N : Int)) (hk : k < N) (hlen : 256 + 224 * N ≤ data.length) :
    readSignal (k : Int) (header, ⟨data, p⟩)
      = .ok (appendSignal data N k header, ⟨data, 256 + 216 * N + 8 * k + 8⟩) := by
  simp only [readSignal, bind, Except.bind, hN]
  rw [readBytes_abs _ 16 _ (256 + 16 * k) (by push_cast; ring) (by omega) (by simp only; omega)]
  simp only
  rw [readBytes_abs _ 80 _ (256 + 16 * N + 80 * k) (by push_cast; ring) (by omega) (by simp only; omega)]
  simp only
  rw [readBytes_abs _ 8 _ (256 + 96 * N + 8 * k) (by push_cast; ring) (by omega) (by simp only; omega)]
  simp only
  rw [readBytes_abs _ 8 _ (256 + 104 * N + 8 * k) (by push_cast; ring) (by omega) (by simp only; omega)]
  simp only
  rw [readBytes_abs _ 8 _ (256 + 112 * N + 8 * k) (by push_cast; ring) (by omega) (by simp only; omega)]
  simp only
  rw [readBytes_abs _ 8 _ (256 + 120 * N + 8 * k) (by push_cast; ring) (by omega) (by simp only; omega)]
  simp only
  rw [readBytes_abs _ 8 _ (256 + 128 * N + 8 * k) (by push_cast; ring) (by omega) (by simp only; omega)]
  simp only
  rw [readBytes_abs _ 80 _ (256 + 136 * N + 80 * k) (by push_cast; ring) (by omega) (by simp only; omega)]
  simp only
  rw [readBytes_abs _ 8 _ (256 + 216 * N + 8 * k) (by push_cast; ring) (by omega) (by simp only; omega)]
  simp only [pure, Except.pure, appendSignal, hN]

theorem appendSignals_NumOfSignals (data : Bytes) (N : Nat) (header : HeaderRecord) (k : Nat) :
    (appendSignals data N header k).NumOfSignals = header.NumOfSignals := by
  induction k with
  | zero => rfl
  | succ k ih => simpa only [appendSignals, appendSignal] using ih

/-- The per-signal loop on a file that holds all per-signal fields. -/
theorem signalLoop_full (data : Bytes) (N p : Nat) (header : HeaderRecord)
    (hN : header.NumOfSignals.toNat = N) (hlen : 256 + 224 * N ≤ data.length) :
    forLoop readSignal N 0 (header, ⟨data, p⟩)
      = .ok (appendSignals data N header N, ⟨data, if N = 0 then p else 256 + 224 * N⟩) := by
  obtain ⟨st, hrun, hst⟩ := forLoop_total readSignal
    (fun k st => st = (appendSignals data N header k,
      (⟨data, if k = 0 then p else 256 + 216 * N + 8 * k⟩ : File)))
    N 0 (header, ⟨data, p⟩) rfl
    (fun k st hk hs => by
      subst hs
      refine ⟨_, ?_, rfl⟩
      have hNk : (appendSignals data N header k).NumOfSignals = (N : Int) := by
        rw [appendSignals_NumOfSignals]; omega
      rw [zero_add, readSignal_full data N k _ _ hNk hk hlen]
      simp only [appendSignals, Nat.succ_ne_zero, if_false, Except.ok.injEq, Prod.mk.injEq,
        File.mk.injEq, true_and]
      omega)
  rw [hrun, hst]
  by_cases h0 : N = 0
  · simp [h0]
  · simp only [h0, if_false, Except.ok.injEq, Prod.mk.injEq, File.mk.injEq, true_and]
    omega

/-- The global fields are read from their fixed offsets when the file has 256 bytes. -/
theorem readFields_global (header : HeaderRecord) (source : File)
    (hlen : 256 ≤ source.data.length) :
    readFields header source
      = forLoop readSignal (globalFields source.data header).NumOfSignals.toNat 0
          (globalFields source.data header, ⟨source.data, 256⟩) := by
  simp only [readFields, bind, Except.bind]
  rw [readBytes_abs _ 80 _ 8 (by norm_num) (by omega) (by omega)]
  simp only
  rw [readBytes_rel _ 80 _ 0 (by norm_num) (by omega) (by simp only; omega)]
  simp only
  rw [readBytes_rel _ 8 _ 0 (by norm_num) (by omega) (by simp only; omega)]
  simp only
  rw [readBytes_rel _ 8 _ 0 (by norm_num) (by omega) (by simp only; omega)]
  simp only
  rw [readBytes_rel _ 8 _ 0 (by norm_num) (by omega) (by simp only; omega)]
  simp only
  rw [readBytes_rel _ 8 _ 44 (by norm_num) (by omega) (by simp only; omega)]
  simp only
  rw [readBytes_rel _ 8 _ 0 (by norm_num) (by omega) (by simp only; omega)]
  simp only
  rw [readBytes_rel _ 4 _ 0 (by norm_num) (by omega) (by simp only; omega)]
  simp only [globalFields, sub_zero, Nat.add_zero]

/-- The version check on a file that is not empty. -/
theorem ReadHeader_eq (header : HeaderRecord) (source : File) (hlen : 8 ≤ source.data.length) :
    ReadHeader header source
      = if TrimSpace (fieldAt source.data 0 8) ≠ [48] then .error .invalidFormat
        else readFields header ⟨source.data, 8⟩ := by
  simp only [ReadHeader, bind, Except.bind]
  rw [readBytes_abs _ 8 _ 0 (by norm_num) (by omega) (by omega)]
  simp only
  rw [readBytes_abs _ 8 _ 0 (by norm_num) (by omega) (by simp only; omega)]

theorem readSignal_globals (ns : Int) (st st1 : HeaderRecord × File)
    (h : readSignal ns st = .ok st1) :
    st1.1.PatientID = st.1.PatientID ∧ st1.1.RecordID = st.1.RecordID ∧
      st1.1.StartDate = st.1.StartDate ∧ st1.1.StartTime = st.1.StartTime ∧
      st1.1.NumOfBytes = st.1.NumOfBytes ∧ st1.1.NumOfDR = st.1.NumOfDR ∧
      st1.1.DurationOfDR = st.1.DurationOfDR ∧ st1.1.NumOfSignals = st.1.NumOfSignals := by
  simp only [readSignal, bind, Except.bind] at h
  iterate 9 (split at h; · cases h)
  cases h
  exact ⟨rfl, rfl, rfl, rfl, rfl, rfl, rfl, rfl⟩

/-- The global fields after a successful `ReadHeader` on a file of at least 256 bytes. -/
theorem ReadHeader_globals (header : HeaderRecord) (source : File)
    (header1 : HeaderRecord) (source1 : File) (hlen : 256 ≤ source.data.length)
    (h : ReadHeader header source = .ok (header1, source1)) :
    header1.PatientID = TrimSpace (fieldAt source.data 8 80) ∧
      header1.RecordID = TrimSpace (fieldAt source.data 88 80) ∧
      header1.StartDate = TrimSpace (fieldAt source.data 168 8) ∧
      header1.StartTime = TrimSpace (fieldAt source.data 176 8) ∧
      header1.NumOfBytes = (Atoi (TrimSpace (fieldAt source.data 184 8))).1 ∧
      header1.NumOfDR = (Atoi (TrimSpace (fieldAt source.data 236 8))).1 ∧
      header1.DurationOfDR = (Atoi (TrimSpace (fieldAt source.data 244 8))).1 ∧
      header1.NumOfSignals = (Atoi (TrimSpace (fieldAt source.data 252 4))).1 := by
  rw [ReadHeader_eq header source (by omega)] at h
  split at h
  · cases h
  · rw [readFields_global header ⟨source.data, 8⟩ hlen] at h
    exact forLoop_partial readSignal
      (fun _ st => st.1.PatientID = TrimSpace (fieldAt source.data 8 80) ∧
        st.1.RecordID = TrimSpace (fieldAt source.data 88 80) ∧
        st.1.StartDate = TrimSpace (fieldAt source.data 168 8) ∧
        st.1.StartTime = TrimSpace (fieldAt source.data 176 8) ∧
        st.1.NumOfBytes = (Atoi (TrimSpace (fieldAt source.data 184 8))).1 ∧
        st.1.NumOfDR = (Atoi (TrimSpace (fieldAt source.data 236 8))).1 ∧
        st.1.DurationOfDR = (Atoi (TrimSpace (fieldAt source.data 244 8))).1 ∧
        st.1.NumOfSignals = (Atoi (TrimSpace (fieldAt source.data 252 4))).1)
      _ _ _ _ h ⟨rfl, rfl, rfl, rfl, rfl, rfl, rfl, rfl⟩
      (fun k s s2 _ hs hb => by
        obtain ⟨g1, g2, g3, g4, g5, g6, g7, g8⟩ := readSignal_globals _ _ _ hb
        obtain ⟨i1, i2, i3, i4, i5, i6, i7, i8⟩ := hs
        exact ⟨g1.trans i1, g2.trans i2, g3.trans i3, g4.trans i4, g5.trans i5, g6.trans i6,
          g7.trans i7, g8.trans i8⟩)

/-- The whole of `ReadHeader` on a file that holds the global header and every per-signal
field: the decoded header and the final cursor. -/
theorem ReadHeader_full (header : HeaderRecord) (source : File)
    (hv : TrimSpace (fieldAt source.data 0 8) = [48]) (hlen : 256 ≤ source.data.length)
    (hlenN : 256 + 224 * signalCount source.data ≤ source.data.length) :
    ReadHeader header source
      = .ok (appendSignals source.data (signalCount source.data)
              (globalFields source.data header) (signalCount source.data),
            ⟨source.data, if signalCount source.data = 0 then 256
              else 256 + 224 * signalCount source.data⟩) := by
  rw [ReadHeader_eq header source (by omega), if_neg (by simp [hv]),
    readFields_global header ⟨source.data, 8⟩ hlen]
  exact signalLoop_full source.data (signalCount source.data) 256
    (globalFields source.data header) rfl hlenN

theorem appendSignals_arrays (data : Bytes) (N : Nat) (header : HeaderRecord) (k : Nat) :
    (appendSignals data N header k).Label
        = header.Label ++ (List.range k).map (fun i => TrimSpace (fieldAt data (256 + 16 * i) 16)) ∧
      (appendSignals data N header k).TrType
        = header.TrType
          ++ (List.range k).map (fun i => TrimSpace (fieldAt data (256 + 16 * N + 80 * i) 80)) ∧
      (appendSignals data N header k).PhDim
        = header.PhDim
          ++ (List.range k).map (fun i => TrimSpace (fieldAt data (256 + 96 * N + 8 * i) 8)) ∧
      (appendSignals data N header k).PhMin
        = header.PhMin
          ++ (List.range k).map (fun i => TrimSpace (fieldAt data (256 + 104 * N + 8 * i) 8)) ∧
      (appendSignals data N header k).PhMax
        = header.PhMax
          ++ (List.range k).map (fun i => TrimSpace (fieldAt data (256 + 112 * N + 8 * i) 8)) ∧
      (appendSignals data N header k).DigMin
        = header.DigMin
          ++ (List.range k).map (fun i => TrimSpace (fieldAt data (256 + 120 * N + 8 * i) 8)) ∧
      (appendSignals data N header k).DigMax
        = header.DigMax
          ++ (List.range k).map (fun i => TrimSpace (fieldAt data (256 + 128 * N + 8 * i) 8)) ∧
      (appendSignals data N header k).Prefiltering
        = header.Prefiltering
          ++ (List.range k).map (fun i => TrimSpace (fieldAt data (256 + 136 * N + 80 * i) 80)) ∧
      (appendSignals data N header k).NumOfSamples
        = header.NumOfSamples
          ++ (List.range k).map
              (fun i => (Atoi (TrimSpace (fieldAt data (256 + 216 * N + 8 * i) 8))).1) := by
  induction k with
  | zero => simp [appendSignals]
  | succ k ih =>
    obtain ⟨h1, h2, h3, h4, h5, h6, h7, h8, h9⟩ := ih
    simp only [appendSignals, appendSignal, h1, h2, h3, h4, h5, h6, h7, h8, h9, List.range_succ,
      List.map_append, List.map_cons, List.map_nil, List.append_assoc, and_self]

theorem appendSignals_globals (data : Bytes) (N : Nat) (header : HeaderRecord) (k : Nat) :
    (appendSignals data N header k).NumOfBytes = header.NumOfBytes ∧
      (appendSignals data N header k).NumOfDR = header.NumOfDR ∧
      (appendSignals data N header k).DurationOfDR = header.DurationOfDR := by
  induction k with
  | zero => exact ⟨rfl, rfl, rfl⟩
  | succ k ih => simpa only [appendSignals, appendSignal] using ih

theorem getElem?_range_map {α : Type} (f : Nat → α) (N i : Nat) (h : i < N) :
    ((List.range N).map f)[i]? = some (f i) := by
  rw [List.getElem?_map, List.getElem?_range h]; rfl

/-- Per-signal array alignment (C5): after a successful `ReadHeader` on the empty header,
with decoded signal count `N` and a file of at least `256 + 224 * N` bytes, entry `i`
of every per-signal array is the trimmed field of signal `i` at its offset in the
per-signal block. -/
theorem ReadHeader_signal_layout (source : File) (header1 : HeaderRecord) (source1 : File)
    (N : Nat) (h : ReadHeader HeaderRecord.zero source = .ok (header1, source1))
    (hN : header1.NumOfSignals = (N : Int)) (hlen : 256 + 224 * N ≤ source.data.length) :
    ∀ i, i < N →
      header1.Label[i]? = some (TrimSpace (fieldAt source.data (256 + 16 * i) 16)) ∧
      header1.TrType[i]? = some (TrimSpace (fieldAt source.data (256 + 16 * N + 80 * i) 80)) ∧
      header1.PhDim[i]? = some (TrimSpace (fieldAt source.data (256 + 96 * N + 8 * i) 8)) ∧
      header1.PhMin[i]? = some (TrimSpace (fieldAt source.data (256 + 104 * N + 8 * i) 8)) ∧
      header1.PhMax[i]? = some (TrimSpace (fieldAt source.data (256 + 112 * N + 8 * i) 8)) ∧
      header1.DigMin[i]? = some (TrimSpace (fieldAt source.data (256 + 120 * N + 8 * i) 8)) ∧
      header1.DigMax[i]? = some (TrimSpace (fieldAt source.data (256 + 128 * N + 8 * i) 8)) ∧
      header1.Prefiltering[i]?
        = some (TrimSpace (fieldAt source.data (256 + 136 * N + 80 * i) 80)) ∧
      header1.NumOfSamples[i]?
        = some (Atoi (TrimSpace (fieldAt source.data (256 + 216 * N + 8 * i) 8))).1 := by
  have hlen256 : 256 ≤ source.data.length := by omega
  have hg := (ReadHeader_globals _ _ _ _ hlen256 h).2.2.2.2.2.2.2
  have hcount : signalCount source.data = N := by
    rw [signalCount, ← hg, hN]; exact Int.toNat_ofNat N
  have hv : TrimSpace (fieldAt source.data 0 8) = [48] := by
    rw [ReadHeader_eq _ source (by omega)] at h
    by_contra hne
    rw [if_pos hne] at h
    cases h
  rw [ReadHeader_full _ source hv hlen256 (by rw [hcount]; exact hlen), hcount] at h
  cases h
  obtain ⟨h1, h2, h3, h4, h5, h6, h7, h8, h9⟩ :=
    appendSignals_arrays source.data N (globalFields source.data HeaderRecord.zero) N
  intro i hi
  rw [h1, h2, h3, h4, h5, h6, h7, h8, h9]
  simp only [globalFields, HeaderRecord.zero, List.nil_append]
  exact ⟨getElem?_range_map _ N i hi, getElem?_range_map _ N i hi, getElem?_range_map _ N i hi,
    getElem?_range_map _ N i hi, getElem?_range_map _ N i hi, getElem?_range_map _ N i hi,
    getElem?_range_map _ N i hi, getElem?_range_map _ N i hi, getElem?_range_map _ N i hi⟩

theorem atoiDigits_eq (s : Bytes) (n : Nat) :
    atoiDigits s n
      = if s.all isDigit then some (s.foldl (fun n c => n * 10 + (c.toNat - 48)) n) else none := by
  induction s generalizing n with
  | nil => rfl
  | cons c rest ih =>
    simp only [atoiDigits, List.all_cons, List.foldl_cons, ih]
    by_cases hc : c.toNat < 48 ∨ 57 < c.toNat
    · have hd : isDigit c = false := by
        simp only [isDigit, decide_eq_false_iff_not]; omega
      simp [hc, hd]
    · have hd : isDigit c = true := by
        simp only [isDigit, decide_eq_true_eq]; omega
      simp [hc, hd]

/-- On texts of at most 18 bytes `Atoi` is lenient decoding: the value of a decimal integer,
and 0 with a syntax error for anything else. -/
theorem Atoi_short (s : Bytes) (hs : s.length ≤ 18) :
    Atoi s = if isDecimalInteger s then (decimalValue s, none) else (0, some .ErrSyntax) := by
  cases s with
  | nil => rfl
  | cons c rest =>
    have hlen : 0 < (c :: rest).length ∧ (c :: rest).length < 19 := by
      simp only [List.length_cons] at hs ⊢; omega
    simp only [Atoi, hlen, and_self, if_true, isDecimalInteger, decimalValue]
    by_cases h45 : c = 45
    · subst h45
      cases rest with
      | nil => rfl
      | cons d rest2 =>
        simp only [atoiDigits_eq, digitsValue]
        by_cases hall : (d :: rest2).all isDigit <;> simp [hall]
    · by_cases h43 : c = 43
      · subst h43
        cases rest with
        | nil => rfl
        | cons d rest2 =>
          simp only [atoiDigits_eq, digitsValue]
          by_cases hall : (d :: rest2).all isDigit <;> simp [hall]
      · simp only [h45, h43, or_self, false_and, if_false, atoiDigits_eq, digitsValue]
        by_cases hall : (c :: rest).all isDigit <;> simp [hall]

theorem trimLeftLoop_length (fuel : Nat) (s : Bytes) : (trimLeftLoop fuel s).length ≤ s.length := by
  induction fuel generalizing s with
  | zero => simp [trimLeftLoop]
  | succ fuel ih =>
    cases s with
    | nil => simp [trimLeftLoop]
    | cons c rest =>
      simp only [trimLeftLoop]
      generalize (if RuneSelf ≤ c.toNat then DecodeRune (c :: rest) else (c.toNat, 1)) = d
      split
      · exact Nat.le_refl _
      · exact Nat.le_trans (ih _) (by rw [List.length_drop]; exact Nat.sub_le _ _)

theorem TrimFunc_length (s : Bytes) : (TrimFunc s).length ≤ s.length := by
  have h1 : (TrimLeftFunc s).length ≤ s.length := trimLeftLoop_length _ _
  have h2 : (TrimRightFunc (TrimLeftFunc s)).length ≤ (TrimLeftFunc s).length := by
    unfold TrimRightFunc
    simp only
    split <;> simp
  exact h2.trans h1

theorem trimSpaceStop_length (s : Bytes) : (trimSpaceStop s).length ≤ s.length := by
  induction s with
  | nil => simp [trimSpaceStop]
  | cons c rest ih =>
    simp only [trimSpaceStop]
    split
    · exact (TrimFunc_length _).trans (by simp)
    · split
      · exact ih.trans (by simp)
      · simp

theorem TrimSpace_length (s : Bytes) : (TrimSpace s).length ≤ s.length := by
  induction s with
  | nil => simp [TrimSpace]
  | cons c rest ih =>
    simp only [TrimSpace]
    split
    · exact TrimFunc_length _
    · split
      · exact ih.trans (by simp)
      · exact (trimSpaceStop_length _).trans (by simp)

theorem fieldAt_length (data : Bytes) (off n : Nat) : (fieldAt data off n).length ≤ n := by
  simp [fieldAt, List.length_take]

/-- The value `Atoi` gives to a trimmed header field of at most 8 bytes. -/
theorem Atoi_field (data : Bytes) (off n : Nat) (hn : n ≤ 8) :
    (Atoi (TrimSpace (fieldAt data off n))).1 = lenientValue (TrimSpace (fieldAt data off n)) := by
  have h1 := TrimSpace_length (fieldAt data off n)
  have h2 := fieldAt_length data off n
  rw [Atoi_short _ (by omega), lenientValue]
  split <;> rfl

/-- Global header layout (C4): on a file of at least 256 bytes on which `ReadHeader`
succeeds, the text fields are the trimmed bytes at offsets 8, 88, 168 and 176 and the
numeric fields are the integer value of the trimmed text at offsets 184, 236, 244 and
252 (the 44 bytes at 192 are skipped), whatever the starting cursor and header were. -/
theorem ReadHeader_global_layout (header : HeaderRecord) (source : File)
    (header1 : HeaderRecord) (source1 : File) (hlen : 256 ≤ source.data.length)
    (h : ReadHeader header source = .ok (header1, source1)) :
    header1.PatientID = TrimSpace (fieldAt source.data 8 80) ∧
      header1.RecordID = TrimSpace (fieldAt source.data 88 80) ∧
      header1.StartDate = TrimSpace (fieldAt source.data 168 8) ∧
      header1.StartTime = TrimSpace (fieldAt source.data 176 8) ∧
      header1.NumOfBytes = lenientValue (TrimSpace (fieldAt source.data 184 8)) ∧
      header1.NumOfDR = lenientValue (TrimSpace (fieldAt source.data 236 8)) ∧
      header1.DurationOfDR = lenientValue (TrimSpace (fieldAt source.data 244 8)) ∧
      header1.NumOfSignals = lenientValue (TrimSpace (fieldAt source.data 252 4)) := by
  obtain ⟨g1, g2, g3, g4, g5, g6, g7, g8⟩ := ReadHeader_globals header source header1 source1 hlen h
  rw [Atoi_field _ _ _ (le_refl 8)] at g5 g6 g7
  rw [Atoi_field _ _ 4 (by omega)] at g8
  exact ⟨g1, g2, g3, g4, g5, g6, g7, g8⟩

/-- Witness for C4: the well-formed recording, read from cursor 5. -/
theorem ReadHeader_global_layout_witness :
    recordingHeader.PatientID = TrimSpace (fieldAt recordingBytes 8 80) ∧
      recordingHeader.RecordID = TrimSpace (fieldAt recordingBytes 88 80) ∧
      recordingHeader.StartDate = TrimSpace (fieldAt recordingBytes 168 8) ∧
      recordingHeader.StartTime = TrimSpace (fieldAt recordingBytes 176 8) ∧
      recordingHeader.NumOfBytes = lenientValue (TrimSpace (fieldAt recordingBytes 184 8)) ∧
      recordingHeader.NumOfDR = lenientValue (TrimSpace (fieldAt recordingBytes 236 8)) ∧
      recordingHeader.DurationOfDR = lenientValue (TrimSpace (fieldAt recordingBytes 244 8)) ∧
      recordingHeader.NumOfSignals = lenientValue (TrimSpace (fieldAt recordingBytes 252 4)) :=
  ReadHeader_global_layout HeaderRecord.zero ⟨recordingBytes, 5⟩ recordingHeader
    ⟨recordingBytes, 704⟩ (by decide) (by decide)

/-- Witness for C5: signal 1 (the second signal) of the well-formed recording. -/
theorem ReadHeader_signal_layout_witness :
    recordingHeader.Label[1]? = some (TrimSpace (fieldAt recordingBytes (256 + 16 * 1) 16)) ∧
      recordingHeader.TrType[1]?
        = some (TrimSpace (fieldAt recordingBytes (256 + 16 * 2 + 80 * 1) 80)) ∧
      recordingHeader.PhDim[1]? = some (TrimSpace (fieldAt recordingBytes (256 + 96 * 2 + 8 * 1) 8)) ∧
      recordingHeader.PhMin[1]?
        = some (TrimSpace (fieldAt recordingBytes (256 + 104 * 2 + 8 * 1) 8)) ∧
      recordingHeader.PhMax[1]?
        = some (TrimSpace (fieldAt recordingBytes (256 + 112 * 2 + 8 * 1) 8)) ∧
      recordingHeader.DigMin[1]?
        = some (TrimSpace (fieldAt recordingBytes (256 + 120 * 2 + 8 * 1) 8)) ∧
      recordingHeader.DigMax[1]?
        = some (TrimSpace (fieldAt recordingBytes (256 + 128 * 2 + 8 * 1) 8)) ∧
      recordingHeader.Prefiltering[1]?
        = some (TrimSpace (fieldAt recordingBytes (256 + 136 * 2 + 80 * 1) 80)) ∧
      recordingHeader.NumOfSamples[1]?
        = some (Atoi (TrimSpace (fieldAt recordingBytes (256 + 216 * 2 + 8 * 1) 8))).1 :=
  ReadHeader_signal_layout ⟨recordingBytes, 0⟩ recordingHeader ⟨recordingBytes, 704⟩ 2
    (by decide) (by decide) (by decide) 1 (by decide)

/-- Cursor after `ReadHeader` (C7 as amended): on a well-formed header with `N` signals the
cursor ends at `256 + 224 * N`, which is the header byte count `256 + 256 * N` only for
`N = 0`; the last 32 bytes per signal of the header region are not consumed. -/
theorem ReadHeader_cursor (header : HeaderRecord) (source : File) (header1 : HeaderRecord)
    (source1 : File) (N : Nat) (h : ReadHeader header source = .ok (header1, source1))
    (hN : header1.NumOfSignals = (N : Int))
    (hB : header1.NumOfBytes = 256 + 256 * (N : Int))
    (hlen : header1.NumOfBytes ≤ (source.data.length : Int)) :
    source1.pos = 256 + 224 * N ∧ ((source1.pos : Int) = header1.NumOfBytes ↔ N = 0) := by
  have hlen256 : 256 ≤ source.data.length := by omega
  have hg := (ReadHeader_globals _ _ _ _ hlen256 h).2.2.2.2.2.2.2
  have hcount : signalCount source.data = N := by
    rw [signalCount, ← hg, hN]; exact Int.toNat_ofNat N
  have hv : TrimSpace (fieldAt source.data 0 8) = [48] := by
    rw [ReadHeader_eq _ source (by omega)] at h
    by_contra hne
    rw [if_pos hne] at h
    cases h
  rw [ReadHeader_full _ source hv hlen256 (by rw [hcount]; omega), hcount] at h
  have hpos : source1.pos = 256 + 224 * N := by
    cases h
    by_cases h0 : N = 0
    · simp [h0]
    · simp [h0]
  refine ⟨hpos, ?_⟩
  rw [hpos, hB]
  omega

/-- Witness for C7 as amended: the well-formed recording has 2 signals and the cursor ends
at 704. -/
theorem ReadHeader_cursor_witness :
    (704 = 256 + 224 * 2) ∧ (((704 : Nat) : Int) = recordingHeader.NumOfBytes ↔ 2 = 0) :=
  ReadHeader_cursor HeaderRecord.zero ⟨recordingBytes, 0⟩ recordingHeader ⟨recordingBytes, 704⟩ 2
    (by decide) (by decide) (by decide) (by decide)

/-- Counterexample to C7 as stated: the recording is well-formed (header byte count 768 =
256 + 256 * 2, stream of 780 bytes), `ReadHeader` succeeds, and the cursor is 704, not
768. -/
theorem ReadHeader_cursor_not_at_data :
    ReadHeader HeaderRecord.zero ⟨recordingBytes, 0⟩ = .ok (recordingHeader, ⟨recordingBytes, 704⟩) ∧
      recordingHeader.NumOfBytes = 256 + 256 * recordingHeader.NumOfSignals ∧
      recordingHeader.NumOfBytes ≤ (recordingBytes.length : Int) ∧
      ((704 : Nat) : Int) ≠ recordingHeader.NumOfBytes := by
  decide

/-- Lenient numeric parsing (C10): with a valid version marker and a file long enough for
its header, `ReadHeader` succeeds and every numeric field is decoded as the integer its
trimmed text writes, or as 0 when that text is not a decimal integer. -/
theorem ReadHeader_lenient_numbers (header : HeaderRecord) (source : File) (N : Nat)
    (hv : TrimSpace (fieldAt source.data 0 8) = [48])
    (hN : (lenientValue (TrimSpace (fieldAt source.data 252 4))).toNat = N)
    (hlen : 256 + 256 * N ≤ source.data.length) :
    ∃ header1 source1, ReadHeader header source = .ok (header1, source1) ∧
      header1.NumOfBytes = lenientValue (TrimSpace (fieldAt source.data 184 8)) ∧
      header1.NumOfDR = lenientValue (TrimSpace (fieldAt source.data 236 8)) ∧
      header1.DurationOfDR = lenientValue (TrimSpace (fieldAt source.data 244 8)) ∧
      header1.NumOfSignals = lenientValue (TrimSpace (fieldAt source.data 252 4)) ∧
      header1.NumOfSamples = header.NumOfSamples ++ (List.range N).map (fun i =>
        lenientValue (TrimSpace (fieldAt source.data (256 + 216 * N + 8 * i) 8))) := by
  have hcount : signalCount source.data = N := by
    rw [signalCount, Atoi_field _ _ _ (by omega), hN]
  have hfull := ReadHeader_full header source hv (by omega) (by rw [hcount]; omega)
  rw [hcount] at hfull
  refine ⟨_, _, hfull, ?_⟩
  obtain ⟨g1, g2, g3⟩ := appendSignals_globals source.data N (globalFields source.data header) N
  have g4 := appendSignals_NumOfSignals source.data N (globalFields source.data header) N
  have g5 := (appendSignals_arrays source.data N (globalFields source.data header) N).2.2.2.2.2.2.2.2
  rw [g1, g2, g3, g4, g5]
  simp only [globalFields, Atoi_field _ _ _ (le_refl 8), Atoi_field _ _ 4 (by omega), true_and]

/-- Witness for C10: the recording whose duration field reads `1s` is decoded, with
duration 0. -/
theorem ReadHeader_lenient_numbers_witness :
    lenientValue (TrimSpace (fieldAt malformedBytes 244 8)) = 0 ∧
      ∃ header1 source1,
        ReadHeader HeaderRecord.zero ⟨malformedBytes, 0⟩ = .ok (header1, source1) ∧
        header1.NumOfBytes = lenientValue (TrimSpace (fieldAt malformedBytes 184 8)) ∧
        header1.NumOfDR = lenientValue (TrimSpace (fieldAt malformedBytes 236 8)) ∧
        header1.DurationOfDR = lenientValue (TrimSpace (fieldAt malformedBytes 244 8)) ∧
        header1.NumOfSignals = lenientValue (TrimSpace (fieldAt malformedBytes 252 4)) ∧
        header1.NumOfSamples = HeaderRecord.zero.NumOfSamples ++ (List.range 2).map (fun i =>
          lenientValue (TrimSpace (fieldAt malformedBytes (256 + 216 * 2 + 8 * i) 8))) :=
  ⟨by decide, ReadHeader_lenient_numbers HeaderRecord.zero ⟨malformedBytes, 0⟩ 2 (by decide)
    (by decide) (by decide)⟩

theorem readBytes_error (source : File) (n : Nat) (off whence : Int) (e : Error)
    (h : readBytes source n off whence = .error e) : e = .seekFailed ∨ e = .readFailed := by
  unfold readBytes at h
  split at h
  · cases h; exact Or.inl rfl
  · split at h
    · cases h; exact Or.inr rfl
    · cases h

theorem readSignal_error (ns : Int) (st : HeaderRecord × File) (e : Error)
    (h : readSignal ns st = .error e) : e = .seekFailed ∨ e = .readFailed := by
  simp only [readSignal, bind, Except.bind] at h
  iterate 9 (split at h; · (rename_i heq; cases h; exact readBytes_error _ _ _ _ _ heq))
  cases h

theorem forLoop_error {σ : Type} (body : Int → σ → Except Error σ) (P : Error → Prop)
    (hbody : ∀ i s e, body i s = .error e → P e) :
    ∀ (n : Nat) (start : Int) (s : σ) (e : Error), forLoop body n start s = .error e → P e := by
  intro n
  induction n with
  | zero => intro start s e h; cases h
  | succ n ih =>
    intro start s e h
    simp only [forLoop] at h
    cases hb : body start s with
    | error e1 => rw [hb] at h; cases h; exact hbody _ _ _ hb
    | ok s1 => rw [hb] at h; exact ih _ _ _ h

theorem readFields_error (header : HeaderRecord) (source : File) (e : Error)
    (h : readFields header source = .error e) : e = .seekFailed ∨ e = .readFailed := by
  simp only [readFields, bind, Except.bind] at h
  iterate 8 (split at h; · (rename_i heq; cases h; exact readBytes_error _ _ _ _ _ heq))
  exact forLoop_error readSignal _ readSignal_error _ _ _ _ h

/-- Format rejection (C6): on a stream of at least 8 bytes, `ReadHeader` ends with the
invalid-format error when the first 8 bytes, trimmed, are not the single digit `0`;
when they are, it continues with the remaining fields (from cursor 8) and its outcome
is theirs, which is never the invalid-format error. -/
theorem ReadHeader_format_check (header : HeaderRecord) (source : File)
    (hlen : 8 ≤ source.data.length) :
    (TrimSpace (fieldAt source.data 0 8) ≠ [48] →
        ReadHeader header source = .error .invalidFormat) ∧
      (TrimSpace (fieldAt source.data 0 8) = [48] →
        ReadHeader header source = readFields header ⟨source.data, 8⟩ ∧
        ReadHeader header source ≠ .error .invalidFormat) := by
  rw [ReadHeader_eq header source hlen]
  refine ⟨fun hne => if_pos hne, fun heq => ?_⟩
  rw [if_neg (by simp [heq])]
  refine ⟨rfl, fun herr => ?_⟩
  rcases readFields_error _ _ _ herr with h | h <;> cases h

/-- Witness for C6: the well-formed recording passes the check; the same bytes with the
first one replaced by the digit `1` are rejected. -/
theorem ReadHeader_format_check_witness :
    ReadHeader HeaderRecord.zero ⟨recordingBytes.set 0 49, 0⟩ = .error .invalidFormat ∧
    (TrimSpace (fieldAt (recordingBytes.set 0 49) 0 8) ≠ [48] →
        ReadHeader HeaderRecord.zero ⟨recordingBytes.set 0 49, 0⟩ = .error .invalidFormat) ∧
      (TrimSpace (fieldAt (recordingBytes.set 0 49) 0 8) = [48] →
        ReadHeader HeaderRecord.zero ⟨recordingBytes.set 0 49, 0⟩
          = readFields HeaderRecord.zero ⟨(recordingBytes.set 0 49), 8⟩ ∧
        ReadHeader HeaderRecord.zero ⟨recordingBytes.set 0 49, 0⟩ ≠ .error .invalidFormat) :=
  ⟨by decide, ReadHeader_format_check HeaderRecord.zero ⟨recordingBytes.set 0 49, 0⟩ (by decide)⟩

/-- Evaluation for C8: the example stream without its last byte is shorter than
`NumOfBytes + 2 * NumOfDR * (sum of NumOfSamples) = 16`, yet `DataToCSV` returns the full
matrix; the last sample is read from one byte and a zero. -/
theorem DataToCSV_accepts_short_read :
    (truncatedSource.data.length : Int)
        < exampleHeader.NumOfBytes + 2 * exampleHeader.NumOfDR * samplesPerDataRecord exampleHeader ∧
      DataToCSV exampleHeader truncatedSource false
        = .ok ([[[49, 48], [50, 48], [49, 49], [50, 49]], [[51, 48], [51, 49]]],
            ⟨truncatedSource.data, 15⟩) := by
  decide

theorem readBytes_abs_ok (source : File) (n k : Nat) (r : Bytes × File) (hn : 0 < n)
    (h : readBytes source n (k : Int) 0 = .ok r) :
    k < source.data.length ∧ r.2.data = source.data ∧
      ((k + n ≤ source.data.length ∧ r.2.pos = k + n) ∨
        (source.data.length < k + n ∧ r.2.pos = source.data.length)) := by
  have h0 : ¬ ((k : Int) < 0) := by omega
  have h2 : n ≠ 0 := by omega
  simp only [readBytes, File.Seek, if_true, h0, if_false, File.Read, h2, Int.toNat_ofNat] at h
  by_cases hle : source.data.length ≤ k
  · rw [if_pos hle] at h; cases h
  · rw [if_neg hle] at h
    cases h
    simp only [List.length_take, List.length_drop, Nat.min_def]
    refine ⟨by omega, trivial, ?_⟩
    split <;> omega

theorem readBytes_rel_ok (source : File) (n k : Nat) (r : Bytes × File) (hn : 0 < n)
    (h : readBytes source n (k : Int) 1 = .ok r) :
    source.pos + k < source.data.length ∧ r.2.data = source.data ∧
      ((source.pos + k + n ≤ source.data.length ∧ r.2.pos = source.pos + k + n) ∨
        (source.data.length < source.pos + k + n ∧ r.2.pos = source.data.length)) := by
  have h0 : ¬ ((source.pos : Int) + (k : Int) < 0) := by omega
  have h1 : ((source.pos : Int) + (k : Int)).toNat = source.pos + k := by omega
  have h2 : n ≠ 0 := by omega
  simp only [readBytes, File.Seek, one_ne_zero, if_false, if_true, h0, File.Read, h2, h1] at h
  by_cases hle : source.data.length ≤ source.pos + k
  · rw [if_pos hle] at h; cases h
  · rw [if_neg hle] at h
    cases h
    simp only [List.length_take, List.length_drop, Nat.min_def]
    refine ⟨by omega, trivial, ?_⟩
    split <;> omega

/-- The global fields cannot all be read from a file of at most 252 bytes. -/
theorem readFields_ok_length (header : HeaderRecord) (source : File)
    (r : HeaderRecord × File) (h : readFields header source = .ok r) :
    252 < source.data.length := by
  simp only [readFields, bind, Except.bind] at h
  split at h
  · cases h
  rename_i r1 h1
  have e1 := readBytes_abs_ok source 80 8 r1 (by omega) h1
  split at h
  · cases h
  rename_i r2 h2
  have e2 := readBytes_rel_ok r1.2 80 0 r2 (by omega) h2
  split at h
  · cases h
  rename_i r3 h3
  have e3 := readBytes_rel_ok r2.2 8 0 r3 (by omega) h3
  split at h
  · cases h
  rename_i r4 h4
  have e4 := readBytes_rel_ok r3.2 8 0 r4 (by omega) h4
  split at h
  · cases h
  rename_i r5 h5
  have e5 := readBytes_rel_ok r4.2 8 0 r5 (by omega) h5
  split at h
  · cases h
  rename_i r6 h6
  have e6 := readBytes_rel_ok r5.2 8 44 r6 (by omega) h6
  split at h
  · cases h
  rename_i r7 h7
  have e7 := readBytes_rel_ok r6.2 8 0 r7 (by omega) h7
  split at h
  · cases h
  rename_i r8 h8
  have e8 := readBytes_rel_ok r7.2 4 0 r8 (by omega) h8
  obtain ⟨a1, b1, c1⟩ := e1
  obtain ⟨a2, b2, c2⟩ := e2
  obtain ⟨a3, b3, c3⟩ := e3
  obtain ⟨a4, b4, c4⟩ := e4
  obtain ⟨a5, b5, c5⟩ := e5
  obtain ⟨a6, b6, c6⟩ := e6
  obtain ⟨a7, b7, c7⟩ := e7
  obtain ⟨a8, b8, c8⟩ := e8
  rw [b7, b6, b5, b4, b3, b2, b1] at a8
  rw [b6, b5, b4, b3, b2, b1] at a7 c7
  rw [b5, b4, b3, b2, b1] at a6 c6
  rw [b4, b3, b2, b1] at a5 c5
  rw [b3, b2, b1] at a4 c4
  rw [b2, b1] at a3 c3
  rw [b1] at a2 c2
  omega

theorem readBytes_data (source : File) (n : Nat) (off whence : Int) (r : Bytes × File)
    (h : readBytes source n off whence = .ok r) : r.2.data = source.data := by
  unfold readBytes at h
  split at h
  · cases h
  · rename_i src hseek
    have hsrc : src.data = source.data := by
      unfold File.Seek at hseek
      repeat' split at hseek
      all_goals first | cases hseek; rfl | cases hseek
    split at h
    · cases h
    · rename_i got src1 hread
      cases h
      unfold File.Read at hread
      repeat' split at hread
      all_goals first | (cases hread; exact hsrc) | cases hread

theorem ReadHeader_ok_readFields (header : HeaderRecord) (source : File)
    (r : HeaderRecord × File) (h : ReadHeader header source = .ok r) :
    ∃ src, src.data = source.data ∧ readFields header src = .ok r := by
  simp only [ReadHeader, bind, Except.bind] at h
  split at h
  · cases h
  rename_i r1 h1
  split at h
  · split at h <;> cases h
  · exact ⟨r1.2, readBytes_data _ _ _ _ _ h1, h⟩

theorem readSignal_data (ns : Int) (st r : HeaderRecord × File) (h : readSignal ns st = .ok r) :
    r.2.data = st.2.data := by
  simp only [readSignal, bind, Except.bind] at h
  split at h
  · cases h
  rename_i r1 h1
  split at h
  · cases h
  rename_i r2 h2
  split at h
  · cases h
  rename_i r3 h3
  split at h
  · cases h
  rename_i r4 h4
  split at h
  · cases h
  rename_i r5 h5
  split at h
  · cases h
  rename_i r6 h6
  split at h
  · cases h
  rename_i r7 h7
  split at h
  · cases h
  rename_i r8 h8
  split at h
  · cases h
  rename_i r9 h9
  cases h
  simp only
  rw [readBytes_data _ _ _ _ _ h9, readBytes_data _ _ _ _ _ h8, readBytes_data _ _ _ _ _ h7,
    readBytes_data _ _ _ _ _ h6, readBytes_data _ _ _ _ _ h5, readBytes_data _ _ _ _ _ h4,
    readBytes_data _ _ _ _ _ h3, readBytes_data _ _ _ _ _ h2, readBytes_data _ _ _ _ _ h1]

/-- The iteration for the last signal fails when the file ends at or before the first byte
of that signal's `NumOfSamples` field. -/
theorem readSignal_last_fails (N k : Nat) (st r : HeaderRecord × File)
    (hN : st.1.NumOfSignals = (N : Int)) (hk : k + 1 = N)
    (hlen : st.2.data.length ≤ 248 + 224 * N) (h : readSignal (k : Int) st = .ok r) : False := by
  simp only [readSignal, bind, Except.bind] at h
  split at h
  · cases h
  rename_i r1 h1
  split at h
  · cases h
  rename_i r2 h2
  split at h
  · cases h
  rename_i r3 h3
  split at h
  · cases h
  rename_i r4 h4
  split at h
  · cases h
  rename_i r5 h5
  split at h
  · cases h
  rename_i r6 h6
  split at h
  · cases h
  rename_i r7 h7
  split at h
  · cases h
  rename_i r8 h8
  split at h
  · cases h
  rename_i r9 h9
  have hd : r8.2.data = st.2.data := by
    rw [readBytes_data _ _ _ _ _ h8, readBytes_data _ _ _ _ _ h7,
      readBytes_data _ _ _ _ _ h6, readBytes_data _ _ _ _ _ h5, readBytes_data _ _ _ _ _ h4,
      readBytes_data _ _ _ _ _ h3, readBytes_data _ _ _ _ _ h2, readBytes_data _ _ _ _ _ h1]
  have hoff : (256 : Int) + st.1.NumOfSignals * 216 + (k : Int) * 8
      = ((256 + 216 * N + 8 * k : Nat) : Int) := by rw [hN]; push_cast; ring
  rw [hoff] at h9
  have := (readBytes_abs_ok r8.2 8 _ r9 (by omega) h9).1
  rw [hd] at this
  omega

theorem signalLoop_short_fails (N : Nat) (st r : HeaderRecord × File)
    (hN : st.1.NumOfSignals = (N : Int)) (h1 : 1 ≤ N)
    (hlen : st.2.data.length ≤ 248 + 224 * N) (h : forLoop readSignal N 0 st = .ok r) :
    False := by
  have := forLoop_partial readSignal
    (fun k s => s.1.NumOfSignals = (N : Int) ∧ s.2.data = st.2.data ∧ k < N)
    N 0 st r h ⟨hN, rfl, by omega⟩
    (fun k s s2 hk hs hb => by
      rw [zero_add] at hb
      refine ⟨(readSignal_globals _ _ _ hb).2.2.2.2.2.2.2.trans hs.1,
        (readSignal_data _ _ _ hb).trans hs.2.1, ?_⟩
      by_contra hlast
      exact readSignal_last_fails N k s s2 hs.1 (by omega) (by rw [hs.2.1]; exact hlen) hb)
  omega

/-- Truncation detection in the header (C9 as amended): `ReadHeader` fails on every stream
that ends at or before the first byte of the last field it reads, that is on a stream
of at most 252 bytes, and on a stream of at least 256 bytes with signal count `N ≥ 1`
and at most `248 + 224 * N` bytes. -/
theorem ReadHeader_truncated_fails (header : HeaderRecord) (source : File)
    (h : source.data.length ≤ 252 ∨
      (256 ≤ source.data.length ∧ 1 ≤ signalCount source.data ∧
        source.data.length ≤ 248 + 224 * signalCount source.data)) :
    ∃ e, ReadHeader header source = .error e := by
  cases hres : ReadHeader header source with
  | error e => exact ⟨e, rfl⟩
  | ok r =>
    exfalso
    rcases h with h | ⟨h256, h1, hshort⟩
    · obtain ⟨src, hsrc, hf⟩ := ReadHeader_ok_readFields header source r hres
      have := readFields_ok_length header src r hf
      rw [hsrc] at this
      omega
    · rw [ReadHeader_eq header source (by omega)] at hres
      split at hres
      · cases hres
      · rw [readFields_global header ⟨source.data, 8⟩ h256] at hres
        refine signalLoop_short_fails (signalCount source.data) _ r ?_ h1 hshort hres
        show (Atoi (TrimSpace (fieldAt source.data 252 4))).1 = _
        unfold signalCount at h1 ⊢
        omega

/-- Witness for C9 as amended: the well-formed recording (2 signals) cut to 696 bytes. -/
theorem ReadHeader_truncated_fails_witness :
    ∃ e, ReadHeader HeaderRecord.zero ⟨recordingBytes.take 696, 0⟩ = .error e :=
  ReadHeader_truncated_fails HeaderRecord.zero ⟨recordingBytes.take 696, 0⟩ (by decide)

/-- Counterexample to C9 as stated: the well-formed recording cut to 704 bytes is shorter
than its header region of `256 + 256 * 2 = 768` bytes, and `ReadHeader` decodes it. -/
theorem ReadHeader_without_reserved_bytes :
    signalCount (recordingBytes.take 704) = 2 ∧
      (recordingBytes.take 704).length < 256 + 256 * 2 ∧
      ReadHeader HeaderRecord.zero ⟨recordingBytes.take 704, 0⟩
        = .ok (recordingHeader, ⟨recordingBytes.take 704, 704⟩) := by
  decide

/-- Seek tolerance (C12): the outcome of `DataToCSV` (the matrix and the final file, or the
failure) does not depend on the cursor the stream has when it is called. -/
theorem DataToCSV_cursor_independent (header : HeaderRecord) (data : Bytes) (p q : Nat)
    (showLabels : Bool) :
    DataToCSV header ⟨data, p⟩ showLabels = DataToCSV header ⟨data, q⟩ showLabels := by
  simp only [DataToCSV, File.Seek, if_true]

theorem fieldAt_take (data : Bytes) (M off n : Nat) (h : off + n ≤ M) :
    fieldAt (data.take M) off n = fieldAt data off n := by
  unfold fieldAt
  rw [List.drop_take, List.take_take]
  congr 1
  omega

theorem fieldAt_agree (d1 d2 : Bytes) (M off n : Nat) (hagree : d1.take M = d2.take M)
    (h : off + n ≤ M) : fieldAt d1 off n = fieldAt d2 off n := by
  rw [← fieldAt_take d1 M off n h, ← fieldAt_take d2 M off n h, hagree]

theorem appendSignals_agree (d1 d2 : Bytes) (N : Nat) (header : HeaderRecord)
    (hagree : d1.take (256 + 256 * N) = d2.take (256 + 256 * N)) (k : Nat) (hk : k ≤ N) :
    appendSignals d1 N header k = appendSignals d2 N header k := by
  induction k with
  | zero => rfl
  | succ k ih =>
    simp only [appendSignals, appendSignal, ih (by omega)]
    rw [fieldAt_agree d1 d2 _ (256 + 16 * k) 16 hagree (by omega),
      fieldAt_agree d1 d2 _ (256 + 16 * N + 80 * k) 80 hagree (by omega),
      fieldAt_agree d1 d2 _ (256 + 96 * N + 8 * k) 8 hagree (by omega),
      fieldAt_agree d1 d2 _ (256 + 104 * N + 8 * k) 8 hagree (by omega),
      fieldAt_agree d1 d2 _ (256 + 112 * N + 8 * k) 8 hagree (by omega),
      fieldAt_agree d1 d2 _ (256 + 120 * N + 8 * k) 8 hagree (by omega),
      fieldAt_agree d1 d2 _ (256 + 128 * N + 8 * k) 8 hagree (by omega),
      fieldAt_agree d1 d2 _ (256 + 136 * N + 80 * k) 80 hagree (by omega),
      fieldAt_agree d1 d2 _ (256 + 216 * N + 8 * k) 8 hagree (by omega)]

/-- The header decoder does not read data records (C13): two streams that have, and agree
on, the `256 + 256 * N` bytes of the header region (`N` the signal count written at
offset 252) give the same outcome of `ReadHeader`: the same header and final cursor,
or the same failure, whatever the two starting cursors. -/
theorem ReadHeader_header_region_only (header : HeaderRecord) (d1 d2 : Bytes) (p1 p2 : Nat)
    (hlen1 : 256 + 256 * signalCount d1 ≤ d1.length)
    (hlen2 : 256 + 256 * signalCount d1 ≤ d2.length)
    (hagree : d1.take (256 + 256 * signalCount d1) = d2.take (256 + 256 * signalCount d1)) :
    Except.map (fun r => (r.1, r.2.pos)) (ReadHeader header ⟨d1, p1⟩)
      = Except.map (fun r => (r.1, r.2.pos)) (ReadHeader header ⟨d2, p2⟩) := by
  have hcount : signalCount d2 = signalCount d1 := by
    unfold signalCount
    rw [fieldAt_agree d1 d2 _ 252 4 hagree (by omega)]
  have hver : fieldAt d1 0 8 = fieldAt d2 0 8 := fieldAt_agree d1 d2 _ 0 8 hagree (by omega)
  have hglob : globalFields d1 header = globalFields d2 header := by
    unfold globalFields
    rw [fieldAt_agree d1 d2 _ 8 80 hagree (by omega),
      fieldAt_agree d1 d2 _ 88 80 hagree (by omega),
      fieldAt_agree d1 d2 _ 168 8 hagree (by omega),
      fieldAt_agree d1 d2 _ 176 8 hagree (by omega),
      fieldAt_agree d1 d2 _ 184 8 hagree (by omega),
      fieldAt_agree d1 d2 _ 236 8 hagree (by omega),
      fieldAt_agree d1 d2 _ 244 8 hagree (by omega),
      fieldAt_agree d1 d2 _ 252 4 hagree (by omega)]
  rw [ReadHeader_eq header ⟨d1, p1⟩ (by simp only; omega),
    ReadHeader_eq header ⟨d2, p2⟩ (by simp only; omega)]
  simp only [← hver]
  by_cases hv : TrimSpace (fieldAt d1 0 8) = [48]
  · have e1 := ReadHeader_eq header ⟨d1, 8⟩ (by simp only; omega)
    have e2 := ReadHeader_eq header ⟨d2, 8⟩ (by simp only; omega)
    simp only [← hver, hv, ne_eq, not_true_eq_false, if_false] at e1 e2 ⊢
    rw [← e1, ← e2,
      ReadHeader_full header ⟨d1, 8⟩ hv (by simp only; omega) (by simp only; omega),
      ReadHeader_full header ⟨d2, 8⟩ (by simp only; rw [← hver]; exact hv)
        (by simp only; omega) (by simp only; rw [hcount]; omega)]
    simp only [hcount, hglob, Except.map, appendSignals_agree d1 d2 _ _ hagree _ (le_refl _)]
  · simp only [ne_eq, hv, not_false_eq_true, if_true, Except.map]

/-- Witness for C13: the well-formed recording and the same header followed by other
data. -/
theorem ReadHeader_header_region_only_witness :
    Except.map (fun r => (r.1, r.2.pos)) (ReadHeader HeaderRecord.zero ⟨recordingBytes, 0⟩)
      = Except.map (fun r => (r.1, r.2.pos)) (ReadHeader HeaderRecord.zero ⟨otherDataBytes, 3⟩) :=
  ReadHeader_header_region_only HeaderRecord.zero recordingBytes otherDataBytes 0 3
    (by decide) (by decide) (by decide)

/-- A successful `readFields`: the text and the first three numeric global fields are
decoded from full reads (the file has more than 252 bytes), the signal count from the
up to four bytes `b` at offset 252, and the per-signal loop then succeeds. -/
theorem readFields_ok_inv (header : HeaderRecord) (source : File) (r : HeaderRecord × File)
    (h : readFields header source = .ok r) :
    ∃ ns src, src.data = source.data ∧
      forLoop readSignal ns.toNat 0 (globalFieldsWith source.data header ns, src) = .ok r := by
  have hlen := readFields_ok_length header source r h
  simp only [readFields, bind, Except.bind] at h
  rw [readBytes_abs _ 80 _ 8 (by norm_num) (by omega) (by omega)] at h
  simp only at h
  rw [readBytes_rel _ 80 _ 0 (by norm_num) (by omega) (by simp only; omega)] at h
  simp only at h
  rw [readBytes_rel _ 8 _ 0 (by norm_num) (by omega) (by simp only; omega)] at h
  simp only at h
  rw [readBytes_rel _ 8 _ 0 (by norm_num) (by omega) (by simp only; omega)] at h
  simp only at h
  rw [readBytes_rel _ 8 _ 0 (by norm_num) (by omega) (by simp only; omega)] at h
  simp only at h
  rw [readBytes_rel _ 8 _ 44 (by norm_num) (by omega) (by simp only; omega)] at h
  simp only at h
  rw [readBytes_rel _ 8 _ 0 (by norm_num) (by omega) (by simp only; omega)] at h
  simp only at h
  split at h
  · cases h
  rename_i r8 h8
  have hd := readBytes_data _ _ _ _ _ h8
  refine ⟨(Atoi (TrimSpace r8.1)).1, r8.2, hd, ?_⟩
  simpa only [sub_zero, Nat.add_zero, Nat.reduceAdd, globalFieldsWith, globalFields] using h

/-- A successful iteration of the per-signal loop found at least one byte of the
`NumOfSamples` field of its signal. -/
theorem readSignal_ok_length (N k : Nat) (st r : HeaderRecord × File)
    (hN : st.1.NumOfSignals = (N : Int)) (h : readSignal (k : Int) st = .ok r) :
    256 + 216 * N + 8 * k < st.2.data.length := by
  simp only [readSignal, bind, Except.bind] at h
  split at h
  · cases h
  rename_i r1 h1
  split at h
  · cases h
  rename_i r2 h2
  split at h
  · cases h
  rename_i r3 h3
  split at h
  · cases h
  rename_i r4 h4
  split at h
  · cases h
  rename_i r5 h5
  split at h
  · cases h
  rename_i r6 h6
  split at h
  · cases h
  rename_i r7 h7
  split at h
  · cases h
  rename_i r8 h8
  split at h
  · cases h
  rename_i r9 h9
  have hd : r8.2.data = st.2.data := by
    rw [readBytes_data _ _ _ _ _ h8, readBytes_data _ _ _ _ _ h7,
      readBytes_data _ _ _ _ _ h6, readBytes_data _ _ _ _ _ h5, readBytes_data _ _ _ _ _ h4,
      readBytes_data _ _ _ _ _ h3, readBytes_data _ _ _ _ _ h2, readBytes_data _ _ _ _ _ h1]
  have hoff : (256 : Int) + st.1.NumOfSignals * 216 + (k : Int) * 8
      = ((256 + 216 * N + 8 * k : Nat) : Int) := by rw [hN]; push_cast; ring
  rw [hoff] at h9
  have := (readBytes_abs_ok r8.2 8 _ r9 (by omega) h9).1
  rw [hd] at this
  exact this

/-- A successful iteration of the per-signal loop appends the eight text fields of its
signal, each from a full read, and one entry to `NumOfSamples`. -/
theorem readSignal_ok_inv (N k : Nat) (st r : HeaderRecord × File)
    (hN : st.1.NumOfSignals = (N : Int)) (hk : k < N) (h : readSignal (k : Int) st = .ok r) :
    ∃ x, r.1 = { appendSignal st.2.data N k st.1 with
                  NumOfSamples := st.1.NumOfSamples ++ [x] } ∧ r.2.data = st.2.data := by
  have hlen := readSignal_ok_length N k st r hN h
  have hdata := readSignal_data _ _ _ h
  simp only [readSignal, bind, Except.bind, hN] at h
  rw [readBytes_abs _ 16 _ (256 + 16 * k) (by push_cast; ring) (by omega) (by omega)] at h
  simp only at h
  rw [readBytes_abs _ 80 _ (256 + 16 * N + 80 * k) (by push_cast; ring) (by omega)
    (by simp only; omega)] at h
  simp only at h
  rw [readBytes_abs _ 8 _ (256 + 96 * N + 8 * k) (by push_cast; ring) (by omega)
    (by simp only; omega)] at h
  simp only at h
  rw [readBytes_abs _ 8 _ (256 + 104 * N + 8 * k) (by push_cast; ring) (by omega)
    (by simp only; omega)] at h
  simp only at h
  rw [readBytes_abs _ 8 _ (256 + 112 * N + 8 * k) (by push_cast; ring) (by omega)
    (by simp only; omega)] at h
  simp only at h
  rw [readBytes_abs _ 8 _ (256 + 120 * N + 8 * k) (by push_cast; ring) (by omega)
    (by simp only; omega)] at h
  simp only at h
  rw [readBytes_abs _ 8 _ (256 + 128 * N + 8 * k) (by push_cast; ring) (by omega)
    (by simp only; omega)] at h
  simp only at h
  rw [readBytes_abs _ 80 _ (256 + 136 * N + 80 * k) (by push_cast; ring) (by omega)
    (by simp only; omega)] at h
  simp only at h
  split at h
  · cases h
  rename_i r9 h9
  simp only [pure, Except.pure, Except.ok.injEq] at h
  refine ⟨(Atoi (TrimSpace r9.1)).1, ?_, hdata⟩
  rw [← h]
  simp only [appendSignal, hN]

theorem signalLoop_ok_inv (data : Bytes) (N : Nat) (header : HeaderRecord) (src : File)
    (r : HeaderRecord × File) (hN : header.NumOfSignals.toNat = N) (hsrc : src.data = data)
    (h : forLoop readSignal N 0 (header, src) = .ok r) :
    ∃ samples : List Int, samples.length = N ∧
      r.1 = { appendSignals data N header N with
              NumOfSamples := header.NumOfSamples ++ samples } := by
  have := forLoop_partial readSignal
    (fun k st => st.2.data = data ∧ ∃ samples : List Int, samples.length = k ∧
      st.1 = { appendSignals data N header k with
               NumOfSamples := header.NumOfSamples ++ samples })
    N 0 (header, src) r h ⟨hsrc, [], rfl, by simp [appendSignals]⟩
    (fun k st st2 hk hs hb => by
      obtain ⟨hd, samples, hlen, hst⟩ := hs
      rw [zero_add] at hb
      have hNk : st.1.NumOfSignals = (N : Int) := by
        rw [hst]
        simp only [appendSignals_NumOfSignals]
        omega
      obtain ⟨x, hr, hd2⟩ := readSignal_ok_inv N k st st2 hNk hk hb
      refine ⟨hd2.trans hd, samples ++ [x], by simp [hlen], ?_⟩
      rw [hr, hd, hst]
      simp only [appendSignals, appendSignal, List.append_assoc])
  exact this.2

/-- A successful `ReadHeader`: the decoded header is the one laid out by the tables of
the per-signal block, except that the entries of `NumOfSamples` (and the signal count
itself) may come from a short read. -/
theorem ReadHeader_ok_inv (header : HeaderRecord) (source : File) (r : HeaderRecord × File)
    (h : ReadHeader header source = .ok r) :
    ∃ (ns : Int) (samples : List Int), samples.length = ns.toNat ∧
      r.1 = { appendSignals source.data ns.toNat (globalFieldsWith source.data header ns)
                ns.toNat with
              NumOfSamples := header.NumOfSamples ++ samples } := by
  obtain ⟨src, hsrc, hf⟩ := ReadHeader_ok_readFields header source r h
  obtain ⟨ns, src2, hsrc2, hloop⟩ := readFields_ok_inv header src r hf
  rw [hsrc] at hloop
  obtain ⟨samples, hlen, hr⟩ := signalLoop_ok_inv source.data ns.toNat
    (globalFieldsWith source.data header ns) src2 r rfl (hsrc2.trans hsrc) hloop
  exact ⟨ns, samples, hlen, hr⟩

theorem appendSignals_text (data : Bytes) (N : Nat) (header : HeaderRecord) (k : Nat) :
    (appendSignals data N header k).PatientID = header.PatientID ∧
      (appendSignals data N header k).RecordID = header.RecordID ∧
      (appendSignals data N header k).StartDate = header.StartDate ∧
      (appendSignals data N header k).StartTime = header.StartTime := by
  induction k with
  | zero => exact ⟨rfl, rfl, rfl, rfl⟩
  | succ k ih => simpa only [appendSignals, appendSignal] using ih

/-- Per-signal array invariant (C14 as amended): after a successful `ReadHeader` on the
empty header the nine per-signal arrays have the same length, which is `NumOfSignals`
when that is not negative and 0 when it is. -/
theorem ReadHeader_array_lengths (source : File) (header1 : HeaderRecord) (source1 : File)
    (h : ReadHeader HeaderRecord.zero source = .ok (header1, source1)) :
    header1.Label.length = header1.NumOfSignals.toNat ∧
      header1.TrType.length = header1.NumOfSignals.toNat ∧
      header1.PhDim.length = header1.NumOfSignals.toNat ∧
      header1.PhMin.length = header1.NumOfSignals.toNat ∧
      header1.PhMax.length = header1.NumOfSignals.toNat ∧
      header1.DigMin.length = header1.NumOfSignals.toNat ∧
      header1.DigMax.length = header1.NumOfSignals.toNat ∧
      header1.Prefiltering.length = header1.NumOfSignals.toNat ∧
      header1.NumOfSamples.length = header1.NumOfSignals.toNat := by
  obtain ⟨ns, samples, hlen, hr⟩ := ReadHeader_ok_inv _ _ _ h
  simp only at hr
  obtain ⟨h1, h2, h3, h4, h5, h6, h7, h8, -⟩ :=
    appendSignals_arrays source.data ns.toNat (globalFieldsWith source.data HeaderRecord.zero ns)
      ns.toNat
  have hsig := appendSignals_NumOfSignals source.data ns.toNat
    (globalFieldsWith source.data HeaderRecord.zero ns) ns.toNat
  rw [hr]
  simp only [h1, h2, h3, h4, h5, h6, h7, h8, hsig]
  simp only [globalFieldsWith, globalFields, HeaderRecord.zero, List.nil_append,
    List.length_map, List.length_range, hlen, and_self]

/-- Witness for C14 as amended: the well-formed recording has two signals. -/
theorem ReadHeader_array_lengths_witness :
    recordingHeader.Label.length = recordingHeader.NumOfSignals.toNat ∧
      recordingHeader.TrType.length = recordingHeader.NumOfSignals.toNat ∧
      recordingHeader.PhDim.length = recordingHeader.NumOfSignals.toNat ∧
      recordingHeader.PhMin.length = recordingHeader.NumOfSignals.toNat ∧
      recordingHeader.PhMax.length = recordingHeader.NumOfSignals.toNat ∧
      recordingHeader.DigMin.length = recordingHeader.NumOfSignals.toNat ∧
      recordingHeader.DigMax.length = recordingHeader.NumOfSignals.toNat ∧
      recordingHeader.Prefiltering.length = recordingHeader.NumOfSignals.toNat ∧
      recordingHeader.NumOfSamples.length = recordingHeader.NumOfSignals.toNat :=
  ReadHeader_array_lengths ⟨recordingBytes, 0⟩ recordingHeader ⟨recordingBytes, 704⟩ (by decide)

/-- Counterexample to C14 as stated: with the signal count field reading `-1`, `ReadHeader`
succeeds with `NumOfSignals = -1` and empty per-signal arrays, whose length 0 is not
the signal count. -/
theorem ReadHeader_negative_signal_count :
    ∃ header1 source1,
      ReadHeader HeaderRecord.zero ⟨negativeCountBytes, 0⟩ = .ok (header1, source1) ∧
      header1.NumOfSignals = -1 ∧ header1.Label.length = 0 ∧ header1.NumOfSamples.length = 0 ∧
      (header1.Label.length : Int) ≠ header1.NumOfSignals :=
  ⟨{ recordingHeader with
      NumOfSignals := -1, NumOfSamples := [], Label := [], TrType := [], PhDim := [],
      PhMin := [], PhMax := [], DigMin := [], DigMax := [], Prefiltering := [] },
    ⟨negativeCountBytes, 256⟩, by decide, by decide, by decide, by decide, by decide⟩

theorem trimSpaceStop_ascii (t : Bytes) (h : ∀ c ∈ t, c.toNat < 128) :
    trimSpaceStop t = (t.dropWhile asciiSpace).reverse := by
  induction t with
  | nil => rfl
  | cons c rest ih =>
    have hc : ¬ RuneSelf ≤ c.toNat := by
      have := h c (List.mem_cons_self _ _)
      unfold RuneSelf; omega
    simp only [trimSpaceStop, hc, if_false, List.dropWhile_cons]
    by_cases hs : asciiSpace c = true
    · simp only [hs, if_true]
      exact ih (fun x hx => h x (List.mem_cons_of_mem _ hx))
    · simp only [hs, if_false]
      simp

/-- On ASCII bytes `TrimSpace` removes the white space (tab, line feed, vertical tab, form
feed, carriage return, space) at both ends and nothing else. -/
theorem TrimSpace_ascii (s : Bytes) (h : ∀ c ∈ s, c.toNat < 128) :
    TrimSpace s = rightTrim (s.dropWhile asciiSpace) := by
  induction s with
  | nil => rfl
  | cons c rest ih =>
    have hc : ¬ RuneSelf ≤ c.toNat := by
      have := h c (List.mem_cons_self _ _)
      unfold RuneSelf; omega
    simp only [TrimSpace, hc, if_false, List.dropWhile_cons]
    by_cases hs : asciiSpace c = true
    · simp only [hs, if_true]
      exact ih (fun x hx => h x (List.mem_cons_of_mem _ hx))
    · simp only [hs, if_false]
      rw [trimSpaceStop_ascii _ (fun x hx => h x (List.mem_reverse.1 hx))]
      rfl

/-- Text fields (C11 as amended): after a successful `ReadHeader` on the empty header,
every decoded text field is `TrimSpace` of the fixed-width bytes of the field, that is
the field without the white space at both of its ends; the four global text fields
and, for each signal `i` below the signal count, the eight per-signal ones. -/
theorem ReadHeader_text_fields (source : File) (header1 : HeaderRecord) (source1 : File)
    (h : ReadHeader HeaderRecord.zero source = .ok (header1, source1)) :
    header1.PatientID = TrimSpace (fieldAt source.data 8 80) ∧
      header1.RecordID = TrimSpace (fieldAt source.data 88 80) ∧
      header1.StartDate = TrimSpace (fieldAt source.data 168 8) ∧
      header1.StartTime = TrimSpace (fieldAt source.data 176 8) ∧
      ∀ i, i < header1.NumOfSignals.toNat →
        header1.Label[i]? = some (TrimSpace (fieldAt source.data (256 + 16 * i) 16)) ∧
        header1.TrType[i]? = some (TrimSpace (fieldAt source.data
          (256 + 16 * header1.NumOfSignals.toNat + 80 * i) 80)) ∧
        header1.PhDim[i]? = some (TrimSpace (fieldAt source.data
          (256 + 96 * header1.NumOfSignals.toNat + 8 * i) 8)) ∧
        header1.PhMin[i]? = some (TrimSpace (fieldAt source.data
          (256 + 104 * header1.NumOfSignals.toNat + 8 * i) 8)) ∧
        header1.PhMax[i]? = some (TrimSpace (fieldAt source.data
          (256 + 112 * header1.NumOfSignals.toNat + 8 * i) 8)) ∧
        header1.DigMin[i]? = some (TrimSpace (fieldAt source.data
          (256 + 120 * header1.NumOfSignals.toNat + 8 * i) 8)) ∧
        header1.DigMax[i]? = some (TrimSpace (fieldAt source.data
          (256 + 128 * header1.NumOfSignals.toNat + 8 * i) 8)) ∧
        header1.Prefiltering[i]? = some (TrimSpace (fieldAt source.data
          (256 + 136 * header1.NumOfSignals.toNat + 80 * i) 80)) := by
  obtain ⟨ns, samples, hlen, hr⟩ := ReadHeader_ok_inv _ _ _ h
  simp only at hr
  obtain ⟨h1, h2, h3, h4, h5, h6, h7, h8, -⟩ :=
    appendSignals_arrays source.data ns.toNat (globalFieldsWith source.data HeaderRecord.zero ns)
      ns.toNat
  obtain ⟨t1, t2, t3, t4⟩ := appendSignals_text source.data ns.toNat
    (globalFieldsWith source.data HeaderRecord.zero ns) ns.toNat
  have hsig := appendSignals_NumOfSignals source.data ns.toNat
    (globalFieldsWith source.data HeaderRecord.zero ns) ns.toNat
  rw [hr]
  simp only [h1, h2, h3, h4, h5, h6, h7, h8, t1, t2, t3, t4, hsig]
  simp only [globalFieldsWith, globalFields, HeaderRecord.zero, List.nil_append, true_and]
  intro i hi
  exact ⟨getElem?_range_map _ _ i hi, getElem?_range_map _ _ i hi, getElem?_range_map _ _ i hi,
    getElem?_range_map _ _ i hi, getElem?_range_map _ _ i hi, getElem?_range_map _ _ i hi,
    getElem?_range_map _ _ i hi, getElem?_range_map _ _ i hi⟩

/-- Witness for C11 as amended: the recording whose patient field starts with a space. -/
theorem ReadHeader_text_fields_witness :
    ({ recordingHeader with PatientID := [49] } : HeaderRecord).PatientID
        = TrimSpace (fieldAt leadingSpaceBytes 8 80) ∧
      recordingHeader.RecordID = TrimSpace (fieldAt leadingSpaceBytes 88 80) ∧
      recordingHeader.StartDate = TrimSpace (fieldAt leadingSpaceBytes 168 8) ∧
      recordingHeader.StartTime = TrimSpace (fieldAt leadingSpaceBytes 176 8) ∧
      ∀ i, i < recordingHeader.NumOfSignals.toNat →
        recordingHeader.Label[i]? = some (TrimSpace (fieldAt leadingSpaceBytes (256 + 16 * i) 16)) ∧
        recordingHeader.TrType[i]? = some (TrimSpace (fieldAt leadingSpaceBytes
          (256 + 16 * recordingHeader.NumOfSignals.toNat + 80 * i) 80)) ∧
        recordingHeader.PhDim[i]? = some (TrimSpace (fieldAt leadingSpaceBytes
          (256 + 96 * recordingHeader.NumOfSignals.toNat + 8 * i) 8)) ∧
        recordingHeader.PhMin[i]? = some (TrimSpace (fieldAt leadingSpaceBytes
          (256 + 104 * recordingHeader.NumOfSignals.toNat + 8 * i) 8)) ∧
        recordingHeader.PhMax[i]? = some (TrimSpace (fieldAt leadingSpaceBytes
          (256 + 112 * recordingHeader.NumOfSignals.toNat + 8 * i) 8)) ∧
        recordingHeader.DigMin[i]? = some (TrimSpace (fieldAt leadingSpaceBytes
          (256 + 120 * recordingHeader.NumOfSignals.toNat + 8 * i) 8)) ∧
        recordingHeader.DigMax[i]? = some (TrimSpace (fieldAt leadingSpaceBytes
          (256 + 128 * recordingHeader.NumOfSignals.toNat + 8 * i) 8)) ∧
        recordingHeader.Prefiltering[i]? = some (TrimSpace (fieldAt leadingSpaceBytes
          (256 + 136 * recordingHeader.NumOfSignals.toNat + 80 * i) 80)) :=
  ReadHeader_text_fields ⟨leadingSpaceBytes, 0⟩ { recordingHeader with PatientID := [49] }
    ⟨leadingSpaceBytes, 704⟩ (by decide)

/-- Counterexample to C11 as stated: the patient field ` 1` followed by 78 spaces is
decoded as `1`; right-trimming would keep the leading space. -/
theorem ReadHeader_leading_space_removed :
    ReadHeader HeaderRecord.zero ⟨leadingSpaceBytes, 0⟩
        = .ok ({ recordingHeader with PatientID := [49] }, ⟨leadingSpaceBytes, 704⟩) ∧
      fieldAt leadingSpaceBytes 8 80 = 32 :: 49 :: List.replicate 78 32 ∧
      rightTrim (fieldAt leadingSpaceBytes 8 80) = [32, 49] := by
  decide

theorem digitChar_byte (d : Nat) (h : d < 10) :
    (UInt8.ofNat (Nat.digitChar d).toNat).toNat = 48 + d := by
  interval_cases d <;> rfl

theorem toDigitsCore_value (fuel : Nat) :
    ∀ (n : Nat) (ds : List Char), n < fuel →
      ((Nat.toDigitsCore 10 fuel n ds).map (fun c => UInt8.ofNat c.toNat)).foldl
          (fun n c => n * 10 + (c.toNat - 48)) 0
        = (ds.map (fun c => UInt8.ofNat c.toNat)).foldl (fun n c => n * 10 + (c.toNat - 48)) n := by
  induction fuel with
  | zero => intro n ds h; omega
  | succ fuel ih =>
    intro n ds h
    have hd := digitChar_byte (n % 10) (Nat.mod_lt _ (by omega))
    simp only [Nat.toDigitsCore]
    by_cases h0 : n / 10 = 0
    · simp only [h0, if_true, List.map_cons, List.foldl_cons, hd]
      congr 1
      omega
    · simp only [h0, if_false]
      rw [ih (n / 10) _ (by omega)]
      simp only [List.map_cons, List.foldl_cons, hd]
      congr 1
      omega

theorem toDigitsCore_digits (fuel : Nat) :
    ∀ (n : Nat) (ds : List Char),
      (ds.map (fun c => UInt8.ofNat c.toNat)).all isDigit = true →
      ((Nat.toDigitsCore 10 fuel n ds).map (fun c => UInt8.ofNat c.toNat)).all isDigit = true := by
  induction fuel with
  | zero => intro n ds h; exact h
  | succ fuel ih =>
    intro n ds h
    have hd := digitChar_byte (n % 10) (Nat.mod_lt _ (by omega))
    have hdig : isDigit (UInt8.ofNat (Nat.digitChar (n % 10)).toNat) = true := by
      simp only [isDigit, hd, decide_eq_true_eq]; omega
    simp only [Nat.toDigitsCore]
    by_cases h0 : n / 10 = 0
    · simp only [h0, if_true, List.map_cons, List.all_cons, hdig, Bool.true_and]
      exact h
    · simp only [h0, if_false]
      exact ih _ _ (by simp only [List.map_cons, List.all_cons, hdig, Bool.true_and]; exact h)

theorem toDigitsCore_ne_nil_of (fuel : Nat) :
    ∀ (n : Nat) (ds : List Char), ds ≠ [] → Nat.toDigitsCore 10 fuel n ds ≠ [] := by
  induction fuel with
  | zero => intro n ds h; exact h
  | succ fuel ih =>
    intro n ds h
    simp only [Nat.toDigitsCore]
    by_cases h0 : n / 10 = 0
    · simp only [h0, if_true]; exact List.cons_ne_nil _ _
    · simp only [h0, if_false]; exact ih _ _ (List.cons_ne_nil _ _)

theorem toDigitsCore_ne_nil (fuel n : Nat) (ds : List Char) :
    Nat.toDigitsCore 10 (fuel + 1) n ds ≠ [] := by
  simp only [Nat.toDigitsCore]
  by_cases h0 : n / 10 = 0
  · simp only [h0, if_true]; exact List.cons_ne_nil _ _
  · simp only [h0, if_false]; exact toDigitsCore_ne_nil_of _ _ _ (List.cons_ne_nil _ _)

/-- The text that `Itoa` produces is a decimal integer and writes the number converted. -/
theorem Itoa_decimal (i : Int) : isDecimalInteger (Itoa i) = true ∧ decimalValue (Itoa i) = i := by
  have hval : digitsValue ((Nat.toDigits 10 i.natAbs).map (fun c => UInt8.ofNat c.toNat))
      = i.natAbs := by
    unfold digitsValue Nat.toDigits
    rw [toDigitsCore_value _ _ _ (by omega)]
    rfl
  have hall : ((Nat.toDigits 10 i.natAbs).map (fun c => UInt8.ofNat c.toNat)).all isDigit = true :=
    toDigitsCore_digits _ _ _ rfl
  have hne : (Nat.toDigits 10 i.natAbs).map (fun c => UInt8.ofNat c.toNat) ≠ [] := by
    intro hnil
    exact toDigitsCore_ne_nil _ _ _ (List.map_eq_nil_iff.1 hnil)
  unfold Itoa
  simp only
  generalize (Nat.toDigits 10 i.natAbs).map (fun c => UInt8.ofNat c.toNat) = digits at hval hall hne
  by_cases hneg : i < 0
  · simp only [hneg, if_true, isDecimalInteger, decimalValue, hval]
    refine ⟨?_, by omega⟩
    cases digits with
    | nil => exact absurd rfl hne
    | cons d rest => simpa using hall
  · simp only [hneg, if_false]
    cases digits with
    | nil => exact absurd rfl hne
    | cons d rest =>
      have hd : isDigit d = true := by
        simp only [List.all_cons, Bool.and_eq_true] at hall
        exact hall.1
      have h43 : d ≠ 43 := by rintro rfl; revert hd; decide
      have h45 : d ≠ 45 := by rintro rfl; revert hd; decide
      simp only [isDecimalInteger, decimalValue, h43, h45, or_self, if_false, hall, hval, true_and]
      omega

theorem int16LE_eq_sampleValue (lo hi : UInt8) : int16LE lo hi = sampleValue lo hi := by
  have hlo : lo.toNat < 256 := UInt8.toNat_lt_size lo
  unfold int16LE sampleValue
  simp only
  by_cases h : hi.toNat < 128
  · have : lo.toNat + 256 * hi.toNat < 32768 := by omega
    simp only [h, this, if_true]; push_cast; rfl
  · have : ¬ lo.toNat + 256 * hi.toNat < 32768 := by omega
    simp only [h, this, if_false]; push_cast; rfl

theorem sampleValue_range (lo hi : UInt8) :
    -32768 ≤ sampleValue lo hi ∧ sampleValue lo hi ≤ 32767 := by
  have hlo : lo.toNat < 256 := UInt8.toNat_lt_size lo
  have hhi : hi.toNat < 256 := UInt8.toNat_lt_size hi
  unfold sampleValue
  split <;> omega

theorem readBytes_length (source : File) (n : Nat) (off whence : Int) (r : Bytes × File)
    (h : readBytes source n off whence = .ok r) : r.1.length = n := by
  unfold readBytes at h
  split at h
  · cases h
  · split at h
    · cases h
    · rename_i got src1 hread
      cases h
      have hgot : got.length ≤ n := by
        unfold File.Read at hread
        split at hread
        · cases hread; exact Nat.zero_le _
        · split at hread
          · cases hread
          · cases hread
            simp only [List.length_take]
            exact Nat.min_le_left _ _
      simp only [List.length_append, List.length_replicate]
      omega

/-- Sample decoding (C15): a successful innermost loop body reads two bytes `lo`, `hi` at
the cursor and stores, at `record[row][col]`, the decimal text of `lo + 256 * hi` when
`hi < 128` and of `lo + 256 * hi - 65536` otherwise, a value between -32768 and 32767;
and the physical and digital dimension, minimum and maximum fields of the header do
not enter `DataToCSV`. -/
theorem fillCell_sample_exact (header : HeaderRecord) (source : File) (showLabels : Bool)
    (phDim phMin phMax digMin digMax : List Bytes) (row col : Int) (st st1 : FillState)
    (h : fillCell row col st = .ok st1) :
    (∃ lo hi cells, readBytes st.2 2 0 1 = .ok ([lo, hi], st1.2) ∧
        st.1[row.toNat]? = some cells ∧
        st1.1 = st.1.set row.toNat (cells.set col.toNat (Itoa (sampleValue lo hi))) ∧
        isDecimalInteger (Itoa (sampleValue lo hi)) = true ∧
        decimalValue (Itoa (sampleValue lo hi)) = sampleValue lo hi ∧
        -32768 ≤ sampleValue lo hi ∧ sampleValue lo hi ≤ 32767) ∧
      DataToCSV { header with
          PhDim := phDim, PhMin := phMin, PhMax := phMax, DigMin := digMin, DigMax := digMax }
        source showLabels = DataToCSV header source showLabels := by
  refine ⟨?_, rfl⟩
  unfold fillCell at h
  cases hrb : readBytes st.2 2 0 1 with
  | error e => rw [hrb] at h; cases h
  | ok bs =>
    rw [hrb] at h
    simp only [bind, Except.bind] at h
    have hlen := readBytes_length _ _ _ _ _ hrb
    obtain ⟨b, src⟩ := bs
    match b, hlen with
    | [lo, hi], _ =>
      simp only [binaryReadInt16] at h
      cases hset : setCell st.1 row col (Itoa (int16LE lo hi)) with
      | error e => rw [hset] at h; cases h
      | ok record1 =>
        rw [hset] at h
        cases h
        obtain ⟨cells, -, hcells, -, -, hrec⟩ := setCell_eq_ok _ _ _ _ _ hset
        rw [int16LE_eq_sampleValue] at hrec
        exact ⟨lo, hi, cells, rfl, hcells, hrec, (Itoa_decimal _).1, (Itoa_decimal _).2,
          (sampleValue_range lo hi).1, (sampleValue_range lo hi).2⟩

/-- Witness for C15: the first sample of the example stream, bytes 10 and 0, stored at
row 0, column 0 as the text `10`. -/
theorem fillCell_sample_exact_witness :
    (∃ lo hi cells, readBytes (⟨exampleSource.data, 4⟩ : File) 2 0 1
          = .ok ([lo, hi], (⟨exampleSource.data, 6⟩ : File)) ∧
        ([[[], [], [], []], [[], []]] : List (List Bytes))[(0 : Int).toNat]? = some cells ∧
        ([[[49, 48], [], [], []], [[], []]] : List (List Bytes))
          = ([[[], [], [], []], [[], []]] : List (List Bytes)).set (0 : Int).toNat
              (cells.set (0 : Int).toNat (Itoa (sampleValue lo hi))) ∧
        isDecimalInteger (Itoa (sampleValue lo hi)) = true ∧
        decimalValue (Itoa (sampleValue lo hi)) = sampleValue lo hi ∧
        -32768 ≤ sampleValue lo hi ∧ sampleValue lo hi ≤ 32767) ∧
      DataToCSV { exampleHeader with
          PhDim := [[117, 86]], PhMin := [[45, 49]], PhMax := [[49]], DigMin := [[45, 57]],
          DigMax := [[57]] }
        exampleSource false = DataToCSV exampleHeader exampleSource false :=
  fillCell_sample_exact exampleHeader exampleSource false [[117, 86]] [[45, 49]] [[49]]
    [[45, 57]] [[57]] 0 0 ([[[], [], [], []], [[], []]], ⟨exampleSource.data, 4⟩)
    ([[[49, 48], [], [], []], [[], []]], ⟨exampleSource.data, 6⟩) (by decide)

theorem forLoop_safe {σ : Type} (body : Int → σ → Except Error σ) (Inv : Nat → σ → Prop)
    (E : Error → Prop) :
    ∀ (n : Nat) (start : Int) (s : σ), Inv 0 s →
      (∀ k s, k < n → Inv k s →
        (∃ s1, body (start + k) s = .ok s1 ∧ Inv (k + 1) s1) ∨
        (∃ e, body (start + k) s = .error e ∧ E e)) →
      (∃ s1, forLoop body n start s = .ok s1 ∧ Inv n s1) ∨
        (∃ e, forLoop body n start s = .error e ∧ E e) := by
  intro n
  induction n generalizing Inv with
  | zero => intro start s h0 _; exact Or.inl ⟨s, rfl, h0⟩
  | succ n ih =>
    intro start s h0 hstep
    rcases hstep 0 s (Nat.succ_pos n) h0 with ⟨s1, hb, h1⟩ | ⟨e, hb, he⟩
    · simp only [Nat.cast_zero, add_zero] at hb
      have := ih (fun k => Inv (k + 1)) (start + 1) s1 h1 (by
        intro k s2 hk hi
        have h3 := hstep (k + 1) s2 (by omega) hi
        have hidx : start + ((k + 1 : Nat) : Int) = start + 1 + (k : Int) := by
          push_cast; ring
        rw [hidx] at h3
        exact h3)
      rcases this with ⟨s2, hf, h2⟩ | ⟨e, hf, he⟩
      · exact Or.inl ⟨s2, by simp only [forLoop, hb, hf], h2⟩
      · exact Or.inr ⟨e, by simp only [forLoop, hb, hf], he⟩
    · simp only [Nat.cast_zero, add_zero] at hb
      exact Or.inr ⟨e, by simp only [forLoop, hb], he⟩

/-- A two-byte read at the cursor either succeeds, moving the cursor forward by at most
two bytes, or finds the end of the file. -/
theorem readBytes_two_cases (source : File) :
    (∃ lo hi src, readBytes source 2 0 1 = .ok ([lo, hi], src) ∧ src.data = source.data ∧
        source.pos ≤ src.pos ∧ src.pos ≤ source.pos + 2) ∨
      (readBytes source 2 0 1 = .error .readFailed ∧ source.data.length ≤ source.pos) := by
  cases hrb : readBytes source 2 0 1 with
  | error e =>
    right
    have h0 : ¬ ((source.pos : Int) < 0) := by omega
    by_cases hlen : source.data.length ≤ source.pos
    · simp only [readBytes, File.Seek, one_ne_zero, if_false, if_true, add_zero, h0,
        Int.toNat_ofNat, File.Read, OfNat.ofNat_ne_zero, hlen] at hrb
      cases hrb
      exact ⟨rfl, hlen⟩
    · simp only [readBytes, File.Seek, one_ne_zero, if_false, if_true, add_zero, h0,
        Int.toNat_ofNat, File.Read, OfNat.ofNat_ne_zero, hlen] at hrb
      cases hrb
  | ok r =>
    left
    have hlen := readBytes_length _ _ _ _ _ hrb
    obtain ⟨hlt, hd, hp⟩ := readBytes_rel_ok source 2 0 r (by omega) hrb
    obtain ⟨b, src⟩ := r
    match b, hlen with
    | [lo, hi], _ => exact ⟨lo, hi, src, rfl, hd, by simp only at hp; omega, by simp only at hp; omega⟩

theorem setCell_ok (record : List (List Bytes)) (i c : Nat) (cells : List Bytes) (v : Bytes)
    (row col : Int) (hrow : row = (i : Int)) (hcol : col = (c : Int))
    (hcells : record[i]? = some cells) (hc : c < cells.length) :
    setCell record row col v = .ok (record.set i (cells.set c v)) := by
  subst hrow hcol
  have h1 : ¬ (((c : Nat) : Int) < 0 ∨ (cells.length : Int) ≤ ((c : Nat) : Int)) := by omega
  simp only [setCell, index_ok record (i : Int) i cells rfl hcells, bind, Except.bind, h1,
    if_false, Int.toNat_ofNat]

theorem fillCell_safe (showLabels : Bool) (data : Bytes) (B D : Nat) (ns : List Nat)
    (d i j : Nat) (st : FillState) (col : Int)
    (hinv : SafeInv showLabels data B D ns d i j st) (hd : d < D) (hi : i < ns.length)
    (hj1 : j < ns.getD i 0)
    (hcol : col = ((d * ns.getD i 0 + labelCells showLabels + j : Nat) : Int)) :
    (∃ st1, fillCell (i : Int) col st = .ok st1 ∧ SafeInv showLabels data B D ns d i (j + 1) st1) ∨
      (∃ e, fillCell (i : Int) col st = .error e ∧ ShortRead data B D ns e) := by
  obtain ⟨hdat, hge, hle, hrows, hrl⟩ := hinv
  have hP : (ns.take i).sum + ns.getD i 0 ≤ ns.sum := by
    rw [← sum_take_succ ns i hi]; exact sum_take_le ns (i + 1)
  have hDS : (d + 1) * ns.sum ≤ D * ns.sum := Nat.mul_le_mul_right _ hd
  have hDS1 : (d + 1) * ns.sum = d * ns.sum + ns.sum := by ring
  have hDn : (d + 1) * ns.getD i 0 ≤ D * ns.getD i 0 := Nat.mul_le_mul_right _ hd
  have hDn1 : (d + 1) * ns.getD i 0 = d * ns.getD i 0 + ns.getD i 0 := by ring
  rcases readBytes_two_cases st.2 with ⟨lo, hi2, src, hrb, hsd, hp1, hp2⟩ | ⟨hrb, hshort⟩
  · obtain ⟨cells, hcells⟩ : ∃ cells, st.1[i]? = some cells := by
      have : i < st.1.length := by omega
      exact ⟨st.1[i], List.getElem?_eq_getElem this⟩
    have hclen := hrl i cells hcells
    have hsc := setCell_ok st.1 i (d * ns.getD i 0 + labelCells showLabels + j) cells
      (Itoa (int16LE lo hi2)) (i : Int) col rfl hcol hcells (by
        have : labelCells showLabels ≤ 1 := by unfold labelCells; split <;> omega
        omega)
    refine Or.inl ⟨(st.1.set i (cells.set (d * ns.getD i 0 + labelCells showLabels + j)
      (Itoa (int16LE lo hi2))), src), ?_, ?_⟩
    · simp only [fillCell, hrb, bind, Except.bind, binaryReadInt16, hsc, pure, Except.pure]
    · refine ⟨hsd.trans hdat, by simp only; omega, by simp only; omega, by simpa using hrows, ?_⟩
      intro i1 row1 h1
      simp only at h1
      rw [List.getElem?_set] at h1
      split at h1
      · rename_i heq
        subst heq
        split at h1
        · cases h1; simpa using hclen
        · cases h1
      · exact hrl i1 row1 h1
  · refine Or.inr ⟨.readFailed, ?_, rfl, ?_, ?_⟩
    · simp only [fillCell, hrb, bind, Except.bind]
    · have h1 : 0 < D := by omega
      have h2 : 0 < ns.sum := by omega
      exact Nat.mul_pos h1 h2
    · rw [hdat] at hshort
      omega

theorem fillRow_safe (header : HeaderRecord) (showLabels : Bool) (data : Bytes) (B D : Nat)
    (ns : List Nat) (hns : header.NumOfSamples = ns.map (fun n : Nat => (n : Int)))
    (d i : Nat) (st : FillState) (hinv : SafeInv showLabels data B D ns d i 0 st)
    (hd : d < D) (hi : i < ns.length) :
    (∃ st1, fillRow header showLabels (d : Int) (i : Int) st = .ok st1 ∧
        SafeInv showLabels data B D ns d (i + 1) 0 st1) ∨
      (∃ e, fillRow header showLabels (d : Int) (i : Int) st = .error e ∧
        ShortRead data B D ns e) := by
  have hidx : index header.NumOfSamples (i : Int) = .ok ((ns.getD i 0 : Nat) : Int) :=
    index_ok _ _ i _ rfl (by rw [hns]; exact getElem?_map_cast ns i hi)
  have hcount : (((d : Int) + 1) * ((ns.getD i 0 : Nat) : Int)
      - (((ns.getD i 0 : Nat) : Int) * (d : Int) + (labelCells showLabels : Int))).toNat
      = ns.getD i 0 - labelCells showLabels := by
    have : ((d : Int) + 1) * ((ns.getD i 0 : Nat) : Int)
        - (((ns.getD i 0 : Nat) : Int) * (d : Int) + (labelCells showLabels : Int))
        = ((ns.getD i 0 : Nat) : Int) - (labelCells showLabels : Int) := by ring
    rw [this]; omega
  have hloop := forLoop_safe (fillCell (i : Int))
    (fun k => SafeInv showLabels data B D ns d i k) (ShortRead data B D ns)
    (ns.getD i 0 - labelCells showLabels)
    (((ns.getD i 0 : Nat) : Int) * (d : Int) + (labelCells showLabels : Int)) st hinv
    (fun k s hk hs => fillCell_safe showLabels data B D ns d i k s _ hs hd hi (by omega)
      (by push_cast; ring))
  have hrun : fillRow header showLabels (d : Int) (i : Int) st
      = forLoop (fillCell (i : Int)) (ns.getD i 0 - labelCells showLabels)
          (((ns.getD i 0 : Nat) : Int) * (d : Int) + (labelCells showLabels : Int)) st := by
    cases showLabels with
    | false =>
      have hc := hcount
      simp only [labelCells, Bool.false_eq_true, if_false, Nat.cast_zero, add_zero] at hc ⊢
      simp only [fillRow, hidx, bind, Except.bind, Bool.false_eq_true, if_false, hc]
    | true =>
      have hc := hcount
      simp only [labelCells, if_true, Nat.cast_one] at hc ⊢
      simp only [fillRow, hidx, bind, Except.bind, if_true, hc]
  rw [hrun]
  rcases hloop with ⟨st1, hok, hfin⟩ | herr
  · refine Or.inl ⟨st1, hok, ?_⟩
    obtain ⟨hdat, hge, hle, hrows, hrl⟩ := hfin
    refine ⟨hdat, hge, ?_, hrows, hrl⟩
    rw [sum_take_succ ns i hi]
    omega
  · exact Or.inr herr

theorem fillRecord_safe (header : HeaderRecord) (showLabels : Bool) (data : Bytes) (B D : Nat)
    (ns : List Nat) (hns : header.NumOfSamples = ns.map (fun n : Nat => (n : Int)))
    (d : Nat) (st : FillState) (hinv : SafeInv showLabels data B D ns d 0 0 st) (hd : d < D) :
    (∃ st1, fillRecord header showLabels (d : Int) st = .ok st1 ∧
        SafeInv showLabels data B D ns (d + 1) 0 0 st1) ∨
      (∃ e, fillRecord header showLabels (d : Int) st = .error e ∧ ShortRead data B D ns e) := by
  have hloop := forLoop_safe (fillRow header showLabels (d : Int))
    (fun k s => k ≤ ns.length ∧ SafeInv showLabels data B D ns d k 0 s)
    (ShortRead data B D ns) ns.length 0 st ⟨Nat.zero_le _, hinv⟩
    (fun k s hk hs => by
      rw [zero_add]
      rcases fillRow_safe header showLabels data B D ns hns d k s hs.2 hd hk with
        ⟨s1, h1, h2⟩ | herr
      · exact Or.inl ⟨s1, h1, by omega, h2⟩
      · exact Or.inr herr)
  have hrun : fillRecord header showLabels (d : Int) st
      = forLoop (fillRow header showLabels (d : Int)) ns.length 0 st := by
    simp only [fillRecord, hinv.rows]
  rw [hrun]
  rcases hloop with ⟨st1, hok, -, hfin⟩ | herr
  · refine Or.inl ⟨st1, hok, ?_⟩
    obtain ⟨hdat, hge, hle, hrows, hrl⟩ := hfin
    refine ⟨hdat, hge, ?_, hrows, hrl⟩
    rw [List.take_length] at hle
    have : (d + 1) * ns.sum = d * ns.sum + ns.sum := by ring
    simp only [List.take_zero, List.sum_nil]
    omega
  · exact Or.inr herr

theorem allocRow_ok (header : HeaderRecord) (showLabels : Bool) (D : Nat) (ns : List Nat)
    (hD : header.NumOfDR = (D : Int))
    (hns : header.NumOfSamples = ns.map (fun n : Nat => (n : Int)))
    (hL : showLabels = true → ns.length ≤ header.Label.length)
    (k : Nat) (record : List (List Bytes)) (hk : k < ns.length)
    (hrows : record.length = ns.length)
    (hfit : (stringSize : Int)
        * ((D : Int) * ((ns.getD k 0 : Nat) : Int) + (labelCells showLabels : Int))
      ≤ (maxAlloc : Int)) :
    ∃ record1, allocRow header showLabels (k : Int) record = .ok record1 := by
  have hidx : index header.NumOfSamples (k : Int) = .ok ((ns.getD k 0 : Nat) : Int) :=
    index_ok _ _ k _ rfl (by rw [hns]; exact getElem?_map_cast ns k hk)
  have hlt : k < record.length := by omega
  have hrow : index record (k : Int) = .ok record[k] :=
    index_ok _ _ k _ rfl (List.getElem?_eq_getElem hlt)
  cases showLabels with
  | false =>
    have hmk : make stringSize ([] : Bytes) ((D : Int) * ((ns.getD k 0 : Nat) : Int))
        = .ok (List.replicate (D * ns.getD k 0) []) := by
      have h0 : (0 : Int) ≤ (D : Int) * ((ns.getD k 0 : Nat) : Int) := by positivity
      have h1 : ((D : Int) * ((ns.getD k 0 : Nat) : Int)).toNat = D * ns.getD k 0 := by
        rw [← Nat.cast_mul]; exact Int.toNat_ofNat _
      simp only [labelCells, Bool.false_eq_true, if_false, Nat.cast_zero, add_zero] at hfit
      rw [make_ok _ _ _ h0 hfit, h1]
    refine ⟨record.set k (List.replicate (D * ns.getD k 0) []), ?_⟩
    simp only [allocRow, hidx, hD, hmk, hrow, bind, Except.bind, pure, Except.pure,
      Bool.false_eq_true, if_false, Int.toNat_ofNat]
  | true =>
    have hmk : make stringSize ([] : Bytes) ((D : Int) * ((ns.getD k 0 : Nat) : Int) + 1)
        = .ok (List.replicate (D * ns.getD k 0 + 1) []) := by
      have hp : (0 : Int) ≤ (D : Int) * ((ns.getD k 0 : Nat) : Int) := by positivity
      have h0 : (0 : Int) ≤ (D : Int) * ((ns.getD k 0 : Nat) : Int) + 1 := by omega
      have h1 : ((D : Int) * ((ns.getD k 0 : Nat) : Int) + 1).toNat = D * ns.getD k 0 + 1 := by
        have : (D : Int) * ((ns.getD k 0 : Nat) : Int) + 1 = ((D * ns.getD k 0 + 1 : Nat) : Int) := by
          push_cast; ring
        rw [this]; exact Int.toNat_ofNat _
      simp only [labelCells, if_true, Nat.cast_one] at hfit
      rw [make_ok _ _ _ h0 hfit, h1]
    have hklab : k < header.Label.length := by have := hL rfl; omega
    have hlab : index header.Label (k : Int) = .ok header.Label[k] :=
      index_ok _ _ k _ rfl (List.getElem?_eq_getElem hklab)
    have hset := setCell_ok (record.set k (List.replicate (D * ns.getD k 0 + 1) [])) k 0
      (List.replicate (D * ns.getD k 0 + 1) []) header.Label[k] (k : Int) 0 rfl rfl
      (by rw [List.getElem?_set, if_pos rfl, if_pos hlt]) (by simp)
    refine ⟨(record.set k (List.replicate (D * ns.getD k 0 + 1) [])).set k
      ((List.replicate (D * ns.getD k 0 + 1) ([] : Bytes)).set 0 header.Label[k]), ?_⟩
    simp only [allocRow, hidx, hD, hmk, hrow, hlab, bind, Except.bind, if_true, Int.toNat_ofNat]
    exact hset

theorem RowShape_length (header : HeaderRecord) (showLabels : Bool) (D : Nat) (ns : List Nat)
    (hD : header.NumOfDR = (D : Int))
    (hns : header.NumOfSamples = ns.map (fun n : Nat => (n : Int)))
    (i : Nat) (row : List Bytes) (h : RowShape header showLabels i row) :
    row.length = D * ns.getD i 0 + labelCells showLabels := by
  obtain ⟨n, hn, hf, ht⟩ := h
  have hi : i < ns.length := by
    have := (List.getElem?_eq_some_iff.1 hn).1
    rw [hns, List.length_map] at this
    exact this
  rw [hns, getElem?_map_cast ns i hi] at hn
  have hnv := Option.some.inj hn
  subst hnv
  rw [hD] at hf ht
  have hmul : (D : Int) * ((ns.getD i 0 : Nat) : Int) = ((D * ns.getD i 0 : Nat) : Int) := by
    push_cast; ring
  cases showLabels with
  | false =>
    have := hf rfl
    simp only [labelCells, Bool.false_eq_true, if_false]
    rw [hmul] at this
    omega
  | true =>
    have := (ht rfl).1
    simp only [labelCells, if_true]
    rw [hmul] at this
    omega

theorem allocRow_length (header : HeaderRecord) (showLabels : Bool) (row : Int)
    (record record1 : List (List Bytes))
    (h : allocRow header showLabels row record = .ok record1) :
    record1.length = record.length := by
  unfold allocRow at h
  cases hidx : index header.NumOfSamples row with
  | error e => rw [hidx] at h; cases showLabels <;> cases h
  | ok n =>
    rw [hidx] at h
    simp only [bind, Except.bind] at h
    cases showLabels with
    | false =>
      simp only [Bool.false_eq_true, if_false] at h
      split at h
      · cases h
      split at h
      · cases h
      simp only [pure, Except.pure] at h
      cases h
      simp
    | true =>
      simp only [if_true] at h
      split at h
      · cases h
      split at h
      · cases h
      split at h
      · cases h
      obtain ⟨r, -, -, -, -, rfl⟩ := setCell_eq_ok _ _ _ _ _ h
      simp

/-- The outcome of `DataToCSV` on a header with non-negative counts and consistent arrays
whose matrix is within the allocation limit: it
succeeds with the cursor inside the data region, or a read found the end of a stream
that is shorter than the data region. -/
theorem DataToCSV_safe (header : HeaderRecord) (source : File) (showLabels : Bool)
    (B D : Nat) (ns : List Nat) (hB : header.NumOfBytes = (B : Int))
    (hD : header.NumOfDR = (D : Int)) (hS : header.NumOfSignals = (ns.length : Int))
    (hns : header.NumOfSamples = ns.map (fun n : Nat => (n : Int)))
    (hL : showLabels = true → ns.length ≤ header.Label.length)
    (hfit : AllocFits header showLabels) :
    (∃ st, DataToCSV header source showLabels = .ok st ∧ st.2.data = source.data ∧
        B ≤ st.2.pos ∧ st.2.pos ≤ B + 2 * (D * ns.sum)) ∨
      (∃ e, DataToCSV header source showLabels = .error e ∧ ShortRead source.data B D ns e) := by
  have hseek : source.Seek header.NumOfBytes 0 = some ⟨source.data, B⟩ := by
    have h0 : ¬ ((B : Int) < 0) := by omega
    simp [File.Seek, hB, h0]
  have hmk : make sliceSize ([] : List Bytes) header.NumOfSignals
      = .ok (List.replicate ns.length []) := by
    rw [make_ok _ _ _ (by omega) hfit.1, hS, Int.toNat_ofNat]
  obtain ⟨rec0, halloc, hlen0, hshape0⟩ := forLoop_total (allocRow header showLabels)
    (fun k record => record.length = ns.length ∧
      ∀ i1 row, i1 < k → record[i1]? = some row → RowShape header showLabels i1 row)
    ns.length 0 (List.replicate ns.length []) ⟨by simp, fun i1 row h _ => by omega⟩
    (fun k record hk hs => by
      obtain ⟨record1, h1⟩ := allocRow_ok header showLabels D ns hD hns hL k record hk hs.1
        (AllocFits_row header showLabels D ns hD hns hfit k hk)
      rw [zero_add]
      obtain ⟨h2, h3⟩ := allocRow_shape header showLabels k record record1 h1 hs.2
      exact ⟨record1, h1, h2.trans hs.1, h3⟩)
  have hloop := forLoop_safe (fillRecord header showLabels)
    (fun k s => k ≤ D ∧ SafeInv showLabels source.data B D ns k 0 0 s)
    (ShortRead source.data B D ns) D 0 (rec0, ⟨source.data, B⟩)
    ⟨Nat.zero_le _, rfl, Nat.le_refl _, by simp, hlen0, fun i1 row hrow =>
      RowShape_length header showLabels D ns hD hns i1 row (hshape0 i1 row (by
        have h1 : i1 < rec0.length := (List.getElem?_eq_some_iff.1 hrow).1
        omega) hrow)⟩
    (fun k s hk hs => by
      rw [zero_add]
      rcases fillRecord_safe header showLabels source.data B D ns hns k s hs.2 hk with
        ⟨s1, h1, h2⟩ | herr
      · exact Or.inl ⟨s1, h1, by omega, h2⟩
      · exact Or.inr herr)
  have hrun : DataToCSV header source showLabels
      = forLoop (fillRecord header showLabels) D 0 (rec0, ⟨source.data, B⟩) := by
    simp only [DataToCSV, hseek, hmk, bind, Except.bind, List.length_replicate, halloc, hD]
    simp
  rw [hrun]
  rcases hloop with ⟨st, hok, -, hfin⟩ | herr
  · refine Or.inl ⟨st, hok, hfin.data_eq, hfin.pos_ge, ?_⟩
    have := hfin.pos_le
    simp only [List.take_zero, List.sum_nil] at this
    omega
  · exact Or.inr herr

/-- No spurious truncation error (C18 as amended): on a header with non-negative header
byte count and counts, whose `NumOfSamples` and `Label` have `NumOfSignals` entries and
whose matrix is within the allocation limit of the runtime,
`DataToCSV` succeeds for either value of `showLabels` on every stream that holds the
data region; and with no signal or no data record it succeeds on every stream, leaving
the cursor at the header byte count, so that no byte is read.  Beyond the allocation
limit the run ends with the panic of `make` before any sample is read
(`DataToCSV_alloc_limit`). -/
theorem DataToCSV_completes (header : HeaderRecord) (source : File) (showLabels : Bool)
    (hB : 0 ≤ header.NumOfBytes) (hD : 0 ≤ header.NumOfDR)
    (hnn : ∀ n ∈ header.NumOfSamples, 0 ≤ n)
    (hlenS : (header.NumOfSamples.length : Int) = header.NumOfSignals)
    (hlenL : (header.Label.length : Int) = header.NumOfSignals)
    (hfit : AllocFits header showLabels) :
    (header.NumOfBytes + 2 * header.NumOfDR * samplesPerDataRecord header
          ≤ (source.data.length : Int) →
        ∃ st, DataToCSV header source showLabels = .ok st) ∧
      (header.NumOfSignals = 0 ∨ header.NumOfDR = 0 →
        ∃ record, DataToCSV header source showLabels
          = .ok (record, ⟨source.data, header.NumOfBytes.toNat⟩)) := by
  obtain ⟨ns, hns⟩ := exists_nat_list header.NumOfSamples hnn
  obtain ⟨B, hBn⟩ := Int.eq_ofNat_of_zero_le hB
  obtain ⟨D, hDn⟩ := Int.eq_ofNat_of_zero_le hD
  have hSn : header.NumOfSignals = (ns.length : Int) := by
    rw [← hlenS, hns, List.length_map]
  have hL : showLabels = true → ns.length ≤ header.Label.length := by
    intro _; omega
  have hsum : samplesPerDataRecord header = ((ns.sum : Nat) : Int) := by
    rw [samplesPerDataRecord, hns, sum_map_cast]
  have hsafe := DataToCSV_safe header source showLabels B D ns hBn hDn hSn hns hL hfit
  constructor
  · intro hdata
    rw [hBn, hDn, hsum] at hdata
    have hmul : (D : Int) * ((ns.sum : Nat) : Int) = ((D * ns.sum : Nat) : Int) := by
      push_cast; ring
    rw [mul_assoc, hmul] at hdata
    rcases hsafe with ⟨st, hok, -⟩ | ⟨e, -, -, -, hshort⟩
    · exact ⟨st, hok⟩
    · omega
  · intro hzero
    have hprod : D * ns.sum = 0 := by
      rcases hzero with h | h
      · have : ns.length = 0 := by omega
        rw [List.length_eq_zero.1 this]; simp
      · have : D = 0 := by omega
        rw [this]; simp
    rcases hsafe with ⟨st, hok, hd, hge, hle⟩ | ⟨e, -, -, hpos, -⟩
    · refine ⟨st.1, ?_⟩
      rw [hok, hBn, Int.toNat_ofNat]
      have hp : st.2.pos = B := by omega
      rw [← hd, ← hp]
    · omega

/-- Witness for C18 as amended: the example of the specification, with labels. -/
theorem DataToCSV_completes_witness :
    (exampleHeader.NumOfBytes + 2 * exampleHeader.NumOfDR * samplesPerDataRecord exampleHeader
          ≤ (exampleSource.data.length : Int) →
        ∃ st, DataToCSV exampleHeader exampleSource true = .ok st) ∧
      (exampleHeader.NumOfSignals = 0 ∨ exampleHeader.NumOfDR = 0 →
        ∃ record, DataToCSV exampleHeader exampleSource true
          = .ok (record, ⟨exampleSource.data, exampleHeader.NumOfBytes.toNat⟩)) :=
  DataToCSV_completes exampleHeader exampleSource true (by decide) (by decide) (by decide)
    (by decide) (by decide) (by decide)

/-- Counterexample to C18 as stated: no signal, no data record, an empty stream (which
holds the `-1 + 0` bytes asked for), and `DataToCSV` ends with the seek failure for
either value of `showLabels`; and with one signal, no data record and an empty
`NumOfSamples` it ends with a panic. -/
theorem DataToCSV_negative_offset_no_data :
    0 ≤ negativeOffsetEmptyHeader.NumOfSignals ∧ 0 ≤ negativeOffsetEmptyHeader.NumOfDR ∧
      (∀ n ∈ negativeOffsetEmptyHeader.NumOfSamples, 0 ≤ n) ∧
      negativeOffsetEmptyHeader.NumOfBytes
          + 2 * negativeOffsetEmptyHeader.NumOfDR * samplesPerDataRecord negativeOffsetEmptyHeader
        ≤ (([] : Bytes).length : Int) ∧
      DataToCSV negativeOffsetEmptyHeader ⟨[], 0⟩ false = .error .seekFailed ∧
      DataToCSV negativeOffsetEmptyHeader ⟨[], 0⟩ true = .error .seekFailed ∧
      0 ≤ missingSamplesHeader.NumOfSignals ∧ 0 ≤ missingSamplesHeader.NumOfDR ∧
      (∀ n ∈ missingSamplesHeader.NumOfSamples, 0 ≤ n) ∧
      missingSamplesHeader.NumOfBytes
          + 2 * missingSamplesHeader.NumOfDR * samplesPerDataRecord missingSamplesHeader
        ≤ (([] : Bytes).length : Int) ∧
      DataToCSV missingSamplesHeader ⟨[], 0⟩ false = .error .runtimePanic := by
  decide

theorem getElem?_eraseIdx_shift {α : Type} (l : List α) (i j : Nat) (hj : j ≠ i) :
    (l.eraseIdx i)[shiftIdx i j]? = l[j]? := by
  rw [List.getElem?_eraseIdx]
  unfold shiftIdx
  by_cases h : j < i
  · simp only [h, if_true]
  · have h1 : ¬ j - 1 < i := by omega
    have h2 : j - 1 + 1 = j := by omega
    simp only [h, if_false, h1, h2]

theorem eraseIdx_set_ne {α : Type} (l : List α) (i j : Nat) (x : α) (hj : j ≠ i) :
    (l.set j x).eraseIdx i = (l.eraseIdx i).set (shiftIdx i j) x := by
  induction l generalizing i j with
  | nil => simp
  | cons a t ih =>
    cases i with
    | zero =>
      cases j with
      | zero => exact absurd rfl hj
      | succ j => simp [shiftIdx]
    | succ i =>
      cases j with
      | zero => simp [shiftIdx]
      | succ j =>
        have := ih i j (by omega)
        simp only [List.set_cons_succ, List.eraseIdx_cons_succ, this]
        unfold shiftIdx
        by_cases h : j < i
        · have h1 : j + 1 < i + 1 := by omega
          simp only [h, h1, if_true, List.set_cons_succ]
        · have h1 : ¬ j + 1 < i + 1 := by omega
          have h2 : j + 1 - 1 = (j - 1) + 1 := by omega
          simp only [h, h1, if_false, h2, List.set_cons_succ]

theorem eraseIdx_set_self {α : Type} (l : List α) (i : Nat) (x : α) :
    (l.set i x).eraseIdx i = l.eraseIdx i := by
  induction l generalizing i with
  | nil => simp
  | cons a t ih =>
    cases i with
    | zero => simp
    | succ i => simp [ih i]

theorem index_eraseIdx_shift {α : Type} (l : List α) (i j : Nat) (hj : j ≠ i) :
    index (l.eraseIdx i) ((shiftIdx i j : Nat) : Int) = index l ((j : Nat) : Int) := by
  have h0 : ∀ k : Nat, ¬ ((k : Int) < 0) := fun k => by omega
  simp only [index, h0, if_false, Int.toNat_ofNat, List.get?_eq_getElem?,
    getElem?_eraseIdx_shift l i j hj]

theorem setCell_erase (record : List (List Bytes)) (i j : Nat) (hj : j ≠ i) (col : Int)
    (v : Bytes) :
    Except.map (fun r => r.eraseIdx i) (setCell record (j : Int) col v)
      = setCell (record.eraseIdx i) ((shiftIdx i j : Nat) : Int) col v := by
  simp only [setCell, index_eraseIdx_shift record i j hj, bind, Except.bind]
  cases index record (j : Int) with
  | error e => rfl
  | ok r =>
    simp only [Int.toNat_ofNat]
    split
    · rfl
    · simp only [Except.map, eraseIdx_set_ne record i j _ hj]

theorem fillCell_erase (i j : Nat) (hj : j ≠ i) (col : Int) (st : FillState) :
    Except.map (eraseRow i) (fillCell (j : Int) col st)
      = fillCell ((shiftIdx i j : Nat) : Int) col (eraseRow i st) := by
  simp only [fillCell, eraseRow, bind, Except.bind]
  cases readBytes st.2 2 0 1 with
  | error e => rfl
  | ok bs =>
    simp only
    cases binaryReadInt16 bs.1 with
    | none => rfl
    | some tmp =>
      simp only
      rw [← setCell_erase st.1 i j hj col (Itoa tmp)]
      cases setCell st.1 (j : Int) col (Itoa tmp) with
      | error e => rfl
      | ok record1 => rfl

/-- Two loops whose bodies correspond under a projection of the state, as long as an
invariant of the first one holds, have corresponding outcomes. -/
theorem forLoop_sim {σ τ : Type} (body : Int → σ → Except Error σ)
    (body2 : Int → τ → Except Error τ) (proj : σ → τ) (Inv : σ → Prop)
    (hstep : ∀ (k : Int) (s : σ), Inv s →
      Except.map proj (body k s) = body2 k (proj s) ∧ ∀ s1, body k s = .ok s1 → Inv s1) :
    ∀ (n : Nat) (start : Int) (s : σ), Inv s →
      Except.map proj (forLoop body n start s) = forLoop body2 n start (proj s) := by
  intro n
  induction n with
  | zero => intro start s _; rfl
  | succ n ih =>
    intro start s hs
    obtain ⟨h1, h2⟩ := hstep start s hs
    simp only [forLoop]
    rw [← h1]
    cases hb : body start s with
    | error e => rfl
    | ok s1 =>
      simp only [Except.map]
      exact ih (start + 1) s1 (h2 s1 hb)

theorem forLoop_succ_nat {σ : Type} (body : Int → σ → Except Error σ) (n a : Nat) (s : σ) :
    forLoop body (n + 1) (a : Int) s
      = match body (a : Int) s with
        | .error e => .error e
        | .ok s1 => forLoop body n ((a + 1 : Nat) : Int) s1 := by
  have h : ((a + 1 : Nat) : Int) = (a : Int) + 1 := by push_cast; rfl
  rw [h]
  rfl

/-- The part of a loop after the skipped index `i`: the second loop runs the same steps
one index lower. -/
theorem forLoop_after_skip {σ τ : Type} (body : Int → σ → Except Error σ)
    (body2 : Int → τ → Except Error τ) (proj : σ → τ) (Inv : σ → Prop) (i : Nat)
    (hstep : ∀ (j : Nat) (s : σ), j ≠ i → Inv s →
      Except.map proj (body (j : Int) s) = body2 ((shiftIdx i j : Nat) : Int) (proj s) ∧
      ∀ s1, body (j : Int) s = .ok s1 → Inv s1) :
    ∀ (m a : Nat) (s : σ), i < a → Inv s →
      Except.map proj (forLoop body m (a : Int) s)
        = forLoop body2 m ((a - 1 : Nat) : Int) (proj s) := by
  intro m
  induction m with
  | zero => intro a s _ _; rfl
  | succ m ih =>
    intro a s ha hs
    obtain ⟨h1, h2⟩ := hstep a s (by omega) hs
    have hshift : shiftIdx i a = a - 1 := by unfold shiftIdx; rw [if_neg (by omega)]
    rw [hshift] at h1
    rw [forLoop_succ_nat, forLoop_succ_nat, ← h1]
    cases hb : body (a : Int) s with
    | error e => rfl
    | ok s1 =>
      simp only [Except.map]
      have := ih (a + 1) s1 (by omega) (h2 s1 hb)
      have ha1 : a + 1 - 1 = a - 1 + 1 := by omega
      rw [ha1] at this
      exact this

/-- A loop and the loop that skips index `i`: when step `i` of the first leaves the
projected state as it is and the other steps correspond, so do the outcomes. -/
theorem forLoop_skip {σ τ : Type} (body : Int → σ → Except Error σ)
    (body2 : Int → τ → Except Error τ) (proj : σ → τ) (Inv : σ → Prop) (i : Nat)
    (hstep : ∀ (j : Nat) (s : σ), j ≠ i → Inv s →
      Except.map proj (body (j : Int) s) = body2 ((shiftIdx i j : Nat) : Int) (proj s) ∧
      ∀ s1, body (j : Int) s = .ok s1 → Inv s1)
    (hskip : ∀ s, Inv s → ∃ s1, body (i : Int) s = .ok s1 ∧ proj s1 = proj s ∧ Inv s1) :
    ∀ (m a : Nat) (s : σ), a ≤ i → i < a + m → Inv s →
      Except.map proj (forLoop body m (a : Int) s)
        = forLoop body2 (m - 1) (a : Int) (proj s) := by
  intro m
  induction m with
  | zero => intro a s h1 h2 _; omega
  | succ m ih =>
    intro a s hai him hs
    rw [forLoop_succ_nat]
    by_cases hEq : a = i
    · subst hEq
      obtain ⟨s1, hb, hp, hs1⟩ := hskip s hs
      rw [hb]
      simp only [Nat.add_sub_cancel]
      have := forLoop_after_skip body body2 proj Inv a hstep m (a + 1) s1 (by omega) hs1
      rw [this, hp]
      rfl
    · obtain ⟨h1, h2⟩ := hstep a s hEq hs
      have hshift : shiftIdx i a = a := by unfold shiftIdx; rw [if_pos (by omega)]
      rw [hshift] at h1
      obtain ⟨m1, rfl⟩ : ∃ m1, m = m1 + 1 := ⟨m - 1, by omega⟩
      simp only [Nat.add_sub_cancel]
      rw [forLoop_succ_nat, ← h1]
      cases hb : body (a : Int) s with
      | error e => rfl
      | ok s1 =>
        simp only [Except.map]
        have := ih (a + 1) s1 (by omega) (by omega) (h2 s1 hb)
        simpa only [Nat.add_sub_cancel] using this

theorem removeSignal_index_samples (header : HeaderRecord) (i j : Nat) (hj : j ≠ i) :
    index (removeSignal header i).NumOfSamples ((shiftIdx i j : Nat) : Int)
      = index header.NumOfSamples (j : Int) :=
  index_eraseIdx_shift header.NumOfSamples i j hj

theorem fillRow_erase (header : HeaderRecord) (showLabels : Bool) (DR : Int) (i j : Nat)
    (hj : j ≠ i) (st : FillState) :
    Except.map (eraseRow i) (fillRow header showLabels DR (j : Int) st)
      = fillRow (removeSignal header i) showLabels DR ((shiftIdx i j : Nat) : Int)
          (eraseRow i st) := by
  simp only [fillRow, removeSignal_index_samples header i j hj, bind, Except.bind]
  cases index header.NumOfSamples (j : Int) with
  | error e => cases showLabels <;> rfl
  | ok n =>
    cases showLabels with
    | false =>
      simp only [Bool.false_eq_true, if_false]
      exact forLoop_sim (fillCell (j : Int)) (fillCell ((shiftIdx i j : Nat) : Int)) (eraseRow i)
        (fun _ => True) (fun k s _ => ⟨fillCell_erase i j hj k s, fun _ _ => trivial⟩) _ _ st
        trivial
    | true =>
      simp only [if_true]
      exact forLoop_sim (fillCell (j : Int)) (fillCell ((shiftIdx i j : Nat) : Int)) (eraseRow i)
        (fun _ => True) (fun k s _ => ⟨fillCell_erase i j hj k s, fun _ _ => trivial⟩) _ _ st
        trivial

/-- A signal with zero samples per data record: its part of a data record reads nothing
and changes nothing. -/
theorem fillRow_zero (header : HeaderRecord) (showLabels : Bool) (DR : Int) (i : Nat)
    (hzero : header.NumOfSamples[i]? = some 0) (st : FillState) :
    fillRow header showLabels DR (i : Int) st = .ok st := by
  have hidx : index header.NumOfSamples (i : Int) = .ok 0 := index_ok _ _ i _ rfl hzero
  cases showLabels with
  | false =>
    simp only [fillRow, hidx, bind, Except.bind, Bool.false_eq_true, if_false, mul_zero,
      zero_mul, sub_zero, Int.toNat_zero, forLoop]
  | true =>
    have : ((DR + 1) * 0 - (0 * DR + 1)).toNat = 0 := by
      simp only [mul_zero, zero_mul, zero_add]; rfl
    simp only [fillRow, hidx, bind, Except.bind, if_true, this, forLoop]

theorem fillRecord_erase (header : HeaderRecord) (showLabels : Bool) (DR : Int) (i : Nat)
    (hzero : header.NumOfSamples[i]? = some 0) (st : FillState) (hi : i < st.1.length) :
    Except.map (eraseRow i) (fillRecord header showLabels DR st)
      = fillRecord (removeSignal header i) showLabels DR (eraseRow i st) := by
  have hlen : (eraseRow i st).1.length = st.1.length - 1 := by
    simp only [eraseRow, List.length_eraseIdx, hi, if_true]
  simp only [fillRecord, hlen]
  exact forLoop_skip (fillRow header showLabels DR) (fillRow (removeSignal header i) showLabels DR)
    (eraseRow i) (fun _ => True) i
    (fun j s hj _ => ⟨fillRow_erase header showLabels DR i j hj s, fun _ _ => trivial⟩)
    (fun s _ => ⟨s, fillRow_zero header showLabels DR i hzero s, rfl, trivial⟩)
    st.1.length 0 st (Nat.zero_le _) (by omega) trivial

theorem fillCell_length (row col : Int) (st st1 : FillState)
    (h : fillCell row col st = .ok st1) : st1.1.length = st.1.length := by
  unfold fillCell at h
  cases hrb : readBytes st.2 2 0 1 with
  | error e => rw [hrb] at h; cases h
  | ok bs =>
    rw [hrb] at h
    simp only [bind, Except.bind] at h
    cases hconv : binaryReadInt16 bs.1 with
    | none => rw [hconv] at h; cases h
    | some tmp =>
      rw [hconv] at h
      simp only at h
      cases hset : setCell st.1 row col (Itoa tmp) with
      | error e => rw [hset] at h; cases h
      | ok record1 =>
        rw [hset] at h
        cases h
        obtain ⟨r, -, -, -, -, rfl⟩ := setCell_eq_ok _ _ _ _ _ hset
        simp

theorem fillRow_length (header : HeaderRecord) (showLabels : Bool) (DR row : Int)
    (st st1 : FillState) (h : fillRow header showLabels DR row st = .ok st1) :
    st1.1.length = st.1.length := by
  unfold fillRow at h
  cases hidx : index header.NumOfSamples row with
  | error e => rw [hidx] at h; cases showLabels <;> cases h
  | ok n =>
    rw [hidx] at h
    simp only [bind, Except.bind] at h
    cases showLabels with
    | false =>
      simp only [Bool.false_eq_true, if_false] at h
      exact forLoop_partial (fillCell row) (fun _ s => s.1.length = st.1.length) _ _ st st1 h rfl
        (fun k s s2 _ hs hb => (fillCell_length _ _ s s2 hb).trans hs)
    | true =>
      simp only [if_true] at h
      exact forLoop_partial (fillCell row) (fun _ s => s.1.length = st.1.length) _ _ st st1 h rfl
        (fun k s s2 _ hs hb => (fillCell_length _ _ s s2 hb).trans hs)

theorem fillRecord_length (header : HeaderRecord) (showLabels : Bool) (DR : Int)
    (st st1 : FillState) (h : fillRecord header showLabels DR st = .ok st1) :
    st1.1.length = st.1.length :=
  forLoop_partial (fillRow header showLabels DR) (fun _ s => s.1.length = st.1.length)
    _ _ st st1 h rfl
    (fun _ s s2 _ hs hb => (fillRow_length header showLabels DR _ s s2 hb).trans hs)

theorem allocRow_erase (header : HeaderRecord) (showLabels : Bool) (i j : Nat) (hj : j ≠ i)
    (record : List (List Bytes)) :
    Except.map (fun r => r.eraseIdx i) (allocRow header showLabels (j : Int) record)
      = allocRow (removeSignal header i) showLabels ((shiftIdx i j : Nat) : Int)
          (record.eraseIdx i) := by
  have hlab : index (removeSignal header i).Label ((shiftIdx i j : Nat) : Int)
      = index header.Label (j : Int) := index_eraseIdx_shift header.Label i j hj
  have hDR : (removeSignal header i).NumOfDR = header.NumOfDR := rfl
  simp only [allocRow, removeSignal_index_samples header i j hj, hlab, hDR,
    index_eraseIdx_shift record i j hj, bind, Except.bind, Int.toNat_ofNat]
  cases index header.NumOfSamples (j : Int) with
  | error e => cases showLabels <;> rfl
  | ok n =>
    cases showLabels with
    | false =>
      simp only [Bool.false_eq_true, if_false]
      cases make stringSize ([] : Bytes) (header.NumOfDR * n) with
      | error e => rfl
      | ok r =>
        simp only
        cases index record (j : Int) with
        | error e => rfl
        | ok old => simp only [pure, Except.pure, Except.map, eraseIdx_set_ne record i j _ hj]
    | true =>
      simp only [if_true]
      cases make stringSize ([] : Bytes) (header.NumOfDR * n + 1) with
      | error e => rfl
      | ok r =>
        simp only
        cases index record (j : Int) with
        | error e => rfl
        | ok old =>
          simp only
          cases index header.Label (j : Int) with
          | error e => rfl
          | ok label =>
            simp only
            rw [← eraseIdx_set_ne record i j _ hj]
            exact setCell_erase _ i j hj 0 label

theorem allocRow_zero (header : HeaderRecord) (showLabels : Bool) (i : Nat)
    (hzero : header.NumOfSamples[i]? = some 0)
    (hlab : showLabels = true → i < header.Label.length)
    (record : List (List Bytes)) (hi : i < record.length) :
    ∃ record1, allocRow header showLabels (i : Int) record = .ok record1 ∧
      record1.eraseIdx i = record.eraseIdx i := by
  have hidx : index header.NumOfSamples (i : Int) = .ok 0 := index_ok _ _ i _ rfl hzero
  have hrow : index record (i : Int) = .ok record[i] :=
    index_ok _ _ i _ rfl (List.getElem?_eq_getElem hi)
  cases showLabels with
  | false =>
    refine ⟨record.set i [], ?_, eraseIdx_set_self _ _ _⟩
    have hmk : make stringSize ([] : Bytes) (header.NumOfDR * 0) = .ok [] := by
      rw [make_ok _ _ _ (by simp) (by simp)]
      simp
    simp only [allocRow, hidx, hrow, hmk, bind, Except.bind, Bool.false_eq_true, if_false,
      pure, Except.pure, Int.toNat_ofNat]
  | true =>
    have hl := hlab rfl
    have hlabel : index header.Label (i : Int) = .ok header.Label[i] :=
      index_ok _ _ i _ rfl (List.getElem?_eq_getElem hl)
    have hset := setCell_ok (record.set i [[]]) i 0 [[]] header.Label[i] (i : Int) 0 rfl rfl
      (by rw [List.getElem?_set, if_pos rfl, if_pos hi]) (by simp)
    refine ⟨(record.set i [[]]).set i ([([] : Bytes)].set 0 header.Label[i]), ?_, ?_⟩
    · have hmk : make stringSize ([] : Bytes) (header.NumOfDR * 0 + 1) = .ok [[]] := by
        rw [make_ok _ _ _ (by simp) (by simp [stringSize, maxAlloc])]
        simp
      simp only [allocRow, hidx, hrow, hlabel, hmk, bind, Except.bind, if_true, Int.toNat_ofNat]
      exact hset
    · rw [eraseIdx_set_self, eraseIdx_set_self]

theorem eraseIdx_replicate {α : Type} (n i : Nat) (x : α) (hi : i < n) :
    (List.replicate n x).eraseIdx i = List.replicate (n - 1) x := by
  induction n generalizing i with
  | zero => omega
  | succ n ih =>
    cases i with
    | zero => simp [List.replicate_succ]
    | succ i =>
      have := ih i (by omega)
      obtain ⟨m, rfl⟩ : ∃ m, n = m + 1 := ⟨n - 1, by omega⟩
      simp only [List.replicate_succ, List.eraseIdx_cons_succ, Nat.add_sub_cancel] at this ⊢
      rw [this]

/-- Removing a signal of zero samples per data record from a header whose `NumOfSignals`
rows are within the allocation limit removes its row from the outcome of `DataToCSV`
and changes nothing else: not the other rows, not the final file, not a failure. -/
theorem DataToCSV_erase (header : HeaderRecord) (source : File) (showLabels : Bool) (i : Nat)
    (hzero : header.NumOfSamples[i]? = some 0) (hsig : (i : Int) < header.NumOfSignals)
    (hlab : showLabels = true → i < header.Label.length)
    (hout : (sliceSize : Int) * header.NumOfSignals ≤ (maxAlloc : Int)) :
    Except.map (eraseRow i) (DataToCSV header source showLabels)
      = DataToCSV (removeSignal header i) source showLabels := by
  have hB : (removeSignal header i).NumOfBytes = header.NumOfBytes := rfl
  have hD : (removeSignal header i).NumOfDR = header.NumOfDR := rfl
  have hS : (removeSignal header i).NumOfSignals = header.NumOfSignals - 1 := rfl
  simp only [DataToCSV, hB, hD, hS]
  cases source.Seek header.NumOfBytes 0 with
  | none => rfl
  | some src =>
    have hn : (header.NumOfSignals - 1).toNat = header.NumOfSignals.toNat - 1 := by omega
    have hiN : i < header.NumOfSignals.toNat := by omega
    have hmk0 : make sliceSize ([] : List Bytes) header.NumOfSignals
        = .ok (List.replicate header.NumOfSignals.toNat []) := make_ok _ _ _ (by omega) hout
    have hmk1 : make sliceSize ([] : List Bytes) (header.NumOfSignals - 1)
        = .ok (List.replicate (header.NumOfSignals.toNat - 1) []) := by
      have hsz : ((sliceSize : Nat) : Int) = 24 := rfl
      rw [make_ok _ _ _ (by omega) (by rw [hsz] at hout ⊢; omega), hn]
    simp only [hmk0, hmk1, bind, Except.bind, List.length_replicate]
    have halloc := forLoop_skip (allocRow header showLabels)
      (allocRow (removeSignal header i) showLabels) (fun r => r.eraseIdx i)
      (fun r => i < r.length) i
      (fun j r hj hr => ⟨allocRow_erase header showLabels i j hj r,
        fun r1 h1 => by show i < r1.length; rw [allocRow_length _ _ _ _ _ h1]; exact hr⟩)
      (fun r hr => by
        obtain ⟨r1, h1, h2⟩ := allocRow_zero header showLabels i hzero hlab r hr
        exact ⟨r1, h1, h2, by show i < r1.length; rw [allocRow_length _ _ _ _ _ h1]; exact hr⟩)
      header.NumOfSignals.toNat 0 (List.replicate header.NumOfSignals.toNat [])
      (Nat.zero_le _) (by omega) (by simpa using hiN)
    simp only [Nat.cast_zero, eraseIdx_replicate _ _ _ hiN] at halloc
    rw [← halloc]
    cases hal : forLoop (allocRow header showLabels) header.NumOfSignals.toNat 0
        (List.replicate header.NumOfSignals.toNat []) with
    | error e => rfl
    | ok rec1 =>
      simp only [Except.map]
      have hlen1 : i < rec1.length := by
        have := forLoop_partial (allocRow header showLabels)
          (fun _ r => r.length = header.NumOfSignals.toNat) _ _ _ _ hal (by simp)
          (fun k r r2 _ hr hb => (allocRow_length _ _ _ _ _ hb).trans hr)
        omega
      exact forLoop_sim (fillRecord header showLabels)
        (fillRecord (removeSignal header i) showLabels) (eraseRow i)
        (fun s => i < s.1.length)
        (fun k s hs => ⟨fillRecord_erase header showLabels k i hzero s hs,
          fun s1 h1 => by show i < s1.1.length; rw [fillRecord_length _ _ _ _ _ h1]; exact hs⟩)
        _ 0 (rec1, src) hlen1

/-- The rows of the matrix of a successful `DataToCSV`: as many as the signal count, each
of the shape `RowShape`. -/
theorem DataToCSV_ok_shape (header : HeaderRecord) (source : File) (showLabels : Bool)
    (st : FillState) (h : DataToCSV header source showLabels = .ok st) :
    (st.1.length : Int) = header.NumOfSignals ∧
      ∀ (i : Nat) (row : List Bytes), st.1[i]? = some row → RowShape header showLabels i row := by
  unfold DataToCSV at h
  cases hseek : source.Seek header.NumOfBytes 0 with
  | none => rw [hseek] at h; cases h
  | some src =>
    rw [hseek] at h
    simp only [bind, Except.bind] at h
    cases hmk : make sliceSize ([] : List Bytes) header.NumOfSignals with
    | error e => rw [hmk] at h; cases h
    | ok rec0 =>
      rw [hmk] at h
      obtain ⟨hS, rfl⟩ := make_eq_ok _ _ _ _ hmk
      simp only at h
      cases halloc : forLoop (allocRow header showLabels)
          (List.replicate header.NumOfSignals.toNat ([] : List Bytes)).length 0
          (List.replicate header.NumOfSignals.toNat []) with
      | error e => rw [halloc] at h; cases h
      | ok rec1 =>
        rw [halloc] at h
        simp only at h
        have h1 := forLoop_partial (allocRow header showLabels)
          (fun k r => r.length = header.NumOfSignals.toNat ∧
            ∀ i row, i < k → r[i]? = some row → RowShape header showLabels i row)
          _ _ _ _ halloc ⟨by simp, fun i row hi _ => by omega⟩
          (fun k r r2 _ hs hb => by
            rw [zero_add] at hb
            obtain ⟨h1, h2⟩ := allocRow_shape header showLabels k r r2 hb hs.2
            exact ⟨h1.trans hs.1, h2⟩)
        have h2 := forLoop_partial (fillRecord header showLabels)
          (fun _ s => s.1.length = header.NumOfSignals.toNat ∧
            ∀ i row, s.1[i]? = some row → RowShape header showLabels i row)
          _ _ _ _ h ⟨h1.1, fun i row hr => h1.2 i row (by
              have := (List.getElem?_eq_some_iff.1 hr).1
              simp only [List.length_replicate] at *
              omega) hr⟩
          (fun k s s2 _ hs hb => by
            obtain ⟨h3, h4⟩ := fillRecord_shape header showLabels _ s s2 hb (by omega) hs.2
            exact ⟨h3.trans hs.1, h4⟩)
        exact ⟨by rw [h2.1]; omega, h2.2⟩

theorem atoiDigits_bound (s : Bytes) :
    ∀ (n m : Nat), atoiDigits s n = some m → m < (n + 1) * 10 ^ s.length := by
  induction s with
  | nil =>
    intro n m h
    simp only [atoiDigits, Option.some.injEq] at h
    subst h
    simp
  | cons c rest ih =>
    intro n m h
    simp only [atoiDigits] at h
    split at h
    · cases h
    · rename_i hc
      have h1 := ih _ _ h
      have h2 : n * 10 + (c.toNat - 48) + 1 ≤ (n + 1) * 10 := by omega
      calc m < (n * 10 + (c.toNat - 48) + 1) * 10 ^ rest.length := h1
        _ ≤ ((n + 1) * 10) * 10 ^ rest.length := Nat.mul_le_mul_right _ h2
        _ = (n + 1) * 10 ^ (c :: rest).length := by
            simp only [List.length_cons, pow_succ]; ring

/-- A text of at most 4 bytes is decoded by `Atoi` as a value below 10000. -/
theorem Atoi_four (s : Bytes) (hs : s.length ≤ 4) : (Atoi s).1 < 10000 := by
  cases s with
  | nil => decide
  | cons c rest =>
    have hlen : 0 < (c :: rest).length ∧ (c :: rest).length < 19 := by
      simp only [List.length_cons] at hs ⊢; omega
    have hbound : ∀ (t : Bytes) (n : Nat), t.length ≤ 4 → atoiDigits t 0 = some n →
        n < 10000 := by
      intro t n ht hd
      have h1 := atoiDigits_bound t 0 n hd
      have h2 : 10 ^ t.length ≤ 10 ^ 4 := Nat.pow_le_pow_right (by norm_num) ht
      simp only [zero_add, one_mul] at h1
      norm_num at h2
      omega
    simp only [List.length_cons] at hs
    simp only [Atoi, hlen, and_self, if_true]
    by_cases hsign : c = 45 ∨ c = 43
    · simp only [hsign, if_true, true_and]
      split
      · decide
      · cases hd : atoiDigits rest 0 with
        | none => dsimp only; decide
        | some n =>
          have h3 := hbound rest n (by omega) hd
          dsimp only
          split
          · show -(n : Int) < 10000
            omega
          · show (n : Int) < 10000
            omega
    · simp only [hsign, if_false, false_and]
      cases hd : atoiDigits (c :: rest) 0 with
      | none => dsimp only; decide
      | some n =>
        have h3 := hbound (c :: rest) n (by simp only [List.length_cons]; omega) hd
        dsimp only
        split
        · show -(n : Int) < 10000
          omega
        · show (n : Int) < 10000
          omega

/-- The signal count that a successful `readFields` decodes is below 10000: its field has 4
bytes. -/
theorem readFields_signal_count (header : HeaderRecord) (source : File)
    (r : HeaderRecord × File) (h : readFields header source = .ok r) :
    r.1.NumOfSignals < 10000 := by
  simp only [readFields, bind, Except.bind] at h
  iterate 8 (split at h; · cases h)
  rename_i r8 h8
  have hlen := readBytes_length _ _ _ _ _ h8
  have hinv := forLoop_partial readSignal
    (fun _ st => st.1.NumOfSignals = (Atoi (TrimSpace r8.1)).1) _ _ _ _ h rfl
    (fun k s s2 _ hs hb => (readSignal_globals _ s s2 hb).2.2.2.2.2.2.2.trans hs)
  rw [hinv]
  exact Atoi_four _ (le_trans (TrimSpace_length _) (le_of_eq hlen))

/-- The matrix of every decoded header is within the allocation limit: the signal count
that a successful `ReadHeader` decodes is below 10000. -/
theorem ReadHeader_signal_count (header : HeaderRecord) (source : File)
    (r : HeaderRecord × File) (h : ReadHeader header source = .ok r) :
    r.1.NumOfSignals < 10000 ∧ (sliceSize : Int) * r.1.NumOfSignals ≤ (maxAlloc : Int) := by
  obtain ⟨src, -, hf⟩ := ReadHeader_ok_readFields header source r h
  have h1 := readFields_signal_count header src r hf
  have hsz : ((sliceSize : Nat) : Int) = 24 := rfl
  have hmax : ((maxAlloc : Nat) : Int) = 281474976710656 := rfl
  refine ⟨h1, ?_⟩
  rw [hsz, hmax]
  omega

/-- A `make` that succeeds was within the allocation limit. -/
theorem make_eq_ok_fits {α : Type} (size : Nat) (zero : α) (len : Int) (l : List α)
    (h : make size zero len = .ok l) : (size : Int) * len ≤ (maxAlloc : Int) := by
  unfold make at h
  split at h
  · cases h
  · split at h
    · cases h
    · rename_i h1
      exact not_lt.mp h1

/-- The matrix of a successful `DataToCSV` was within the allocation limit. -/
theorem DataToCSV_ok_fits (header : HeaderRecord) (source : File) (showLabels : Bool)
    (st : FillState) (h : DataToCSV header source showLabels = .ok st) :
    (sliceSize : Int) * header.NumOfSignals ≤ (maxAlloc : Int) := by
  unfold DataToCSV at h
  cases hseek : source.Seek header.NumOfBytes 0 with
  | none => rw [hseek] at h; cases h
  | some src =>
    rw [hseek] at h
    simp only [bind, Except.bind] at h
    cases hmk : make sliceSize ([] : List Bytes) header.NumOfSignals with
    | error e => rw [hmk] at h; cases h
    | ok rec0 => exact make_eq_ok_fits _ _ _ _ hmk

/-- Zero-sample signals are transparent (C16): for a signal `i` of the header (an index
below the signal count, with a label when labels are shown) whose `NumOfSamples` is 0,
the part of every data record that belongs to signal `i` reads nothing and fails
nowhere, row `i` of the matrix holds no sample, and whenever `DataToCSV` succeeds,
`DataToCSV` on the header without signal `i` succeeds with the same matrix without row
`i` and the same file.  On a header whose `NumOfSignals` rows are within the allocation
limit of the runtime, as are those of every header that `ReadHeader` decodes
(`ReadHeader_signal_count`), the two runs moreover fail alike: removing signal `i`
removes row `i` from the outcome and changes nothing else.  Right at the limit the run
with one row less gets past an allocation at which the run with signal `i` panics. -/
theorem zero_sample_signal_transparent (header : HeaderRecord) (source : File)
    (showLabels : Bool) (i : Nat) (hzero : header.NumOfSamples[i]? = some 0)
    (hsig : (i : Int) < header.NumOfSignals)
    (hlab : showLabels = true → i < header.Label.length) :
    (∀ (DR : Int) (st : FillState), fillRow header showLabels DR (i : Int) st = .ok st) ∧
      (∀ record source1, DataToCSV header source showLabels = .ok (record, source1) →
        ∃ row, record[i]? = some row ∧ row.length = labelCells showLabels) ∧
      (∀ st, DataToCSV header source showLabels = .ok st →
        DataToCSV (removeSignal header i) source showLabels = .ok (eraseRow i st)) ∧
      ((sliceSize : Int) * header.NumOfSignals ≤ (maxAlloc : Int) →
        Except.map (eraseRow i) (DataToCSV header source showLabels)
          = DataToCSV (removeSignal header i) source showLabels) := by
  refine ⟨fun DR st => fillRow_zero header showLabels DR i hzero st, ?_,
    fun st h => ?_, DataToCSV_erase header source showLabels i hzero hsig hlab⟩
  · intro record source1 h
    obtain ⟨hlen, hshape⟩ := DataToCSV_ok_shape header source showLabels _ h
    have hi : i < record.length := by simp only at hlen; omega
    refine ⟨record[i], List.getElem?_eq_getElem hi, ?_⟩
    obtain ⟨n, hn, hf, ht⟩ := hshape i record[i] (List.getElem?_eq_getElem hi)
    rw [hzero] at hn
    cases hn
    cases showLabels with
    | false =>
      have := hf rfl
      simp only [labelCells, Bool.false_eq_true, if_false]
      omega
    | true =>
      have := (ht rfl).1
      simp only [labelCells, if_true]
      omega
  · have h4 := DataToCSV_erase header source showLabels i hzero hsig hlab
      (DataToCSV_ok_fits header source showLabels st h)
    rw [h] at h4
    exact h4.symm

/-- Witness for C16: the example of the specification with a signal `Z` of zero samples
between its two signals; without it the header is the example header, and the rows
of `A` and `B` are the same. -/
theorem zero_sample_signal_transparent_witness :
    removeSignal zeroSignalHeader 1 = exampleHeader ∧
      DataToCSV zeroSignalHeader exampleSource false
        = .ok ([[[49, 48], [50, 48], [49, 49], [50, 49]], [], [[51, 48], [51, 49]]],
            ⟨exampleSource.data, 16⟩) ∧
      ((∀ (DR : Int) (st : FillState),
          fillRow zeroSignalHeader false DR ((1 : Nat) : Int) st = .ok st) ∧
        (∀ record source1, DataToCSV zeroSignalHeader exampleSource false = .ok (record, source1) →
          ∃ row, record[1]? = some row ∧ row.length = labelCells false) ∧
        (∀ st, DataToCSV zeroSignalHeader exampleSource false = .ok st →
          DataToCSV (removeSignal zeroSignalHeader 1) exampleSource false
            = .ok (eraseRow 1 st)) ∧
        ((sliceSize : Int) * zeroSignalHeader.NumOfSignals ≤ (maxAlloc : Int) →
          Except.map (eraseRow 1) (DataToCSV zeroSignalHeader exampleSource false)
            = DataToCSV (removeSignal zeroSignalHeader 1) exampleSource false)) :=
  ⟨by decide, by decide,
    zero_sample_signal_transparent zeroSignalHeader exampleSource false 1 (by decide)
      (by decide) (by decide)⟩

end EDFparser
